import Mathlib

/-!
Verification of `analytic_gravity.h`.

Shallow embedding of `src/gravity/analytic_gravity.h` (GIZMO analytic gravity with
the binary-anchor extensions).

Conventions of the embedding.

* C `double` is modelled by a linearly ordered field `R` (exact arithmetic).  The
  defining equations are generic in `R`, so they evaluate over `ℚ`; theorems that
  need `sqrt` to be the real square root instantiate `R := ℝ`.
* `sqrt` and `pow` of the C math library are explicit parameters of the routines
  that call them.
* The flat arrays `All.BHdata` and `BHdataall` are functions `Nat → R` (index ↦ cell).
* The particle array `P` is a function `Nat → Particle R`; three-component C arrays
  are `Fin 3 → R`.
* The preprocessor switches are boolean fields of `Config`.
* `for(i = FirstActiveParticle; i >= 0; i = NextActiveParticle[i])` is the fuelled
  traversal `forActive`; it answers `none` when the fuel does not reach the end of
  the chain.
* Where a statement is about which operations are evaluated rather than about values,
  the definition carries the evidence: `binarySlotForce_traced` returns the divisors of
  the divisions a slot pass evaluates, and table reads are fallible (`readTable`,
  `readTableAt`).
* An ordered field has no NaN.  Where the behaviour on NaN matters (the time `All.Time`
  of the growing-disk interpolation) the value is a `TimeValue`, a number or NaN, and
  every C comparison with NaN is false.
* The routine `drift_particle`, defined outside the file, is a parameter acting on the
  particle it is called for.
-/

set_option autoImplicit false

namespace AnalyticGravity

/-! ## Data model -/

/-- The fields of `P[i]` (and `SphP[i].VelPred`) that the file reads or writes;
`PType` is the C field `Type`. -/
structure Particle (R : Type) where
  Pos : Fin 3 → R
  Vel : Fin 3 → R
  Mass : R
  PType : Int
  ID : Nat
  GravAccel : Fin 3 → R
  tidal_tensorps : Fin 3 → Fin 3 → R
  min_xyz_to_bh : Fin 3 → R
  Ti_current : Int
  VelPred : Fin 3 → R

/-- The preprocessor switches that select code in the file. -/
structure Config where
  SELFGRAVITY_OFF : Bool
  RT_SELFGRAVITY_OFF : Bool
  COMPUTE_TIDAL_TENSOR_IN_GRAVTREE : Bool
  GRAVITY_ANALYTIC : Bool
  GRAVITY_ANALYTIC_ANCHOR_TO_PARTICLE : Bool
  BINARY : Bool
  BOX_PERIODIC : Bool
  BINARY_SINK_GAS : Bool
  BH_GET_TORQUES : Bool
  deriving DecidableEq, Repr

/-! ## The active-particle traversal -/

/-- The loop `for(i = FirstActiveParticle; i >= 0; i = NextActiveParticle[i]) body(i)`,
started at index `i` on state `s`, with `fuel` bounding the number of iterations. -/
def forActive {S : Type} (NextActiveParticle : Nat → Int) (body : Nat → S → S) :
    Nat → Int → S → Option S
  | 0, i, s => if 0 ≤ i then none else some s
  | fuel + 1, i, s =>
    if 0 ≤ i then
      forActive NextActiveParticle body fuel (NextActiveParticle i.toNat) (body i.toNat s)
    else some s

/-- The indices visited by the active-particle traversal, in visiting order. -/
def activeChain (NextActiveParticle : Nat → Int) : Nat → Int → Option (List Nat)
  | 0, i => if 0 ≤ i then none else some []
  | fuel + 1, i =>
    if 0 ≤ i then
      (activeChain NextActiveParticle fuel (NextActiveParticle i.toNat)).map (fun l => i.toNat :: l)
    else some []

/-! ## FindBinary : the filter over the gathered buffer (lines 270-278) -/

/-- The copy `for(k=0;k<5;k++) All.BHdata[k+i*5]=BHdataall[k+j*5];`. -/
def copyRecord {R : Type} (BHdataall : Nat → R) (j i : Nat) (BHdata : Nat → R) : Nat → R :=
  (List.range 5).foldl (fun B k => Function.update B (k + i * 5) (BHdataall (k + j * 5))) BHdata

/-- The loop `for(j=..;j<2*NTask;j++){ if(BHdataall[3+j*5]>0) {copy; i++; if(i>1) break;} }`
with `n` iterations left, current record index `j` and current slot index `i`. -/
def FindBinary_filterLoop {R : Type} [LinearOrderedField R] (BHdataall : Nat → R) :
    Nat → Nat → Nat → (Nat → R) → (Nat → R)
  | 0, _, _, BHdata => BHdata
  | n + 1, j, i, BHdata =>
    if 0 < BHdataall (3 + j * 5) then
      if i + 1 > 1 then copyRecord BHdataall j i BHdata
      else FindBinary_filterLoop BHdataall n (j + 1) (i + 1) (copyRecord BHdataall j i BHdata)
    else FindBinary_filterLoop BHdataall n (j + 1) i BHdata

/-- The part of `FindBinary` after `MPI_Allgather`: `i=0; for(j=0;j<2*NTask;j++) ...`,
mapping the previous `All.BHdata` to the new one. -/
def FindBinary_filter {R : Type} [LinearOrderedField R] (NTask : Nat) (BHdataall : Nat → R)
    (BHdata : Nat → R) : Nat → R :=
  FindBinary_filterLoop BHdataall (2 * NTask) 0 0 BHdata

/-- Indices, in gather order, of the gathered records whose mass field is positive. -/
def positiveRecords {R : Type} [LinearOrderedField R] (NTask : Nat) (BHdataall : Nat → R) :
    List Nat :=
  (List.range (2 * NTask)).filter (fun j => decide (0 < BHdataall (3 + j * 5)))

/-! ## GravAccel_BinaryOrbit : the force loop (lines 288-304) -/

/-- One pass of the body of `for(j=0;j<2;j++)` (lines 294-302) for slot `j` on one particle:
the particle it leaves, paired with the divisors of the divisions it evaluates, in order of
evaluation.  The only divisions of the loop body are the three of line 302 (one per `k`),
each by `r2*r`; a pass that leaves at `continue` (line 294) or fails the test `r2!=0`
(line 302) evaluates none. -/
def binarySlotForce_traced {R : Type} [LinearOrderedField R] (sqrt : R → R) (cfg : Config)
    (boxHalf : Fin 3 → R) (BHdata : Nat → R) (j : Nat) (p : Particle R) :
    Particle R × List R :=
  if BHdata (3 + j * 5) = 0 then (p, [])
  else
    let dp : Fin 3 → R := fun k => p.Pos k - BHdata (k.val + j * 5)
    let dp : Fin 3 → R := if cfg.BOX_PERIODIC then fun k => dp k - boxHalf k else dp
    let r2 := dp 0 * dp 0 + dp 1 * dp 1 + dp 2 * dp 2
    let r := sqrt r2
    if r2 ≠ 0 then
      ({ p with GravAccel := fun k => p.GravAccel k + -BHdata (3 + j * 5) * dp k / (r2 * r) },
        [r2 * r, r2 * r, r2 * r])
    else (p, [])

/-- One pass of the body of `for(j=0;j<2;j++)` (lines 294-302) for slot `j` on one particle:
the particle it leaves. -/
def binarySlotForce {R : Type} [LinearOrderedField R] (sqrt : R → R) (cfg : Config)
    (boxHalf : Fin 3 → R) (BHdata : Nat → R) (j : Nat) (p : Particle R) : Particle R :=
  (binarySlotForce_traced sqrt cfg boxHalf BHdata j p).1

/-- Lines 288-304 of `GravAccel_BinaryOrbit`: empty without `BINARY`, otherwise the loop over
the active particles with the two-slot inner loop.  This is the whole routine when neither
`BINARY_SINK_GAS` nor `BH_GET_TORQUES` is defined. -/
def GravAccel_BinaryOrbit_force {R : Type} [LinearOrderedField R] (sqrt : R → R) (cfg : Config)
    (boxHalf : Fin 3 → R) (BHdata : Nat → R) (NextActiveParticle : Nat → Int) (fuel : Nat)
    (FirstActiveParticle : Int) (P : Nat → Particle R) : Option (Nat → Particle R) :=
  if cfg.BINARY then
    forActive NextActiveParticle
      (fun i P => Function.update P i
        (binarySlotForce sqrt cfg boxHalf BHdata 1
          (binarySlotForce sqrt cfg boxHalf BHdata 0 (P i))))
      fuel FirstActiveParticle P
  else some P

/-- Position stored in slot `j` of the anchor table. -/
def anchorPos {R : Type} (BHdata : Nat → R) (j : Nat) : Fin 3 → R :=
  fun k => BHdata (k.val + j * 5)

/-- Euclidean length of a 3-vector, with the given square root. -/
def norm3 {R : Type} [LinearOrderedField R] (sqrt : R → R) (v : Fin 3 → R) : R :=
  sqrt (v 0 * v 0 + v 1 * v 1 + v 2 * v 2)

/-- The contribution of slot `j` as the specification words it: the pull
`-m (p - X) / |p - X|^3` of an anchor of mass `m` at `X` on a point `p`, and nothing when
`m = 0` or `X = p`. -/
def anchorPull {R : Type} [LinearOrderedField R] (sqrt : R → R) (BHdata : Nat → R) (j : Nat)
    (p : Fin 3 → R) : Fin 3 → R :=
  if BHdata (3 + j * 5) ≠ 0 ∧ anchorPos BHdata j ≠ p then
    fun k => -BHdata (3 + j * 5) * (p k - anchorPos BHdata j k)
      / norm3 sqrt (fun k => p k - anchorPos BHdata j k) ^ 3
  else 0

/-- A particle with the given type, position and acceleration, with mass 1, ID 1 and every
other field zero. -/
def mkParticle {R : Type} [LinearOrderedField R] (type : Int) (pos acc : Fin 3 → R) :
    Particle R :=
  { Pos := pos, Vel := 0, Mass := 1, PType := type, ID := 1, GravAccel := acc,
    tidal_tensorps := 0, min_xyz_to_bh := 0, Ti_current := 0, VelPred := 0 }

/-- The particle array whose every entry is the same particle. -/
def constParticles {R : Type} (p : Particle R) : Nat → Particle R := fun _ => p

/-- The configuration with no switch defined. -/
def cfgNone : Config :=
  { SELFGRAVITY_OFF := false, RT_SELFGRAVITY_OFF := false,
    COMPUTE_TIDAL_TENSOR_IN_GRAVTREE := false, GRAVITY_ANALYTIC := false,
    GRAVITY_ANALYTIC_ANCHOR_TO_PARTICLE := false, BINARY := false, BOX_PERIODIC := false,
    BINARY_SINK_GAS := false, BH_GET_TORQUES := false }

/-- The configuration with `GRAVITY_ANALYTIC` and `BINARY` only. -/
def cfgBinary : Config :=
  { cfgNone with GRAVITY_ANALYTIC := true, BINARY := true }

/-! ## GravAccel_findBH (lines 79-87) -/

/-- The local particle storage of one MPI rank. -/
structure Rank (R : Type) where
  NumPart : Nat
  P : Nat → Particle R

/-- The first loop of `GravAccel_findBH`,
`for(i=..;i<NumPart;i++){ if(P[i].Type==5){for(k..) BHpos[k]=P[i].Pos[k]; break;} }`,
with `n` iterations left from index `i`. -/
def findBH_scan {R : Type} (P : Nat → Particle R) : Nat → Nat → (Fin 3 → R) → (Fin 3 → R)
  | 0, _, BHpos => BHpos
  | n + 1, i, BHpos =>
    if (P i).PType = 5 then fun k => (P i).Pos k else findBH_scan P n (i + 1) BHpos

/-- The local candidate `BHpos` handed to the reduction: `BHpos[3]={0}` after the scan. -/
def findBH_BHpos {R : Type} [LinearOrderedField R] (r : Rank R) : Fin 3 → R :=
  findBH_scan r.P r.NumPart 0 (fun _ => 0)

/-- The collective `MPI_Allreduce(send, recv, n, MPI_DOUBLE, MPI_SUM, MPI_COMM_WORLD)`:
every rank receives the element-wise sum of the vectors sent by all ranks. -/
def MPI_Allreduce_SUM {R : Type} [LinearOrderedField R] {n : Nat} (sent : List (Fin n → R)) :
    Fin n → R :=
  fun k => (sent.map (fun v => v k)).sum

/-- The second loop of `GravAccel_findBH`:
`for(i=0;i<NumPart;i++){if(P[i].Type==0) {for(k..) P[i].min_xyz_to_bh[k]=BHposall[k]-P[i].Pos[k];}}`. -/
def findBH_update {R : Type} [LinearOrderedField R] (BHposall : Fin 3 → R) (NumPart : Nat)
    (P : Nat → Particle R) : Nat → Particle R :=
  (List.range NumPart).foldl
    (fun P i =>
      if (P i).PType = 0 then
        Function.update P i { P i with min_xyz_to_bh := fun k => BHposall k - (P i).Pos k }
      else P)
    P

/-- The value `BHposall` that the reduction leaves on every rank. -/
def findBH_BHposall {R : Type} [LinearOrderedField R] (ranks : List (Rank R)) : Fin 3 → R :=
  MPI_Allreduce_SUM (ranks.map findBH_BHpos)

/-- One call of `GravAccel_findBH` on every rank of the communicator. -/
def GravAccel_findBH {R : Type} [LinearOrderedField R] (ranks : List (Rank R)) :
    List (Rank R) :=
  ranks.map (fun r => { r with P := findBH_update (findBH_BHposall ranks) r.NumPart r.P })

/-! ## GravAccel_set_zeros_if_needed (lines 69-77) -/

/-- The routine `GravAccel_set_zeros_if_needed`: under `SELFGRAVITY_OFF || RT_SELFGRAVITY_OFF`
a loop over the active particles zeroing `GravAccel`, then under
`COMPUTE_TIDAL_TENSOR_IN_GRAVTREE` a second loop zeroing `tidal_tensorps`. -/
def GravAccel_set_zeros_if_needed {R : Type} [LinearOrderedField R] (cfg : Config)
    (NextActiveParticle : Nat → Int) (fuel : Nat) (FirstActiveParticle : Int)
    (P : Nat → Particle R) : Option (Nat → Particle R) :=
  if cfg.SELFGRAVITY_OFF || cfg.RT_SELFGRAVITY_OFF then
    (forActive NextActiveParticle
      (fun i P => Function.update P i { P i with GravAccel := fun _ => 0 })
      fuel FirstActiveParticle P).bind
    (fun P =>
      if cfg.COMPUTE_TIDAL_TENSOR_IN_GRAVTREE then
        forActive NextActiveParticle
          (fun i P => Function.update P i { P i with tidal_tensorps := fun _ _ => 0 })
          fuel FirstActiveParticle P
      else some P)
  else some P

/-- What the zeroing pre-pass leaves of an active particle. -/
def zeroedParticle {R : Type} [LinearOrderedField R] (cfg : Config) (p : Particle R) :
    Particle R :=
  if cfg.COMPUTE_TIDAL_TENSOR_IN_GRAVTREE then
    { p with GravAccel := fun _ => 0, tidal_tensorps := fun _ _ => 0 }
  else { p with GravAccel := fun _ => 0 }

/-! ## GravAccel_StaticPlummerSphere (lines 157-172) -/

/-- The loop body of `GravAccel_StaticPlummerSphere` on one particle. -/
def plummerBody {R : Type} [LinearOrderedField R] (sqrt : R → R) (pow : R → R → R)
    (cfg : Config) (p : Particle R) : Particle R :=
  let dp : Fin 3 → R := fun k => p.Pos k
  let dp : Fin 3 → R :=
    if cfg.GRAVITY_ANALYTIC_ANCHOR_TO_PARTICLE then fun k => -p.min_xyz_to_bh k else dp
  let r2 := dp 0 * dp 0 + dp 1 * dp 1 + dp 2 * dp 2
  let _r := sqrt r2
  let p1 : Particle R :=
    { p with GravAccel := fun k => p.GravAccel k + -dp k / pow (r2 + 1) 1.5 }
  if cfg.COMPUTE_TIDAL_TENSOR_IN_GRAVTREE then
    let f := pow (1 + r2) 1.5
    let f2 := pow (1 + r2) 2.5
    { p1 with tidal_tensorps := fun k j =>
        (if j = k then p1.tidal_tensorps k j - 1 / f else p1.tidal_tensorps k j)
          + 3 * dp k * dp j / f2 }
  else p1

/-- The routine `GravAccel_StaticPlummerSphere`. -/
def GravAccel_StaticPlummerSphere {R : Type} [LinearOrderedField R] (sqrt : R → R)
    (pow : R → R → R) (cfg : Config) (NextActiveParticle : Nat → Int) (fuel : Nat)
    (FirstActiveParticle : Int) (P : Nat → Particle R) : Option (Nat → Particle R) :=
  forActive NextActiveParticle (fun i P => Function.update P i (plummerBody sqrt pow cfg (P i)))
    fuel FirstActiveParticle P

/-- The acceleration the Plummer model adds to a particle, as a function of the particle's
fields other than `GravAccel` (its position, or its anchor offset under
`GRAVITY_ANALYTIC_ANCHOR_TO_PARTICLE`). -/
def plummerIncrement {R : Type} [LinearOrderedField R] (pow : R → R → R) (cfg : Config)
    (Pos min_xyz_to_bh : Fin 3 → R) : Fin 3 → R :=
  let dp : Fin 3 → R :=
    if cfg.GRAVITY_ANALYTIC_ANCHOR_TO_PARTICLE then fun k => -min_xyz_to_bh k else Pos
  fun k => -dp k / pow (dp 0 * dp 0 + dp 1 * dp 1 + dp 2 * dp 2 + 1) 1.5

/-- The acceleration one anchor slot adds to a particle at `Pos`. -/
def binarySlotIncrement {R : Type} [LinearOrderedField R] (sqrt : R → R) (cfg : Config)
    (boxHalf : Fin 3 → R) (BHdata : Nat → R) (j : Nat) (Pos : Fin 3 → R) : Fin 3 → R :=
  let dp : Fin 3 → R := fun k =>
    if cfg.BOX_PERIODIC then Pos k - BHdata (k.val + j * 5) - boxHalf k
    else Pos k - BHdata (k.val + j * 5)
  let r2 := dp 0 * dp 0 + dp 1 * dp 1 + dp 2 * dp 2
  if BHdata (3 + j * 5) = 0 ∨ r2 = 0 then 0
  else fun k => -BHdata (3 + j * 5) * dp k / (r2 * sqrt r2)

/-- The acceleration the binary force loop adds to a particle at `Pos`. -/
def binaryIncrement {R : Type} [LinearOrderedField R] (sqrt : R → R) (cfg : Config)
    (boxHalf : Fin 3 → R) (BHdata : Nat → R) (Pos : Fin 3 → R) : Fin 3 → R :=
  if cfg.BINARY then
    binarySlotIncrement sqrt cfg boxHalf BHdata 0 Pos
      + binarySlotIncrement sqrt cfg boxHalf BHdata 1 Pos
  else 0

/-- The routine `GravAccel_RayleighTaylorTest`: for every active particle with `ID != 0`,
`P[i].GravAccel[1]=-0.5`. -/
def GravAccel_RayleighTaylorTest {R : Type} [LinearOrderedField R]
    (NextActiveParticle : Nat → Int) (fuel : Nat) (FirstActiveParticle : Int)
    (P : Nat → Particle R) : Option (Nat → Particle R) :=
  forActive NextActiveParticle
    (fun i P =>
      if (P i).ID ≠ 0 then
        Function.update P i { P i with GravAccel := Function.update (P i).GravAccel 1 (-0.5) }
      else P)
    fuel FirstActiveParticle P

/-- The configuration with `SELFGRAVITY_OFF`, `GRAVITY_ANALYTIC` and `BINARY`. -/
def cfgBinaryNoSelfGravity : Config :=
  { cfgNone with SELFGRAVITY_OFF := true, GRAVITY_ANALYTIC := true, BINARY := true }

/-! ## GravAccel_GrowingDiskPotential : the parameter interpolation (lines 218-238) -/

/-- The constant `n_table`. -/
def n_table : Int := 14

/-- The table `t_disk_table[14]`. -/
def t_disk_table (R : Type) [LinearOrderedField R] : List R :=
  [0.2, 0.250, 0.266, 0.285, 0.308, 0.333, 0.363, 0.400, 0.444, 0.500, 0.572, 0.667, 0.800,
    1.000]

/-- The table `m_disk_table[14]`. -/
def m_disk_table (R : Type) [LinearOrderedField R] : List R :=
  [0.0, 0.061, 0.088, 0.117, 0.153, 0.223, 0.348, 0.429, 0.581, 1.118, 2.004, 3.008, 4.403,
    6.001]

/-- The table `r_disk_table[14]`. -/
def r_disk_table (R : Type) [LinearOrderedField R] : List R :=
  [1.0, 5.071, 7.513, 6.787, 6.162, 3.277, 4.772, 3.964, 3.418, 2.511, 2.463, 1.503, 1.005,
    1.150]

/-- The table `z_disk_table[14]`. -/
def z_disk_table (R : Type) [LinearOrderedField R] : List R :=
  [1.0, 4.185, 8.971, 5.089, 3.532, 3.057, 4.557, 2.117, 1.828, 0.809, 0.217, 0.148, 0.335,
    0.404]

/-- A read `table[i]` of a C array with an `int` index: `none` outside the array. -/
def readTable {R : Type} (table : List R) (i : Int) : Option R :=
  if 0 ≤ i then table[i.toNat]? else none

/-- The search `for(k=..;k<n_table;k++) {if(t_disk_table[k] > t) {i1=k; break;}}` with `n`
iterations left from index `k`; it answers the final value of `i1`. -/
def diskSearch {R : Type} [LinearOrderedField R] (t : R) : Nat → Int → Int → Option Int
  | 0, _, i1 => some i1
  | n + 1, k, i1 =>
    (readTable (t_disk_table R) k).bind
      (fun tk => if tk > t then some k else diskSearch t n (k + 1) i1)

/-- The indices `i0`, `i1` and the weight `dt` computed by lines 226-235 for `t = All.Time`. -/
def diskIndices {R : Type} [LinearOrderedField R] (t : R) : Option (Int × Int × R) :=
  (readTable (t_disk_table R) 0).bind (fun t0 =>
    if t ≤ t0 then some (0, 0, 0)
    else
      (readTable (t_disk_table R) (n_table - 1)).bind (fun tlast =>
        if t ≥ tlast then some (n_table - 1, n_table - 1, 0)
        else
          (diskSearch t (n_table - 1).toNat 1 0).bind (fun i1 =>
            let i0 := i1 - 1
            (readTable (t_disk_table R) i0).bind (fun ti0 =>
              (readTable (t_disk_table R) i1).bind (fun ti1 =>
                some (i0, i1, (t - ti0) / (ti1 - ti0)))))))

/-- The line `double x = table[i0] + dt * (table[i1]-table[i0]);`. -/
def diskLerp {R : Type} [LinearOrderedField R] (table : List R) (i0 i1 : Int) (dt : R) :
    Option R :=
  (readTable table i0).bind (fun a =>
    (readTable table i1).bind (fun b => some (a + dt * (b - a))))

/-- The triple `(m_disk, r_disk, z_disk)` of lines 236-238 for `t = All.Time`; `none` if any
table is read outside its bounds. -/
def GrowingDisk_parameters {R : Type} [LinearOrderedField R] (t : R) : Option (R × R × R) :=
  (diskIndices t).bind (fun idx =>
    (diskLerp (m_disk_table R) idx.1 idx.2.1 idx.2.2).bind (fun m_disk =>
      (diskLerp (r_disk_table R) idx.1 idx.2.1 idx.2.2).bind (fun r_disk =>
        (diskLerp (z_disk_table R) idx.1 idx.2.1 idx.2.2).bind (fun z_disk =>
          some (m_disk, r_disk, z_disk)))))

/-! ## GravAccel_KeplerianOrbit (lines 392-405) -/

/-- The loop body of `GravAccel_KeplerianOrbit` on one particle. -/
def keplerianBody {R : Type} [LinearOrderedField R] (sqrt : R → R) (cfg : Config)
    (boxHalf : Fin 3 → R) (p : Particle R) : Particle R :=
  let dp : Fin 3 → R := fun k => p.Pos k
  let dp : Fin 3 → R :=
    if cfg.GRAVITY_ANALYTIC_ANCHOR_TO_PARTICLE then fun k => -p.min_xyz_to_bh k
    else if cfg.BOX_PERIODIC then fun k => dp k - boxHalf k
    else dp
  let r2 := dp 0 * dp 0 + dp 1 * dp 1 + dp 2 * dp 2
  let r := sqrt r2
  if p.PType = 0 ∧ r2 ≠ 0 then { p with GravAccel := fun k => -dp k / (r2 * r) } else p

/-- The routine `GravAccel_KeplerianOrbit`. -/
def GravAccel_KeplerianOrbit {R : Type} [LinearOrderedField R] (sqrt : R → R) (cfg : Config)
    (boxHalf : Fin 3 → R) (NextActiveParticle : Nat → Int) (fuel : Nat)
    (FirstActiveParticle : Int) (P : Nat → Particle R) : Option (Nat → Particle R) :=
  forActive NextActiveParticle
    (fun i P => Function.update P i (keplerianBody sqrt cfg boxHalf (P i)))
    fuel FirstActiveParticle P

/-! ## Collective operations issued by one call of the dispatcher -/

/-- A collective call, with the element count it is issued with. -/
inductive Collective where
  | Allreduce (count : Nat)
  | Allgather (count : Nat)
  deriving DecidableEq, Repr

/-- Collectives of `GravAccel_findBH`: the `MPI_Allreduce` of 3 doubles (line 85). -/
def collectives_findBH : List Collective := [Collective.Allreduce 3]

/-- Collectives of `FindBinary`: under `BINARY`, the `MPI_Allgather` of 10 doubles (line 269). -/
def collectives_FindBinary (cfg : Config) : List Collective :=
  if cfg.BINARY then [Collective.Allgather 10] else []

/-- Collectives of `GravAccel_BinaryOrbit` on the rank `ThisTask`: inside `BINARY` and
`BINARY_SINK_GAS || BH_GET_TORQUES`, the four `MPI_Allreduce` of lines 363-366 sit under
`#ifdef BH_GET_TORQUES` within `if(ThisTask==0){...}`, and the one of line 373 under
`#ifdef BINARY_SINK_GAS`. -/
def collectives_BinaryOrbit (cfg : Config) (ThisTask : Nat) : List Collective :=
  if cfg.BINARY then
    if cfg.BINARY_SINK_GAS || cfg.BH_GET_TORQUES then
      (if cfg.BH_GET_TORQUES then
        (if ThisTask = 0 then
          [Collective.Allreduce 4, Collective.Allreduce 2, Collective.Allreduce 2,
            Collective.Allreduce 1]
        else [])
      else [])
      ++ (if cfg.BINARY_SINK_GAS then [Collective.Allreduce 6] else [])
    else []
  else []

/-- Collectives of `add_analytic_gravitational_forces` on the rank `ThisTask`, in issue
order (`GravAccel_set_zeros_if_needed`, `GravAccel_ShearingSheet` and
`GravAccel_RDITestProblem` issue none). -/
def collectives_add_analytic_gravitational_forces (cfg : Config) (ThisTask : Nat) :
    List Collective :=
  if cfg.GRAVITY_ANALYTIC then
    (if cfg.SELFGRAVITY_OFF && cfg.GRAVITY_ANALYTIC_ANCHOR_TO_PARTICLE then collectives_findBH
      else [])
    ++ (if cfg.BINARY then collectives_FindBinary cfg else [])
    ++ collectives_BinaryOrbit cfg ThisTask
  else []

/-- The configuration with `GRAVITY_ANALYTIC`, `BINARY` and `BH_GET_TORQUES`. -/
def cfgTorques : Config :=
  { cfgNone with GRAVITY_ANALYTIC := true, BINARY := true, BH_GET_TORQUES := true }

/-- A rank holding two gas particles and no anchor. -/
def rankGasOnly : Rank ℚ :=
  { NumPart := 2, P := constParticles (mkParticle 0 ![1, 2, 3] 0) }

/-- A rank holding a gas particle (index 0) and the anchor, Type 5, at (2,3,4) (index 1). -/
def rankWithAnchor : Rank ℚ :=
  { NumPart := 2,
    P := fun i => if i = 1 then mkParticle 5 ![2, 3, 4] 0 else mkParticle 0 ![1, 1, 1] 0 }

/-- An anchor table with a mass-2 anchor at the origin in slot 0 and an invalid slot 1. -/
def tableOneAnchor (R : Type) [LinearOrderedField R] : Nat → R :=
  fun idx => ([0, 0, 0, 2, 11, 0, 0, 0, 0, 0] : List R).getD idx 0

/-- The chain with a single active particle, index 0, when started from 0. -/
def singleActive : Nat → Int := fun _ => -1

/-- A gathered buffer of two ranks (four records): records 1 and 3 have positive mass. -/
def gatherTwoValid : Nat → ℚ :=
  fun idx => ([0, 0, 0, 0, 0, 1, 2, 3, 4, 11, 0, 0, 0, 0, 0, 5, 6, 7, 8, 12] : List ℚ).getD idx 0

/-- A gathered buffer of one rank holding two anchors of masses 1 and 2 (IDs 11 and 12). -/
def gatherBoth : Nat → ℚ :=
  fun idx => ([1, 0, 0, 1, 11, -1, 0, 0, 2, 12] : List ℚ).getD idx 0

/-- A gathered buffer of one rank holding only the anchor of mass 1. -/
def gatherOne : Nat → ℚ :=
  fun idx => ([1, 0, 0, 1, 11, 0, 0, 0, 0, 0] : List ℚ).getD idx 0

/-- A rank whose first anchor (Type 5) sits at index 2, behind two gas particles. -/
def rankAnchorThird : Rank ℚ :=
  { NumPart := 4,
    P := fun i => if i = 2 then mkParticle 5 ![2, 3, 4] 0
      else if i = 3 then mkParticle 5 ![9, 9, 9] 0 else mkParticle 0 ![1, 1, 1] 0 }

/-! ## GravAccel_StaticHernquist (lines 177-193) and GravAccel_StaticIsothermalSphere (198-211) -/

/-- The loop body of `GravAccel_StaticHernquist` on one particle, with `G = All.G`. -/
def hernquistBody {R : Type} [LinearOrderedField R] (sqrt : R → R) (cfg : Config) (G : R)
    (p : Particle R) : Particle R :=
  let HQ_Mtot : R := 100
  let HQ_a : R := 20
  let dp : Fin 3 → R := fun k => p.Pos k
  let dp : Fin 3 → R :=
    if cfg.GRAVITY_ANALYTIC_ANCHOR_TO_PARTICLE then fun k => -p.min_xyz_to_bh k else dp
  let r2 := dp 0 * dp 0 + dp 1 * dp 1 + dp 2 * dp 2
  let r := sqrt r2
  let f := r + HQ_a
  let m := HQ_Mtot * (r / f) * (r / f)
  let p1 : Particle R :=
    { p with GravAccel := fun k => p.GravAccel k + -G * m * dp k / (r2 * r) }
  if cfg.COMPUTE_TIDAL_TENSOR_IN_GRAVTREE then
    let f0 := G * HQ_Mtot
    let fa := f0 * (2 / f + 1 / r) / (r2 * f * f)
    let fxx := -f0 / (r * f * f)
    { p1 with tidal_tensorps := fun k j =>
        (if j = k then p1.tidal_tensorps k j + fxx else p1.tidal_tensorps k j)
          + fa * dp k * dp j }
  else p1

/-- The routine `GravAccel_StaticHernquist`. -/
def GravAccel_StaticHernquist {R : Type} [LinearOrderedField R] (sqrt : R → R) (cfg : Config)
    (G : R) (NextActiveParticle : Nat → Int) (fuel : Nat) (FirstActiveParticle : Int)
    (P : Nat → Particle R) : Option (Nat → Particle R) :=
  forActive NextActiveParticle (fun i P => Function.update P i (hernquistBody sqrt cfg G (P i)))
    fuel FirstActiveParticle P

/-- The loop body of `GravAccel_StaticIsothermalSphere` on one particle, with `G = All.G`. -/
def isothermalBody {R : Type} [LinearOrderedField R] (sqrt : R → R) (cfg : Config) (G : R)
    (p : Particle R) : Particle R :=
  let ISO_Mmax : R := 100
  let ISO_Rmax : R := 200
  let dp : Fin 3 → R := fun k => p.Pos k
  let dp : Fin 3 → R :=
    if cfg.GRAVITY_ANALYTIC_ANCHOR_TO_PARTICLE then fun k => -p.min_xyz_to_bh k else dp
  let r2 := dp 0 * dp 0 + dp 1 * dp 1 + dp 2 * dp 2
  let r := sqrt r2
  let m := ISO_Mmax
  let m := if r < ISO_Rmax then m * (r / ISO_Rmax) else m
  { p with GravAccel := fun k => p.GravAccel k + -G * m * dp k / (r2 * r) }

/-- The routine `GravAccel_StaticIsothermalSphere`. -/
def GravAccel_StaticIsothermalSphere {R : Type} [LinearOrderedField R] (sqrt : R → R)
    (cfg : Config) (G : R) (NextActiveParticle : Nat → Int) (fuel : Nat)
    (FirstActiveParticle : Int) (P : Nat → Particle R) : Option (Nat → Particle R) :=
  forActive NextActiveParticle
    (fun i P => Function.update P i (isothermalBody sqrt cfg G (P i)))
    fuel FirstActiveParticle P

/-! ## apply_excision (lines 486-506) -/

/-- The value `excision_radius` of lines 488-493, for `G = All.G` and `Time = All.Time`. -/
def excision_radius {R : Type} [LinearOrderedField R] (sqrt : R → R) (pow : R → R → R)
    (G Time : R) : R :=
  let EXCISION_MASS : R := 0
  let EXCISION_INIT_RADIUS : R := 0
  let EXCISION_ETA : R := 1
  EXCISION_ETA *
    pow (EXCISION_INIT_RADIUS * EXCISION_INIT_RADIUS * EXCISION_INIT_RADIUS
        + 3 * sqrt (2 * G * EXCISION_MASS) * pow EXCISION_INIT_RADIUS (3 / 2) * Time
        + 9 / 2 * G * EXCISION_MASS * Time * Time)
      (1 / 3)

/-- The loop body of `apply_excision` on one particle, for a given excision radius. -/
def excisionBody {R : Type} [LinearOrderedField R] (sqrt : R → R) (cfg : Config)
    (radius : R) (p : Particle R) : Particle R :=
  if p.PType = 0 then
    let dp : Fin 3 → R := fun k => p.Pos k
    let dp : Fin 3 → R :=
      if cfg.GRAVITY_ANALYTIC_ANCHOR_TO_PARTICLE then fun k => -p.min_xyz_to_bh k else dp
    let r2 := dp 0 * dp 0 + dp 1 * dp 1 + dp 2 * dp 2
    let r := sqrt r2
    if r < radius then { p with Mass := 0 } else p
  else p

/-- The routine `apply_excision` (compiled under `PARTICLE_EXCISION`). -/
def apply_excision {R : Type} [LinearOrderedField R] (sqrt : R → R) (pow : R → R → R)
    (cfg : Config) (G Time : R) (NextActiveParticle : Nat → Int) (fuel : Nat)
    (FirstActiveParticle : Int) (P : Nat → Particle R) : Option (Nat → Particle R) :=
  forActive NextActiveParticle
    (fun i P => Function.update P i
      (excisionBody sqrt cfg (excision_radius sqrt pow G Time) (P i)))
    fuel FirstActiveParticle P

/-! ## Closed forms the specification states for the sphere models -/

/-- The Plummer acceleration `-p / (r^2 + 1)^1.5` with `r = |p|` (G = M = a = 1). -/
def plummerAccel {R : Type} [LinearOrderedField R] (sqrt : R → R) (pow : R → R → R)
    (p : Fin 3 → R) : Fin 3 → R :=
  fun k => -p k / pow (norm3 sqrt p ^ 2 + 1) 1.5

/-- The Hernquist enclosed mass `M(r) = 100 (r / (r + 20))^2`. -/
def hernquistMass {R : Type} [LinearOrderedField R] (r : R) : R :=
  100 * (r / (r + 20)) ^ 2

/-- The singular-isothermal enclosed mass `M(r) = 100 min(r / 200, 1)`. -/
def isothermalMass {R : Type} [LinearOrderedField R] (r : R) : R :=
  100 * min (r / 200) 1

/-- The acceleration `-G M(r) p / r^3` of an enclosed-mass law `M`, with `r = |p|`. -/
def enclosedMassAccel {R : Type} [LinearOrderedField R] (sqrt : R → R) (G : R) (M : R → R)
    (p : Fin 3 → R) : Fin 3 → R :=
  fun k => -G * M (norm3 sqrt p) * p k / norm3 sqrt p ^ 3

/-! ## GravAccel_StaticNFW (lines 443-460) -/

/-- The small-`x` series `0.5-2.*x/3.+0.75*x*x` of line 457. -/
def nfw_series {R : Type} [LinearOrderedField R] (x : R) : R :=
  0.5 - 2 * x / 3 + 0.75 * x * x

/-- The closed form `(log(1+x)-x/(1+x)) / (x*x)` of line 457. -/
def nfw_closed {R : Type} [LinearOrderedField R] (log : R → R) (x : R) : R :=
  (log (1 + x) - x / (1 + x)) / (x * x)

/-- The value `R200` of line 446, for `G = All.G` and `H0 = All.Hubble_H0_CodeUnits`. -/
def nfw_R200 {R : Type} [LinearOrderedField R] (pow : R → R → R) (G H0 : R) : R :=
  let NFW_M200 : R := 100
  pow (NFW_M200 * G / (100 * H0 * H0)) (1 / 3)

/-- The loop body of `GravAccel_StaticNFW` on one particle. -/
def nfwBody {R : Type} [LinearOrderedField R] (sqrt : R → R) (pow : R → R → R) (log : R → R)
    (cfg : Config) (boxHalf : Fin 3 → R) (G H0 : R) (p : Particle R) : Particle R :=
  let NFW_M200 : R := 100
  let NFW_C : R := 10
  let R200 := nfw_R200 pow G H0
  let Rs := R200 / NFW_C
  let dp : Fin 3 → R := fun k => p.Pos k
  let dp : Fin 3 → R :=
    if cfg.GRAVITY_ANALYTIC_ANCHOR_TO_PARTICLE then fun k => -p.min_xyz_to_bh k
    else if cfg.BOX_PERIODIC then fun k => dp k - boxHalf k
    else dp
  let r2 := dp 0 * dp 0 + dp 1 * dp 1 + dp 2 * dp 2
  let r := sqrt r2
  let x := r / Rs
  let cfac := log (1 + NFW_C) - NFW_C / (1 + NFW_C)
  if r > 0 then
    let mfac := nfw_closed log x
    let mfac := if x ≤ 0.04 then nfw_series x else mfac
    { p with GravAccel := fun k =>
        p.GravAccel k + -G * mfac * NFW_M200 / (cfac * Rs * Rs) * (dp k / r) }
  else p

/-- The routine `GravAccel_StaticNFW`. -/
def GravAccel_StaticNFW {R : Type} [LinearOrderedField R] (sqrt : R → R) (pow : R → R → R)
    (log : R → R) (cfg : Config) (boxHalf : Fin 3 → R) (G H0 : R)
    (NextActiveParticle : Nat → Int) (fuel : Nat) (FirstActiveParticle : Int)
    (P : Nat → Particle R) : Option (Nat → Particle R) :=
  forActive NextActiveParticle
    (fun i P => Function.update P i (nfwBody sqrt pow log cfg boxHalf G H0 (P i)))
    fuel FirstActiveParticle P

/-! ## GravAccel_BinaryOrbit : diagnostics and anchor feedback (lines 305-387) -/

/-- The state written by the block of lines 306-359: the particle array (the external
`drift_particle` may rewrite the particle it is called for), the local `acc_sink[6]` stored as
two rows (`acc_sink[k + 3*a]` is `acc_sink a k`), `All.torque[4]`, `All.psi[2]`,
`All.edisc[2]` and the local `Mdisc`. -/
structure BinaryDiag (R : Type) where
  P : Nat → Particle R
  acc_sink : Fin 2 → Fin 3 → R
  torque : Fin 4 → R
  psi : Fin 2 → R
  edisc : Fin 2 → R
  Mdisc : R

/-- The call `if(P[i].Ti_current!=All.Ti_Current) drift_particle(i,All.Ti_Current);`, with the
routine `drift_particle` (defined outside this file) a parameter acting on the particle it
is called for. -/
def driftIfNeeded {R : Type} (drift_particle : Particle R → Int → Particle R)
    (Ti_Current : Int) (p : Particle R) : Particle R :=
  if p.Ti_current ≠ Ti_Current then drift_particle p Ti_Current else p

/-- The value `separation` of line 312. -/
def binarySeparation {R : Type} [LinearOrderedField R] (sqrt : R → R) (pow : R → R → R)
    (BHdata : Nat → R) : R :=
  sqrt (pow (BHdata 0 - BHdata 5) 2 + pow (BHdata 1 - BHdata 6) 2
    + pow (BHdata 2 - BHdata 7) 2)

/-- The values `xcom`, `ycom`, `zcom` of lines 313-316, as a vector. -/
def binaryCom {R : Type} [LinearOrderedField R] (BHdata : Nat → R) : Fin 3 → R :=
  let Mbinary := BHdata 3 + BHdata 8
  fun k => (BHdata 3 * BHdata k.val + BHdata 8 * BHdata (k.val + 5)) / Mbinary

/-- The vectors `dp[6]` of lines 324-328 as two rows: `dp[k + 3*a]` is `diag_dp a k`. -/
def diag_dp {R : Type} [LinearOrderedField R] (cfg : Config) (boxHalf : Fin 3 → R)
    (BHdata : Nat → R) (p : Particle R) : Fin 2 → Fin 3 → R :=
  let dp : Fin 2 → Fin 3 → R := fun a k => p.Pos k - BHdata (k.val + a.val * 5)
  if cfg.BOX_PERIODIC then fun a k => dp a k - boxHalf k else dp

/-- The values `r2[0]`, `r2[1]` after line 330 (the distances to the two anchors). -/
def diag_r {R : Type} [LinearOrderedField R] (sqrt : R → R) (dp : Fin 2 → Fin 3 → R) :
    Fin 2 → R :=
  fun a => sqrt (dp a 0 * dp a 0 + dp a 1 * dp a 1 + dp a 2 * dp a 2)

/-- The update of `acc_sink` by lines 331-335. -/
def diag_acc_sink {R : Type} [LinearOrderedField R] (acc_sink : Fin 2 → Fin 3 → R) (Mass : R)
    (dp : Fin 2 → Fin 3 → R) (r2 : Fin 2 → R) : Fin 2 → Fin 3 → R :=
  fun a k =>
    if r2 a ≠ 0 then acc_sink a k + Mass * dp a k / (r2 a * r2 a * r2 a) else acc_sink a k

/-- The value `rpcom` of line 337. -/
def diag_rpcom {R : Type} [LinearOrderedField R] (sqrt : R → R) (BHdata : Nat → R)
    (p : Particle R) : R :=
  let xpcom := p.Pos 0 - binaryCom BHdata 0
  let ypcom := p.Pos 1 - binaryCom BHdata 1
  let zpcom := p.Pos 2 - binaryCom BHdata 2
  sqrt (xpcom * xpcom + ypcom * ypcom + zpcom * zpcom)

/-- The update of `All.torque` by lines 338-343, from the current `acc_sink`. -/
def diag_torque {R : Type} [LinearOrderedField R] (BHdata : Nat → R) (separation rpcom : R)
    (torque : Fin 4 → R) (acc_sink : Fin 2 → Fin 3 → R) : Fin 4 → R :=
  let xcom := binaryCom BHdata 0
  let ycom := binaryCom BHdata 1
  let t0 := BHdata 3 * ((BHdata 0 - xcom) * acc_sink 0 1 - (BHdata 1 - ycom) * acc_sink 0 0)
  let t1 := BHdata 8 * ((BHdata 5 - xcom) * acc_sink 1 1 - (BHdata 6 - ycom) * acc_sink 1 0)
  let torque : Fin 4 → R :=
    if rpcom > separation then Function.update (Function.update torque 0 t0) 2 t1
    else torque
  Function.update (Function.update torque 1 t0) 3 t1

/-- The update of `All.psi` by lines 345-348. -/
def diag_psi {R : Type} [LinearOrderedField R] (cos sin : R → R) (atan2 : R → R → R)
    (psi : Fin 2 → R) (p : Particle R) : Fin 2 → R :=
  let tmp := p.Mass * cos (atan2 (p.Pos 1) (p.Pos 0))
  let tmp2 := p.Mass * sin (atan2 (p.Pos 1) (p.Pos 0))
  Function.update (Function.update psi 0 (psi 0 + tmp)) 1 (psi 1 + tmp2)

/-- The update of `All.edisc` by lines 349-352. -/
def diag_edisc {R : Type} [LinearOrderedField R] (rpcom : R) (edisc : Fin 2 → R)
    (p : Particle R) : Fin 2 → R :=
  let tmp3 := p.Mass *
    ((p.Vel 1 * (p.Pos 0 * p.Vel 1 - p.Pos 1 * p.Vel 0)
        - p.Vel 2 * (p.Pos 2 * p.Vel 0 - p.Pos 0 * p.Vel 2)) - p.Pos 0 / rpcom)
  let tmp4 := p.Mass *
    ((p.Vel 2 * (p.Pos 1 * p.Vel 2 - p.Pos 2 * p.Vel 1)
        - p.Vel 0 * (p.Pos 0 * p.Vel 1 - p.Pos 1 * p.Vel 0)) - p.Pos 1 / rpcom)
  Function.update (Function.update edisc 0 (edisc 0 + tmp3)) 1 (edisc 1 + tmp4)

/-- The body of the loop `for(i=0;i<NumPart;i++)` of lines 320-359 for index `i`.  The
statements `acc_sink[2] == 0.0; acc_sink[5] == 0.0;` under `BINARY_IN_2D` are comparisons
without effect. -/
def binaryDiagBody {R : Type} [LinearOrderedField R] (sqrt : R → R) (pow : R → R → R)
    (cos sin : R → R) (atan2 : R → R → R) (drift_particle : Particle R → Int → Particle R)
    (cfg : Config) (boxHalf : Fin 3 → R) (BHdata : Nat → R) (Ti_Current : Int) (i : Nat)
    (s : BinaryDiag R) : BinaryDiag R :=
  if (s.P i).PType = 5 then s
  else
    let p := driftIfNeeded drift_particle Ti_Current (s.P i)
    let dp := diag_dp cfg boxHalf BHdata p
    let r2 := diag_r sqrt dp
    let acc_sink := diag_acc_sink s.acc_sink p.Mass dp r2
    if cfg.BH_GET_TORQUES then
      let rpcom := diag_rpcom sqrt BHdata p
      { P := Function.update s.P i p
        acc_sink := acc_sink
        torque := diag_torque BHdata (binarySeparation sqrt pow BHdata) rpcom s.torque acc_sink
        psi := diag_psi cos sin atan2 s.psi p
        edisc := diag_edisc rpcom s.edisc p
        Mdisc := s.Mdisc }
    else
      { s with P := Function.update s.P i p, acc_sink := acc_sink }

/-- Lines 307-359: the resets, the `Mdisc` loop and the loop over all `NumPart` local
particles. -/
def binaryDiag {R : Type} [LinearOrderedField R] (sqrt : R → R) (pow : R → R → R)
    (cos sin : R → R) (atan2 : R → R → R) (drift_particle : Particle R → Int → Particle R)
    (cfg : Config) (boxHalf : Fin 3 → R) (BHdata : Nat → R) (Ti_Current : Int)
    (NumPart : Nat) (P : Nat → Particle R) : BinaryDiag R :=
  let Mdisc : R :=
    (List.range NumPart).foldl (fun M i => if (P i).PType = 0 then M + (P i).Mass else M) 0
  (List.range NumPart).foldl
    (fun s i =>
      binaryDiagBody sqrt pow cos sin atan2 drift_particle cfg boxHalf BHdata Ti_Current i s)
    { P := P, acc_sink := fun _ _ => 0, torque := fun _ => 0, psi := fun _ => 0,
      edisc := fun _ => 0, Mdisc := Mdisc }

/-- The result `acc_sink_tot` of the `MPI_Allreduce` of line 373 over the ranks, each rank
sending the `acc_sink` of its own loop. -/
def binary_acc_sink_tot {R : Type} [LinearOrderedField R] (sqrt : R → R) (pow : R → R → R)
    (cos sin : R → R) (atan2 : R → R → R) (drift_particle : Particle R → Int → Particle R)
    (cfg : Config) (boxHalf : Fin 3 → R) (BHdata : Nat → R) (Ti_Current : Int)
    (ranks : List (Rank R)) : Fin 2 → Fin 3 → R :=
  fun a => MPI_Allreduce_SUM (ranks.map (fun r =>
    (binaryDiag sqrt pow cos sin atan2 drift_particle cfg boxHalf BHdata Ti_Current
      r.NumPart r.P).acc_sink a))

/-- The feedback loop of lines 375-384 over the active particles (the `printf` calls write
no state). -/
def binaryFeedback {R : Type} [LinearOrderedField R] (BHdata : Nat → R)
    (acc_sink_tot : Fin 2 → Fin 3 → R) (NextActiveParticle : Nat → Int) (fuel : Nat)
    (FirstActiveParticle : Int) (P : Nat → Particle R) : Option (Nat → Particle R) :=
  forActive NextActiveParticle
    (fun i P =>
      if (P i).PType ≠ 5 then P
      else if ((P i).ID : R) = BHdata 4 then
        Function.update P i
          { P i with GravAccel := fun k => (P i).GravAccel k + acc_sink_tot 0 k }
      else
        Function.update P i
          { P i with GravAccel := fun k => (P i).GravAccel k + acc_sink_tot 1 k })
    fuel FirstActiveParticle P

/-- Lines 305-387 on the rank `self`, entered with the particle arrays every rank holds
after its force loop; `before` and `after` are the other ranks of the communicator.  The
all-reduces and the `fprintf` under `BH_GET_TORQUES` write no state of this model. -/
def GravAccel_BinaryOrbit_tail {R : Type} [LinearOrderedField R] (sqrt : R → R)
    (pow : R → R → R) (cos sin : R → R) (atan2 : R → R → R)
    (drift_particle : Particle R → Int → Particle R) (cfg : Config) (boxHalf : Fin 3 → R)
    (BHdata : Nat → R) (Ti_Current : Int) (before after : List (Rank R)) (self : Rank R)
    (NextActiveParticle : Nat → Int) (fuel : Nat) (FirstActiveParticle : Int) :
    Option (Nat → Particle R) :=
  if cfg.BINARY && (cfg.BINARY_SINK_GAS || cfg.BH_GET_TORQUES) then
    let d := binaryDiag sqrt pow cos sin atan2 drift_particle cfg boxHalf BHdata Ti_Current
      self.NumPart self.P
    if cfg.BINARY_SINK_GAS then
      binaryFeedback BHdata
        (binary_acc_sink_tot sqrt pow cos sin atan2 drift_particle cfg boxHalf BHdata
          Ti_Current (before ++ self :: after))
        NextActiveParticle fuel FirstActiveParticle d.P
    else some d.P
  else some self.P

/-- The term one non-anchor particle `p` adds to `acc_sink[k + 3*a]` (lines 324-335). -/
def accSinkTerm {R : Type} [LinearOrderedField R] (sqrt : R → R) (cfg : Config)
    (boxHalf : Fin 3 → R) (BHdata : Nat → R) (p : Particle R) : Fin 2 → Fin 3 → R :=
  diag_acc_sink (fun _ _ => 0) p.Mass (diag_dp cfg boxHalf BHdata p)
    (diag_r sqrt (diag_dp cfg boxHalf BHdata p))

/-- The pull `m (x - X_a) / |x - X_a|^3` of a particle of mass `m` at `x` on the anchor of
slot `a`, as the specification words it, omitted at zero distance. -/
def diskPull {R : Type} [LinearOrderedField R] (sqrt : R → R) (BHdata : Nat → R)
    (p : Particle R) (a : Fin 2) (k : Fin 3) : R :=
  if anchorPos BHdata a.val ≠ p.Pos then
    p.Mass * (p.Pos k - anchorPos BHdata a.val k)
      / norm3 sqrt (fun k => p.Pos k - anchorPos BHdata a.val k) ^ 3
  else 0

/-- The indices of the local non-anchor particles of a rank, in storage order. -/
def nonAnchors {R : Type} (r : Rank R) : List Nat :=
  (List.range r.NumPart).filter (fun i => decide ((r.P i).PType ≠ 5))

/-- The sum, over all non-anchor particles of all ranks, of their pull on the anchor of
slot `a`, each particle taken as the loop reads it (after `drift_particle` where called). -/
def diskPullSum {R : Type} [LinearOrderedField R] (sqrt : R → R)
    (drift_particle : Particle R → Int → Particle R) (BHdata : Nat → R) (Ti_Current : Int)
    (ranks : List (Rank R)) (a : Fin 2) (k : Fin 3) : R :=
  (ranks.map (fun r =>
    ((nonAnchors r).map (fun i =>
      diskPull sqrt BHdata (driftIfNeeded drift_particle Ti_Current (r.P i)) a k)).sum)).sum

/-- The particle array as the loop of lines 320-359 leaves it: every local non-anchor
particle passed through `driftIfNeeded`, every other entry as it was. -/
def driftedParticles {R : Type} (drift_particle : Particle R → Int → Particle R)
    (Ti_Current : Int) (r : Rank R) : Nat → Particle R :=
  fun j =>
    if j < r.NumPart ∧ (r.P j).PType ≠ 5 then driftIfNeeded drift_particle Ti_Current (r.P j)
    else r.P j

/-- The configuration with `GRAVITY_ANALYTIC`, `BINARY` and `BINARY_SINK_GAS`. -/
def cfgSinkGas : Config :=
  { cfgNone with GRAVITY_ANALYTIC := true, BINARY := true, BINARY_SINK_GAS := true }

/-- A rank holding the anchor of ID 11 at the origin (index 0) and a gas particle at
(3,4,0) (index 1). -/
def rankAnchorAndGas (R : Type) [LinearOrderedField R] : Rank R :=
  { NumPart := 2,
    P := fun i => if i = 0 then { mkParticle 5 ![0, 0, 0] 0 with ID := 11 }
      else mkParticle 0 ![3, 4, 0] 0 }

/-- A rank holding two gas particles at (0,0,2). -/
def rankTwoGas (R : Type) [LinearOrderedField R] : Rank R :=
  { NumPart := 2, P := constParticles (mkParticle 0 ![0, 0, 2] 0) }

/-- An anchor table with two unit-mass anchors at (3,0,0) and (-3,0,0). -/
def tableBinary (R : Type) [LinearOrderedField R] : Nat → R :=
  fun idx => ([3, 0, 0, 1, 11, -3, 0, 0, 1, 12] : List R).getD idx 0

/-- Two local gas particles: index 0 at (0,10,0), outside the binary separation, and index 1
at (3,4,0), inside it. -/
def outerThenInner (R : Type) [LinearOrderedField R] : Nat → Particle R :=
  fun i => if i = 0 then mkParticle 0 ![0, 10, 0] 0 else mkParticle 0 ![3, 4, 0] 0

/-- The same two gas particles stored in the other order. -/
def innerThenOuter (R : Type) [LinearOrderedField R] : Nat → Particle R :=
  fun i => if i = 0 then mkParticle 0 ![3, 4, 0] 0 else mkParticle 0 ![0, 10, 0] 0

/-! ## GravAccel_KeplerianTestProblem (lines 411-438) -/

/-- The loop body of `GravAccel_KeplerianTestProblem` on one particle: the three `if`
statements of lines 417, 423 and 431 in sequence. -/
def keplerianTestBody {R : Type} [LinearOrderedField R] (pow : R → R → R) (p : Particle R) :
    Particle R :=
  let x00 : R := 4.0
  let y00 : R := 4.0
  let r := pow (pow (p.Pos 1 - y00) 2 + pow (p.Pos 0 - x00) 2) 0.5
  let d := pow (pow (p.Pos 1 - y00) 2 + pow (p.Pos 0 - x00) 2) 1.5
  let p1 : Particle R :=
    if r > 0.35 ∧ r < 2.1 then
      { p with GravAccel := ![-(p.Pos 0 - x00) / d, -(p.Pos 1 - y00) / d, 0] }
    else p
  let p2 : Particle R :=
    if r ≤ 0.35 then
      { p1 with GravAccel :=
          ![-(p.Pos 0 - x00) * pow (r / 0.35) 2 / d + (p.Pos 0 - x00) * (0.35 - r) / 0.35 / d,
            -(p.Pos 1 - y00) * pow (r / 0.35) 2 / d + (p.Pos 1 - y00) * (0.35 - r) / 0.35 / d,
            0] }
    else p1
  if r ≥ 2.1 then
    { p2 with GravAccel :=
        ![-(p.Pos 0 - x00) * (1 + (r - 2.1) / 0.1) / d,
          -(p.Pos 1 - y00) * (1 + (r - 2.1) / 0.1) / d,
          0] }
  else p2

/-- The routine `GravAccel_KeplerianTestProblem`. -/
def GravAccel_KeplerianTestProblem {R : Type} [LinearOrderedField R] (pow : R → R → R)
    (NextActiveParticle : Nat → Int) (fuel : Nat) (FirstActiveParticle : Int)
    (P : Nat → Particle R) : Option (Nat → Particle R) :=
  forActive NextActiveParticle (fun i P => Function.update P i (keplerianTestBody pow (P i)))
    fuel FirstActiveParticle P

/-! ## GravAccel_KeplerianTestProblem : the three assigned formulas -/

/-- The anchor table `All.BHdata` with its two five-field slots exchanged: cells 0-4 hold
what cells 5-9 held and conversely; any other cell is kept. -/
def swapSlots {R : Type} (BHdata : Nat → R) : Nat → R :=
  fun n => if n < 5 then BHdata (n + 5) else if n < 10 then BHdata (n - 5) else BHdata n

/-- A gathered buffer of one rank holding two anchors: mass 1 at (1,0,0) with ID 11, then
mass 2 at (-1,0,0) with ID 12. -/
def gatherPair (R : Type) [LinearOrderedField R] : Nat → R :=
  fun idx => ([1, 0, 0, 1, 11, -1, 0, 0, 2, 12] : List R).getD idx 0

/-- The same two anchors gathered in the other order. -/
def gatherPairSwapped (R : Type) [LinearOrderedField R] : Nat → R :=
  fun idx => ([-1, 0, 0, 2, 12, 1, 0, 0, 1, 11] : List R).getD idx 0

/-! ## GravAccel_GrowingDiskPotential : the interpolation when `All.Time` may be NaN -/

/-- A value of the C `double` `t = All.Time`: a number of `R`, or NaN. -/
inductive TimeValue (R : Type) where
  | number (x : R) : TimeValue R
  | NaN : TimeValue R

/-- The C comparison `t <= x` for a number `x`: false when `t` is NaN. -/
def TimeValue.le {R : Type} [LinearOrderedField R] (t : TimeValue R) (x : R) : Bool :=
  match t with
  | TimeValue.number y => decide (y ≤ x)
  | TimeValue.NaN => false

/-- The C comparison `t >= x` for a number `x`: false when `t` is NaN. -/
def TimeValue.ge {R : Type} [LinearOrderedField R] (t : TimeValue R) (x : R) : Bool :=
  match t with
  | TimeValue.number y => decide (y ≥ x)
  | TimeValue.NaN => false

/-- The C comparison `x > t` for a number `x`: false when `t` is NaN. -/
def TimeValue.below {R : Type} [LinearOrderedField R] (t : TimeValue R) (x : R) : Bool :=
  match t with
  | TimeValue.number y => decide (x > y)
  | TimeValue.NaN => false

/-- A C expression `f(t)` built from arithmetic on `t` and numbers: NaN when `t` is NaN. -/
def TimeValue.map {R : Type} (f : R → R) (t : TimeValue R) : TimeValue R :=
  match t with
  | TimeValue.number y => TimeValue.number (f y)
  | TimeValue.NaN => TimeValue.NaN

/-- A read `table[i]` that reports the index when it lies outside the array. -/
def readTableAt {R : Type} (table : List R) (i : Int) : Except Int R :=
  match readTable table i with
  | some x => Except.ok x
  | none => Except.error i

/-- The search loop of line 233 for a time that may be NaN (compare `diskSearch`). -/
def diskSearch_anyTime {R : Type} [LinearOrderedField R] (t : TimeValue R) :
    Nat → Int → Int → Except Int Int
  | 0, _, i1 => Except.ok i1
  | n + 1, k, i1 =>
    (readTableAt (t_disk_table R) k).bind
      (fun tk => if t.below tk then Except.ok k else diskSearch_anyTime t n (k + 1) i1)

/-- Lines 226-235 for a time that may be NaN (compare `diskIndices`): the indices `i0`, `i1`
and the weight `dt`, or the index of the first read outside a table. -/
def diskIndices_anyTime {R : Type} [LinearOrderedField R] (t : TimeValue R) :
    Except Int (Int × Int × TimeValue R) :=
  (readTableAt (t_disk_table R) 0).bind (fun t0 =>
    if t.le t0 then Except.ok (0, 0, TimeValue.number 0)
    else
      (readTableAt (t_disk_table R) (n_table - 1)).bind (fun tlast =>
        if t.ge tlast then Except.ok (n_table - 1, n_table - 1, TimeValue.number 0)
        else
          (diskSearch_anyTime t (n_table - 1).toNat 1 0).bind (fun i1 =>
            let i0 := i1 - 1
            (readTableAt (t_disk_table R) i0).bind (fun ti0 =>
              (readTableAt (t_disk_table R) i1).bind (fun ti1 =>
                Except.ok (i0, i1, t.map (fun x => (x - ti0) / (ti1 - ti0))))))))

/-- The line `double x = table[i0] + dt * (table[i1]-table[i0]);` for a weight that may be
NaN. -/
def diskLerp_anyTime {R : Type} [LinearOrderedField R] (table : List R) (i0 i1 : Int)
    (dt : TimeValue R) : Except Int (TimeValue R) :=
  (readTableAt table i0).bind (fun a =>
    (readTableAt table i1).bind (fun b => Except.ok (dt.map (fun d => a + d * (b - a)))))

/-- The triple `(m_disk, r_disk, z_disk)` of lines 236-238 for a time that may be NaN, or the
index of the first read outside a table. -/
def GrowingDisk_parameters_anyTime {R : Type} [LinearOrderedField R] (t : TimeValue R) :
    Except Int (TimeValue R × TimeValue R × TimeValue R) :=
  (diskIndices_anyTime t).bind (fun idx =>
    (diskLerp_anyTime (m_disk_table R) idx.1 idx.2.1 idx.2.2).bind (fun m_disk =>
      (diskLerp_anyTime (r_disk_table R) idx.1 idx.2.1 idx.2.2).bind (fun r_disk =>
        (diskLerp_anyTime (z_disk_table R) idx.1 idx.2.1 idx.2.2).bind (fun z_disk =>
          Except.ok (m_disk, r_disk, z_disk)))))

theorem activeChain_succ_of_some (next : Nat → Int) (fuel : Nat) (i : Int) (l : List Nat)
    (h : activeChain next fuel i = some l) : activeChain next (fuel + 1) i = some l := by
  induction fuel generalizing i l with
  | zero =>
    by_cases hi : 0 ≤ i
    · simp [activeChain, hi] at h
    · simp only [activeChain, hi, if_false, Option.some.injEq] at h
      simp [activeChain, hi, h]
  | succ n ih =>
    by_cases hi : 0 ≤ i
    · rw [activeChain, if_pos hi] at h
      rw [activeChain, if_pos hi]
      cases hc : activeChain next n (next i.toNat) with
      | none => simp [hc] at h
      | some t =>
        rw [hc] at h
        rw [ih _ _ hc]
        exact h
    · rw [activeChain, if_neg hi] at h
      rw [activeChain, if_neg hi]
      exact h

/-- Every index met on a terminating chain starts a terminating chain that is no longer. -/
theorem activeChain_of_mem (next : Nat → Int) (fuel : Nat) (i : Int) (l : List Nat)
    (h : activeChain next fuel i = some l) (j : Nat) (hj : j ∈ l) :
    ∃ t, activeChain next fuel (j : Int) = some t ∧ t.length ≤ l.length := by
  induction fuel generalizing i l with
  | zero =>
    by_cases hi : 0 ≤ i
    · simp [activeChain, hi] at h
    · simp only [activeChain, hi, if_false, Option.some.injEq] at h
      subst h
      simp at hj
  | succ n ih =>
    by_cases hi : 0 ≤ i
    · have h0 := h
      rw [activeChain, if_pos hi] at h
      cases hc : activeChain next n (next i.toNat) with
      | none => simp [hc] at h
      | some t =>
        rw [hc] at h
        simp only [Option.map_some', Option.some.injEq] at h
        subst h
        rcases List.mem_cons.mp hj with rfl | hjt
        · refine ⟨i.toNat :: t, ?_, le_refl _⟩
          rw [Int.toNat_of_nonneg hi]
          exact h0
        · obtain ⟨u, hu, hlen⟩ := ih _ _ hc hjt
          refine ⟨u, activeChain_succ_of_some _ _ _ _ hu, ?_⟩
          simp only [List.length_cons]
          omega
    · simp only [activeChain, hi, if_false, Option.some.injEq] at h
      subst h
      simp at hj

/-- A terminating chain visits no index twice. -/
theorem activeChain_nodup (next : Nat → Int) (fuel : Nat) (i : Int) (l : List Nat)
    (h : activeChain next fuel i = some l) : l.Nodup := by
  induction fuel generalizing i l with
  | zero =>
    by_cases hi : 0 ≤ i
    · simp [activeChain, hi] at h
    · simp only [activeChain, hi, if_false, Option.some.injEq] at h
      subst h
      exact List.nodup_nil
  | succ n ih =>
    by_cases hi : 0 ≤ i
    · have h0 := h
      rw [activeChain, if_pos hi] at h
      cases hc : activeChain next n (next i.toNat) with
      | none => simp [hc] at h
      | some t =>
        rw [hc] at h
        simp only [Option.map_some', Option.some.injEq] at h
        subst h
        refine List.nodup_cons.mpr ⟨?_, ih _ _ hc⟩
        intro hmem
        obtain ⟨u, hu, hlen⟩ := activeChain_of_mem next n _ t hc _ hmem
        rw [Int.toNat_of_nonneg hi] at hu
        have h1 := activeChain_succ_of_some _ _ _ _ hu
        rw [h0] at h1
        simp only [Option.some.injEq] at h1
        rw [← h1] at hlen
        simp only [List.length_cons] at hlen
        omega
    · simp only [activeChain, hi, if_false, Option.some.injEq] at h
      subst h
      exact List.nodup_nil

/-- The traversal is the left fold of its body over the chain. -/
theorem forActive_eq_foldl {S : Type} (next : Nat → Int) (body : Nat → S → S) (fuel : Nat)
    (i : Int) (s : S) :
    forActive next body fuel i s =
      (activeChain next fuel i).map (fun l => l.foldl (fun s i => body i s) s) := by
  induction fuel generalizing i s with
  | zero =>
    by_cases hi : 0 ≤ i <;> simp [forActive, activeChain, hi]
  | succ n ih =>
    by_cases hi : 0 ≤ i
    · rw [forActive, activeChain, if_pos hi, if_pos hi, ih]
      cases activeChain next n (next i.toNat) <;> simp
    · simp [forActive, activeChain, hi]

theorem foldl_update_apply {α : Type} (f : Nat → α → α) (l : List Nat) (hl : l.Nodup)
    (P : Nat → α) (j : Nat) :
    l.foldl (fun P i => Function.update P i (f i (P i))) P j =
      if j ∈ l then f j (P j) else P j := by
  induction l generalizing P with
  | nil => simp
  | cons a t ih =>
    obtain ⟨hat, ht⟩ := List.nodup_cons.mp hl
    rw [List.foldl_cons, ih ht]
    by_cases hj : j ∈ t
    · have hne : j ≠ a := fun e => hat (e ▸ hj)
      simp [hj, Function.update_noteq hne]
    · by_cases hja : j = a
      · subst hja
        simp [hj]
      · simp [hj, hja, Function.update_noteq hja]

/-- A traversal whose body rewrites only the visited particle: on a chain that ends within
the fuel it returns, and it applies the body exactly once to every index of the chain. -/
theorem forActive_pointwise {α : Type} (next : Nat → Int) (f : Nat → α → α) (fuel : Nat)
    (first : Int) (l : List Nat) (h : activeChain next fuel first = some l) (P : Nat → α) :
    forActive next (fun i P => Function.update P i (f i (P i))) fuel first P =
      some (fun j => if j ∈ l then f j (P j) else P j) := by
  rw [forActive_eq_foldl, h]
  simp only [Option.map_some', Option.some.injEq]
  funext j
  exact foldl_update_apply f l (activeChain_nodup next fuel first l h) P j

/-! ## FindBinary -/

theorem copyRecord_apply {R : Type} (BHdataall : Nat → R) (j i : Nat) (BHdata : Nat → R)
    (idx : Nat) :
    copyRecord BHdataall j i BHdata idx =
      if i * 5 ≤ idx ∧ idx < i * 5 + 5 then BHdataall (idx - i * 5 + j * 5) else BHdata idx := by
  have h5 : List.range 5 = [0, 1, 2, 3, 4] := by decide
  simp only [copyRecord, h5, List.foldl_cons, List.foldl_nil, Function.update_apply]
  by_cases h : i * 5 ≤ idx ∧ idx < i * 5 + 5
  · rw [if_pos h]
    obtain ⟨h1, h2⟩ := h
    obtain ⟨d, rfl⟩ := Nat.exists_eq_add_of_le h1
    have hd : d < 5 := by omega
    interval_cases d <;> simp [Nat.add_comm]
  · rw [if_neg h]
    have e : ∀ k, k < 5 → idx ≠ k + i * 5 := by
      intro k hk he
      exact h ⟨by omega, by omega⟩
    rw [if_neg (e 4 (by omega)), if_neg (e 3 (by omega)), if_neg (e 2 (by omega)),
      if_neg (e 1 (by omega)), if_neg (e 0 (by omega))]

theorem filterLoop_slot1 {R : Type} [LinearOrderedField R] (BHdataall : Nat → R) (n j : Nat)
    (BHdata : Nat → R) :
    FindBinary_filterLoop BHdataall n j 1 BHdata =
      match (List.range' j n).filter (fun j => decide (0 < BHdataall (3 + j * 5))) with
      | [] => BHdata
      | a :: _ => copyRecord BHdataall a 1 BHdata := by
  induction n generalizing j with
  | zero => simp [FindBinary_filterLoop]
  | succ n ih =>
    rw [FindBinary_filterLoop, List.range'_succ]
    by_cases h : 0 < BHdataall (3 + j * 5)
    · simp [h]
    · simp [h, ih]

theorem filterLoop_slot0 {R : Type} [LinearOrderedField R] (BHdataall : Nat → R) (n j : Nat)
    (BHdata : Nat → R) :
    FindBinary_filterLoop BHdataall n j 0 BHdata =
      match (List.range' j n).filter (fun j => decide (0 < BHdataall (3 + j * 5))) with
      | [] => BHdata
      | [a] => copyRecord BHdataall a 0 BHdata
      | a :: b :: _ => copyRecord BHdataall b 1 (copyRecord BHdataall a 0 BHdata) := by
  induction n generalizing j with
  | zero => simp [FindBinary_filterLoop]
  | succ n ih =>
    rw [FindBinary_filterLoop, List.range'_succ]
    by_cases h : 0 < BHdataall (3 + j * 5)
    · simp only [h, if_true, decide_True, List.filter_cons_of_pos, zero_add, gt_iff_lt,
        lt_self_iff_false, if_false, filterLoop_slot1]
      generalize List.filter (fun j => decide (0 < BHdataall (3 + j * 5)))
        (List.range' (j + 1) n) = l
      cases l <;> rfl
    · simp [h, ih]

theorem FindBinary_filter_eq {R : Type} [LinearOrderedField R] (NTask : Nat)
    (BHdataall BHdata : Nat → R) :
    FindBinary_filter NTask BHdataall BHdata =
      match positiveRecords NTask BHdataall with
      | [] => BHdata
      | [a] => copyRecord BHdataall a 0 BHdata
      | a :: b :: _ => copyRecord BHdataall b 1 (copyRecord BHdataall a 0 BHdata) := by
  rw [FindBinary_filter, filterLoop_slot0, positiveRecords, List.range_eq_range']

/-- C1: after the filter loop of `FindBinary`, slot 0 of `All.BHdata` holds the five fields
of the first gathered record (in gather order) whose mass is positive and slot 1 those of the
second such record; so when exactly two gathered records have positive mass the two slots
hold exactly these two records, whatever the table held before. -/
theorem FindBinary_filter_first_two {R : Type} [LinearOrderedField R] (NTask : Nat)
    (BHdataall BHdata : Nat → R) :
    (∀ j0, (positiveRecords NTask BHdataall)[0]? = some j0 → ∀ k, k < 5 →
        FindBinary_filter NTask BHdataall BHdata (k + 0 * 5) = BHdataall (k + j0 * 5)) ∧
    (∀ j1, (positiveRecords NTask BHdataall)[1]? = some j1 → ∀ k, k < 5 →
        FindBinary_filter NTask BHdataall BHdata (k + 1 * 5) = BHdataall (k + j1 * 5)) ∧
    (∀ j0 j1, positiveRecords NTask BHdataall = [j0, j1] → ∀ k, k < 5 →
        FindBinary_filter NTask BHdataall BHdata (k + 0 * 5) = BHdataall (k + j0 * 5) ∧
        FindBinary_filter NTask BHdataall BHdata (k + 1 * 5) = BHdataall (k + j1 * 5)) := by
  have key : ∀ a b k, k < 5 →
      copyRecord BHdataall b 1 (copyRecord BHdataall a 0 BHdata) (k + 0 * 5)
          = BHdataall (k + a * 5) ∧
      copyRecord BHdataall b 1 (copyRecord BHdataall a 0 BHdata) (k + 1 * 5)
          = BHdataall (k + b * 5) := by
    intro a b k hk
    constructor
    · rw [copyRecord_apply, if_neg (by omega), copyRecord_apply, if_pos (by omega)]
      congr 1
    · rw [copyRecord_apply, if_pos (by omega)]
      congr 1
  have one : ∀ a k, k < 5 → copyRecord BHdataall a 0 BHdata (k + 0 * 5) = BHdataall (k + a * 5) := by
    intro a k hk
    rw [copyRecord_apply, if_pos (by omega)]
    congr 1
  rw [FindBinary_filter_eq]
  refine ⟨?_, ?_, ?_⟩
  · intro j0 h k hk
    rcases hl : positiveRecords NTask BHdataall with _ | ⟨a, _ | ⟨b, t⟩⟩
    · simp [hl] at h
    · simp only [hl, List.getElem?_cons_zero, Option.some.injEq] at h
      subst h; exact one a k hk
    · simp only [hl, List.getElem?_cons_zero, Option.some.injEq] at h
      subst h; exact (key a b k hk).1
  · intro j1 h k hk
    rcases hl : positiveRecords NTask BHdataall with _ | ⟨a, _ | ⟨b, t⟩⟩
    · simp [hl] at h
    · simp [hl] at h
    · simp only [hl, List.getElem?_cons_succ, List.getElem?_cons_zero, Option.some.injEq] at h
      subst h; exact (key a b k hk).2
  · intro j0 j1 h k hk
    rw [h]
    exact key j0 j1 k hk

theorem positiveRecords_gatherTwoValid : positiveRecords 2 gatherTwoValid = [1, 3] := by
  decide

/-- C1 at a concrete buffer: records 1 and 3 of four are valid; they fill slots 0 and 1. -/
theorem FindBinary_filter_first_two_witness :
    FindBinary_filter 2 gatherTwoValid (fun _ => 9) (3 + 0 * 5) = gatherTwoValid (3 + 1 * 5) ∧
    FindBinary_filter 2 gatherTwoValid (fun _ => 9) (3 + 1 * 5) = gatherTwoValid (3 + 3 * 5) :=
  (FindBinary_filter_first_two 2 gatherTwoValid (fun _ => 9)).2.2 1 3
    positiveRecords_gatherTwoValid 3 (by decide)

theorem positiveRecords_gatherOne : positiveRecords 1 gatherOne = [0] := by
  decide

/-- C2 fails as stated: starting from the all-zero table, a step that gathers two anchors
followed by a step that gathers only one leaves slot 1 unfilled by the second step, yet its
mass field `All.BHdata[8]` is still 2 (the stale mass of the first step), not 0. -/
theorem FindBinary_filter_stale_slot :
    ¬ ((positiveRecords 1 gatherOne).length < 2 →
        ∀ s, s < 2 → (positiveRecords 1 gatherOne).length ≤ s →
          FindBinary_filter 1 gatherOne (FindBinary_filter 1 gatherBoth (fun _ => 0))
            (3 + s * 5) = 0) := by
  intro h
  have h1 := h (by decide) 1 (by decide) (by decide)
  revert h1
  decide

/-- C2 (amended): when fewer than two gathered records have positive mass, every slot of
`All.BHdata` that is not filled from the gathered buffer keeps all five of its previous
fields; in particular its mass field (index 3 for slot 0, index 8 for slot 1) is 0 whenever
it was 0 before the call. -/
theorem FindBinary_filter_unfilled_kept {R : Type} [LinearOrderedField R] (NTask : Nat)
    (BHdataall BHdata : Nat → R) (hlt : (positiveRecords NTask BHdataall).length < 2)
    (s : Nat) (hs : s < 2) (hfill : (positiveRecords NTask BHdataall).length ≤ s) :
    (∀ k, k < 5 → FindBinary_filter NTask BHdataall BHdata (k + s * 5) = BHdata (k + s * 5)) ∧
    (BHdata (3 + s * 5) = 0 → FindBinary_filter NTask BHdataall BHdata (3 + s * 5) = 0) := by
  have main : ∀ k, k < 5 →
      FindBinary_filter NTask BHdataall BHdata (k + s * 5) = BHdata (k + s * 5) := by
    intro k hk
    rw [FindBinary_filter_eq]
    rcases hl : positiveRecords NTask BHdataall with _ | ⟨a, _ | ⟨b, t⟩⟩
    · rfl
    · rw [hl] at hfill
      simp only [List.length_singleton] at hfill
      show copyRecord BHdataall a 0 BHdata (k + s * 5) = BHdata (k + s * 5)
      rw [copyRecord_apply, if_neg (by omega)]
    · rw [hl] at hlt
      simp only [List.length_cons] at hlt
      omega
  exact ⟨main, fun h0 => by rw [main 3 (by decide), h0]⟩

/-- C2 (amended) at a concrete input: one valid record and a zero table leave slot 1 with
mass 0. -/
theorem FindBinary_filter_unfilled_kept_witness :
    FindBinary_filter 1 gatherOne (fun _ => 0) (3 + 1 * 5) = 0 :=
  (FindBinary_filter_unfilled_kept 1 gatherOne (fun _ => 0) (by decide) 1 (by decide)
    (by decide)).2 rfl

/-! ## GravAccel_BinaryOrbit : the force loop -/

theorem sumsq_eq_zero_iff {R : Type} [LinearOrderedField R] (v : Fin 3 → R) :
    v 0 * v 0 + v 1 * v 1 + v 2 * v 2 = 0 ↔ v = 0 := by
  constructor
  · intro h
    have h0 := mul_self_nonneg (v 0)
    have h1 := mul_self_nonneg (v 1)
    have h2 := mul_self_nonneg (v 2)
    have e0 : v 0 * v 0 = 0 := by linarith
    have e1 : v 1 * v 1 = 0 := by linarith
    have e2 : v 2 * v 2 = 0 := by linarith
    funext k
    fin_cases k
    · exact mul_self_eq_zero.mp e0
    · exact mul_self_eq_zero.mp e1
    · exact mul_self_eq_zero.mp e2
  · intro h
    simp [h]

/-- The particle a slot pass leaves, written out. -/
theorem binarySlotForce_unfold {R : Type} [LinearOrderedField R] (sqrt : R → R) (cfg : Config)
    (boxHalf : Fin 3 → R) (BHdata : Nat → R) (j : Nat) (p : Particle R) :
    binarySlotForce sqrt cfg boxHalf BHdata j p =
      if BHdata (3 + j * 5) = 0 then p
      else
        let dp : Fin 3 → R := fun k => p.Pos k - BHdata (k.val + j * 5)
        let dp : Fin 3 → R := if cfg.BOX_PERIODIC then fun k => dp k - boxHalf k else dp
        let r2 := dp 0 * dp 0 + dp 1 * dp 1 + dp 2 * dp 2
        let r := sqrt r2
        if r2 ≠ 0 then
          { p with GravAccel := fun k =>
              p.GravAccel k + -BHdata (3 + j * 5) * dp k / (r2 * r) }
        else p := by
  unfold binarySlotForce binarySlotForce_traced
  by_cases hm : BHdata (3 + j * 5) = 0
  · simp only [hm, if_true]
  · simp only [hm, if_false]
    split_ifs <;> rfl

/-- One slot pass adds exactly the pull of that slot (real arithmetic, no periodic box). -/
theorem binarySlotForce_eq (cfg : Config) (hP : cfg.BOX_PERIODIC = false)
    (boxHalf : Fin 3 → ℝ) (BHdata : Nat → ℝ) (j : Nat) (p : Particle ℝ) :
    binarySlotForce Real.sqrt cfg boxHalf BHdata j p =
      { p with GravAccel := p.GravAccel + anchorPull Real.sqrt BHdata j p.Pos } := by
  rw [binarySlotForce_unfold]
  unfold anchorPull
  by_cases hm : BHdata (3 + j * 5) = 0
  · simp [hm]
  · rw [if_neg hm]
    simp only [hP, Bool.false_eq_true, if_false]
    have hiff := sumsq_eq_zero_iff (fun k : Fin 3 => p.Pos k - BHdata (k.val + j * 5))
    beta_reduce at hiff
    have hzero : (fun k : Fin 3 => p.Pos k - BHdata (k.val + j * 5)) = 0 ↔
        anchorPos BHdata j = p.Pos := by
      constructor
      · intro h0
        funext k
        have := congrFun h0 k
        simp only [Pi.zero_apply] at this
        simp only [anchorPos]
        linarith
      · intro hX
        funext k
        simp [← hX, anchorPos]
    split_ifs with hr hc hc
    · congr 1
      funext k
      simp only [Pi.add_apply, norm3, anchorPos]
      congr 2
      have hnn : 0 ≤ (p.Pos 0 - BHdata ((0 : Fin 3).val + j * 5))
            * (p.Pos 0 - BHdata ((0 : Fin 3).val + j * 5))
          + (p.Pos 1 - BHdata ((1 : Fin 3).val + j * 5))
            * (p.Pos 1 - BHdata ((1 : Fin 3).val + j * 5))
          + (p.Pos 2 - BHdata ((2 : Fin 3).val + j * 5))
            * (p.Pos 2 - BHdata ((2 : Fin 3).val + j * 5)) := by
        have h0 := mul_self_nonneg (p.Pos 0 - BHdata ((0 : Fin 3).val + j * 5))
        have h1 := mul_self_nonneg (p.Pos 1 - BHdata ((1 : Fin 3).val + j * 5))
        have h2 := mul_self_nonneg (p.Pos 2 - BHdata ((2 : Fin 3).val + j * 5))
        linarith
      have hs := Real.mul_self_sqrt hnn
      rw [pow_succ, pow_two, hs]
    · exfalso
      exact hc ⟨hm, fun hX => hr (hiff.mpr (hzero.mpr hX))⟩
    · exfalso
      exact hc.2 (hzero.mp (hiff.mp (not_not.mp hr)))
    · simp

theorem activeChain_singleActive : activeChain singleActive 1 0 = some [0] := by
  decide

/-! ## GravAccel_findBH -/

theorem findBH_update_apply {R : Type} [LinearOrderedField R] (BHposall : Fin 3 → R)
    (NumPart : Nat) (P : Nat → Particle R) (i : Nat) :
    findBH_update BHposall NumPart P i =
      if i < NumPart ∧ (P i).PType = 0 then
        { P i with min_xyz_to_bh := fun k => BHposall k - (P i).Pos k }
      else P i := by
  have hbody : (fun (P : Nat → Particle R) i =>
      if (P i).PType = 0 then
        Function.update P i { P i with min_xyz_to_bh := fun k => BHposall k - (P i).Pos k }
      else P) =
      (fun P i => Function.update P i
        ((fun _ p => if p.PType = 0 then
            { p with min_xyz_to_bh := fun k => BHposall k - p.Pos k } else p) i (P i))) := by
    funext P i
    by_cases h : (P i).PType = 0 <;> simp [h]
  rw [findBH_update, hbody]
  refine (foldl_update_apply (fun _ p => if p.PType = 0 then
    { p with min_xyz_to_bh := fun k => BHposall k - p.Pos k } else p) _
    (List.nodup_range NumPart) P i).trans ?_
  by_cases h1 : i < NumPart <;> by_cases h2 : (P i).PType = 0 <;> simp [h1, h2]

theorem MPI_Allreduce_SUM_single {R : Type} [LinearOrderedField R] {n : Nat}
    (pre post : List (Fin n → R)) (c : Fin n → R) (hpre : ∀ v ∈ pre, v = 0)
    (hpost : ∀ v ∈ post, v = 0) : MPI_Allreduce_SUM (pre ++ c :: post) = c := by
  funext k
  have h1 : (pre.map (fun v => v k)).sum = 0 := by
    apply List.sum_eq_zero
    intro x hx
    obtain ⟨v, hv, rfl⟩ := List.mem_map.mp hx
    rw [hpre v hv]; rfl
  have h2 : (post.map (fun v => v k)).sum = 0 := by
    apply List.sum_eq_zero
    intro x hx
    obtain ⟨v, hv, rfl⟩ := List.mem_map.mp hx
    rw [hpost v hv]; rfl
  simp [MPI_Allreduce_SUM, h1, h2]

/-- C4: `GravAccel_findBH` with the all-reduce as the element-wise sum over ranks.  For any
number of ranks before and after it, if one rank holds the candidate and every other rank
contributes the zero vector, then `BHposall` (the same on every rank) is that candidate, the
call rewrites every rank with that candidate, and so on every rank each local gas particle
(Type 0, index below `NumPart`) gets `min_xyz_to_bh = candidate - Pos` component by
component. -/
theorem GravAccel_findBH_single_candidate {R : Type} [LinearOrderedField R]
    (pre post : List (Rank R)) (holder : Rank R)
    (hpre : ∀ r ∈ pre, findBH_BHpos r = 0) (hpost : ∀ r ∈ post, findBH_BHpos r = 0) :
    findBH_BHposall (pre ++ holder :: post) = findBH_BHpos holder ∧
    GravAccel_findBH (pre ++ holder :: post) =
      (pre ++ holder :: post).map
        (fun r => { r with P := findBH_update (findBH_BHpos holder) r.NumPart r.P }) ∧
    ∀ (r : Rank R) (i : Nat), i < r.NumPart → (r.P i).PType = 0 → ∀ k,
      (findBH_update (findBH_BHpos holder) r.NumPart r.P i).min_xyz_to_bh k =
        findBH_BHpos holder k - (r.P i).Pos k := by
  have hsum : findBH_BHposall (pre ++ holder :: post) = findBH_BHpos holder := by
    rw [findBH_BHposall, List.map_append, List.map_cons]
    apply MPI_Allreduce_SUM_single
    · intro v hv
      obtain ⟨r, hr, rfl⟩ := List.mem_map.mp hv
      exact hpre r hr
    · intro v hv
      obtain ⟨r, hr, rfl⟩ := List.mem_map.mp hv
      exact hpost r hr
  refine ⟨hsum, ?_, ?_⟩
  · rw [GravAccel_findBH, hsum]
  · intro r i hi ht k
    simp only [findBH_update_apply, hi, ht, and_self, if_true]

theorem findBH_BHpos_rankGasOnly : ∀ r ∈ [rankGasOnly], findBH_BHpos r = 0 := by
  intro r hr
  rw [List.mem_singleton.mp hr]
  funext k
  simp [findBH_BHpos, findBH_scan, rankGasOnly, constParticles, mkParticle]

/-- C4 at three ranks, the middle one holding the anchor: `BHposall` is its position. -/
theorem GravAccel_findBH_single_candidate_witness :
    findBH_BHposall ([rankGasOnly] ++ rankWithAnchor :: [rankGasOnly]) =
      findBH_BHpos rankWithAnchor :=
  (GravAccel_findBH_single_candidate [rankGasOnly] [rankGasOnly] rankWithAnchor
    findBH_BHpos_rankGasOnly findBH_BHpos_rankGasOnly).1

/-! ## Collective call ordering -/

/-- C5 fails on the code: with `GRAVITY_ANALYTIC`, `BINARY` and `BH_GET_TORQUES`, rank 0
issues the all-gather and then four all-reduces (4, 2, 2 and 1 elements), while rank 1
issues the all-gather only; the sequence of collectives depends on `ThisTask`. -/
theorem collectives_depend_on_ThisTask :
    collectives_add_analytic_gravitational_forces cfgTorques 0 =
      [Collective.Allgather 10, Collective.Allreduce 4, Collective.Allreduce 2,
        Collective.Allreduce 2, Collective.Allreduce 1] ∧
    collectives_add_analytic_gravitational_forces cfgTorques 1 = [Collective.Allgather 10] ∧
    collectives_add_analytic_gravitational_forces cfgTorques 0 ≠
      collectives_add_analytic_gravitational_forces cfgTorques 1 := by
  decide

/-- Without `BH_GET_TORQUES` the sequence of collectives is the same on every rank. -/
theorem collectives_uniform_without_torques (cfg : Config) (h : cfg.BH_GET_TORQUES = false)
    (a b : Nat) :
    collectives_add_analytic_gravitational_forces cfg a =
      collectives_add_analytic_gravitational_forces cfg b := by
  simp [collectives_add_analytic_gravitational_forces, collectives_BinaryOrbit, h]

/-! ## Zeroing pre-pass followed by one additive potential -/

theorem GravAccel_set_zeros_if_needed_eq {R : Type} [LinearOrderedField R] (cfg : Config)
    (hS : (cfg.SELFGRAVITY_OFF || cfg.RT_SELFGRAVITY_OFF) = true) (next : Nat → Int)
    (fuel : Nat) (first : Int) (l : List Nat) (hl : activeChain next fuel first = some l)
    (P : Nat → Particle R) :
    GravAccel_set_zeros_if_needed cfg next fuel first P =
      some (fun j => if j ∈ l then zeroedParticle cfg (P j) else P j) := by
  rw [GravAccel_set_zeros_if_needed, if_pos hS,
    forActive_pointwise next (fun _ p => { p with GravAccel := fun _ => 0 }) fuel first l hl P]
  simp only [Option.some_bind]
  by_cases hT : cfg.COMPUTE_TIDAL_TENSOR_IN_GRAVTREE = true
  · rw [if_pos hT]
    refine (forActive_pointwise next
      (fun _ (p : Particle R) => { p with tidal_tensorps := fun _ _ => 0 })
      fuel first l hl _).trans ?_
    congr 1
    funext j
    by_cases hj : j ∈ l <;> simp [hj, zeroedParticle, hT]
  · rw [if_neg hT]
    congr 1
    funext j
    by_cases hj : j ∈ l <;> simp [hj, zeroedParticle, hT]

theorem binarySlotForce_increment {R : Type} [LinearOrderedField R] (sqrt : R → R)
    (cfg : Config) (boxHalf : Fin 3 → R) (BHdata : Nat → R) (j : Nat) (p : Particle R) :
    binarySlotForce sqrt cfg boxHalf BHdata j p =
      { p with GravAccel :=
          p.GravAccel + binarySlotIncrement sqrt cfg boxHalf BHdata j p.Pos } := by
  rw [binarySlotForce_unfold]
  unfold binarySlotIncrement
  by_cases hm : BHdata (3 + j * 5) = 0
  · simp [hm]
  · by_cases hP : cfg.BOX_PERIODIC = true
    · simp only [hm, hP, if_true, if_false, false_or]
      split_ifs <;> first | rfl | (simp; done) | (exfalso; simp_all)
    · simp only [hm, hP, if_false, false_or]
      split_ifs <;> first | rfl | (simp; done) | (exfalso; simp_all)

theorem GravAccel_BinaryOrbit_force_eq {R : Type} [LinearOrderedField R] (sqrt : R → R)
    (cfg : Config) (boxHalf : Fin 3 → R) (BHdata : Nat → R) (next : Nat → Int) (fuel : Nat)
    (first : Int) (l : List Nat) (hl : activeChain next fuel first = some l)
    (P : Nat → Particle R) :
    GravAccel_BinaryOrbit_force sqrt cfg boxHalf BHdata next fuel first P =
      some (fun j => if j ∈ l then
        { P j with GravAccel :=
            (P j).GravAccel + binaryIncrement sqrt cfg boxHalf BHdata (P j).Pos }
        else P j) := by
  rw [GravAccel_BinaryOrbit_force]
  by_cases hB : cfg.BINARY = true
  · rw [if_pos hB, forActive_pointwise next (fun _ p => binarySlotForce sqrt cfg boxHalf BHdata 1
      (binarySlotForce sqrt cfg boxHalf BHdata 0 p)) fuel first l hl P]
    congr 1
    funext j
    by_cases hj : j ∈ l
    · simp only [hj, if_true, binaryIncrement, hB]
      rw [binarySlotForce_increment, binarySlotForce_increment]
      simp only [add_assoc]
    · simp only [hj, if_false]
  · rw [if_neg hB]
    congr 1
    funext j
    by_cases hj : j ∈ l
    · simp [hj, binaryIncrement, hB]
    · simp only [hj, if_false]

theorem plummerBody_GravAccel {R : Type} [LinearOrderedField R] (sqrt : R → R)
    (pow : R → R → R) (cfg : Config) (p : Particle R) :
    (plummerBody sqrt pow cfg p).GravAccel =
      p.GravAccel + plummerIncrement pow cfg p.Pos p.min_xyz_to_bh := by
  unfold plummerBody plummerIncrement
  by_cases hT : cfg.COMPUTE_TIDAL_TENSOR_IN_GRAVTREE = true <;>
    by_cases hA : cfg.GRAVITY_ANALYTIC_ANCHOR_TO_PARTICLE = true <;>
    (funext k; simp [hT, hA])

theorem GravAccel_RayleighTaylorTest_single (a : Fin 3 → ℚ) :
    GravAccel_RayleighTaylorTest singleActive 1 0 (constParticles (mkParticle 0 ![0, 0, 0] a)) =
      some (Function.update (constParticles (mkParticle 0 ![0, 0, 0] a)) 0
        { mkParticle 0 ![0, 0, 0] a with GravAccel := Function.update a 1 (-0.5) }) := by
  simp [GravAccel_RayleighTaylorTest, forActive, singleActive, constParticles, mkParticle]

/-- C7 fails on the code for `GravAccel_RayleighTaylorTest`: for an active particle with
`ID != 0` the routine assigns `GravAccel[1] = -0.5` whatever the acceleration was before, so
no increment independent of the prior acceleration exists (prior (0,0,0) and prior (0,1,0)
both end with `GravAccel[1] = -0.5`). -/
theorem GravAccel_RayleighTaylorTest_overwrites :
    (∀ a : Fin 3 → ℚ, ∃ P',
      GravAccel_RayleighTaylorTest singleActive 1 0
        (constParticles (mkParticle 0 ![0, 0, 0] a)) = some P' ∧
      (P' 0).GravAccel 1 = -0.5) ∧
    ¬ ∃ inc : Fin 3 → ℚ, ∀ a : Fin 3 → ℚ, ∃ P',
      GravAccel_RayleighTaylorTest singleActive 1 0
        (constParticles (mkParticle 0 ![0, 0, 0] a)) = some P' ∧
      (P' 0).GravAccel = a + inc := by
  constructor
  · intro a
    exact ⟨_, GravAccel_RayleighTaylorTest_single a, by simp⟩
  · rintro ⟨inc, h⟩
    obtain ⟨P0, h0, e0⟩ := h ![0, 0, 0]
    obtain ⟨P1, h1, e1⟩ := h ![0, 1, 0]
    rw [GravAccel_RayleighTaylorTest_single] at h0 h1
    simp only [Option.some.injEq] at h0 h1
    subst h0
    subst h1
    have f0 := congrFun e0 1
    have f1 := congrFun e1 1
    simp at f0 f1
    linarith

/-! ## GravAccel_GrowingDiskPotential -/

theorem getElem?_eq_some_getD {α : Type} (l : List α) (k : Nat) (d : α) (h : k < l.length) :
    l[k]? = some (l.getD k d) := by
  simp [List.getD, List.getElem?_eq_getElem h]

theorem readTable_natCast {R : Type} (table : List R) (d : R) (k : Nat)
    (h : k < table.length) : readTable table (k : ℤ) = some (table.getD k d) := by
  rw [readTable, if_pos (Int.natCast_nonneg k), Int.toNat_natCast]
  exact getElem?_eq_some_getD table k d h

theorem t_disk_table_length {R : Type} [LinearOrderedField R] :
    (t_disk_table R).length = 14 := rfl

theorem t_disk_table_getD {R : Type} [LinearOrderedField R] (k : Nat) :
    (t_disk_table R).getD k 0 = match k with
      | 0 => 0.2 | 1 => 0.250 | 2 => 0.266 | 3 => 0.285 | 4 => 0.308 | 5 => 0.333 | 6 => 0.363
      | 7 => 0.400 | 8 => 0.444 | 9 => 0.500 | 10 => 0.572 | 11 => 0.667 | 12 => 0.800
      | 13 => 1.000 | _ => 0 := by
  iterate 14 (cases k with | zero => rfl | succ k => ?_)
  rfl

theorem t_disk_table_step {R : Type} [LinearOrderedField R] (k : Nat) (hk : k < 13) :
    (t_disk_table R).getD k 0 < (t_disk_table R).getD (k + 1) 0 := by
  rw [t_disk_table_getD, t_disk_table_getD]
  interval_cases k <;> norm_num

theorem t_disk_table_mono {R : Type} [LinearOrderedField R] (a b : Nat) (hab : a ≤ b)
    (hb : b < 14) : (t_disk_table R).getD a 0 ≤ (t_disk_table R).getD b 0 := by
  induction b with
  | zero =>
    have : a = 0 := by omega
    rw [this]
  | succ n ih =>
    by_cases h : a = n + 1
    · rw [h]
    · exact le_trans (ih (by omega) (by omega)) (le_of_lt (t_disk_table_step n (by omega)))

/-- The search stops at the first index `j ≥ k` whose breakpoint exceeds `t`. -/
theorem diskSearch_found {R : Type} [LinearOrderedField R] (t : R) (n k j : Nat) (i1 : ℤ)
    (hkj : k ≤ j) (hjn : j < k + n) (hj : j < 14)
    (hle : ∀ i, k ≤ i → i < j → (t_disk_table R).getD i 0 ≤ t)
    (hlt : t < (t_disk_table R).getD j 0) :
    diskSearch t n (k : ℤ) i1 = some (j : ℤ) := by
  induction n generalizing k with
  | zero => omega
  | succ n ih =>
    rw [diskSearch, readTable_natCast (t_disk_table R) 0 k (by rw [t_disk_table_length]; omega),
      Option.some_bind]
    by_cases hk : k = j
    · subst hk
      rw [if_pos hlt]
    · rw [if_neg (not_lt.mpr (hle k (le_refl k) (by omega)))]
      have := ih (k + 1) (by omega) (by omega) (fun i h1 h2 => hle i (by omega) h2)
      rw [← this]
      push_cast
      rfl

/-- Between two adjacent breakpoints the code selects them and the linear weight. -/
theorem diskIndices_interior {R : Type} [LinearOrderedField R] (t : R) (k : Nat) (hk : k < 13)
    (h0 : (t_disk_table R).getD 0 0 < t) (hlo : (t_disk_table R).getD k 0 ≤ t)
    (hhi : t < (t_disk_table R).getD (k + 1) 0) :
    diskIndices t = some ((k : ℤ), ((k + 1 : ℕ) : ℤ),
      (t - (t_disk_table R).getD k 0)
        / ((t_disk_table R).getD (k + 1) 0 - (t_disk_table R).getD k 0)) := by
  have hlast : t < (t_disk_table R).getD 13 0 :=
    lt_of_lt_of_le hhi (t_disk_table_mono (k + 1) 13 (by omega) (by omega))
  have hsearch : diskSearch t 13 ((1 : ℕ) : ℤ) 0 = some ((k + 1 : ℕ) : ℤ) := by
    apply diskSearch_found t 13 1 (k + 1) 0 (by omega) (by omega) (by omega) _ hhi
    intro i _ hi
    exact le_trans (t_disk_table_mono i k (by omega) (by omega)) hlo
  have r0 : readTable (t_disk_table R) 0 = some ((t_disk_table R).getD 0 0) :=
    readTable_natCast (t_disk_table R) 0 0 (by rw [t_disk_table_length]; omega)
  have r13 : readTable (t_disk_table R) (n_table - 1) = some ((t_disk_table R).getD 13 0) :=
    readTable_natCast (t_disk_table R) 0 13 (by rw [t_disk_table_length]; omega)
  have hs : diskSearch t (n_table - 1).toNat 1 0 = some ((k + 1 : ℕ) : ℤ) := hsearch
  have rk : readTable (t_disk_table R) (k : ℤ) = some ((t_disk_table R).getD k 0) :=
    readTable_natCast (t_disk_table R) 0 k (by rw [t_disk_table_length]; omega)
  have rk1 : readTable (t_disk_table R) ((k + 1 : ℕ) : ℤ)
      = some ((t_disk_table R).getD (k + 1) 0) :=
    readTable_natCast (t_disk_table R) 0 (k + 1) (by rw [t_disk_table_length]; omega)
  have e : (((k + 1 : ℕ) : ℤ) - 1) = (k : ℤ) := by push_cast; ring
  rw [diskIndices, r0, Option.some_bind, if_neg (not_le.mpr h0), r13, Option.some_bind,
    if_neg (not_le.mpr hlast), hs, Option.some_bind]
  simp only [e, rk, rk1, Option.some_bind]

theorem diskLerp_natCast {R : Type} [LinearOrderedField R] (table : List R) (a b : Nat)
    (ha : a < table.length) (hb : b < table.length) (dt : R) :
    diskLerp table (a : ℤ) (b : ℤ) dt =
      some (table.getD a 0 + dt * (table.getD b 0 - table.getD a 0)) := by
  rw [diskLerp, readTable_natCast table 0 a ha, Option.some_bind,
    readTable_natCast table 0 b hb, Option.some_bind]

/-- Linear interpolation between two adjacent breakpoints. -/
theorem GrowingDisk_parameters_interior {R : Type} [LinearOrderedField R] (t : R) (k : Nat)
    (hk : k < 13) (h0 : (t_disk_table R).getD 0 0 < t) (hlo : (t_disk_table R).getD k 0 ≤ t)
    (hhi : t < (t_disk_table R).getD (k + 1) 0) :
    GrowingDisk_parameters t =
      some ((m_disk_table R).getD k 0 +
          (t - (t_disk_table R).getD k 0)
            / ((t_disk_table R).getD (k + 1) 0 - (t_disk_table R).getD k 0)
            * ((m_disk_table R).getD (k + 1) 0 - (m_disk_table R).getD k 0),
        (r_disk_table R).getD k 0 +
          (t - (t_disk_table R).getD k 0)
            / ((t_disk_table R).getD (k + 1) 0 - (t_disk_table R).getD k 0)
            * ((r_disk_table R).getD (k + 1) 0 - (r_disk_table R).getD k 0),
        (z_disk_table R).getD k 0 +
          (t - (t_disk_table R).getD k 0)
            / ((t_disk_table R).getD (k + 1) 0 - (t_disk_table R).getD k 0)
            * ((z_disk_table R).getD (k + 1) 0 - (z_disk_table R).getD k 0)) := by
  have hm : (m_disk_table R).length = 14 := rfl
  have hr : (r_disk_table R).length = 14 := rfl
  have hz : (z_disk_table R).length = 14 := rfl
  rw [GrowingDisk_parameters, diskIndices_interior t k hk h0 hlo hhi, Option.some_bind]
  simp only []
  rw [diskLerp_natCast _ k (k + 1) (by omega) (by omega), Option.some_bind,
    diskLerp_natCast _ k (k + 1) (by omega) (by omega), Option.some_bind,
    diskLerp_natCast _ k (k + 1) (by omega) (by omega), Option.some_bind]

/-- At or before the first breakpoint the first tabulated triple is held. -/
theorem GrowingDisk_parameters_first {R : Type} [LinearOrderedField R] (t : R)
    (h : t ≤ (t_disk_table R).getD 0 0) :
    GrowingDisk_parameters t =
      some ((m_disk_table R).getD 0 0, (r_disk_table R).getD 0 0,
        (z_disk_table R).getD 0 0) := by
  have hm : (m_disk_table R).length = 14 := rfl
  have hr : (r_disk_table R).length = 14 := rfl
  have hz : (z_disk_table R).length = 14 := rfl
  have r0 : readTable (t_disk_table R) 0 = some ((t_disk_table R).getD 0 0) :=
    readTable_natCast (t_disk_table R) 0 0 (by rw [t_disk_table_length]; omega)
  have hidx : diskIndices t = some (((0 : ℕ) : ℤ), ((0 : ℕ) : ℤ), 0) := by
    rw [diskIndices, r0, Option.some_bind, if_pos h]
    rfl
  rw [GrowingDisk_parameters, hidx, Option.some_bind]
  simp only []
  rw [diskLerp_natCast _ 0 0 (by omega) (by omega), Option.some_bind,
    diskLerp_natCast _ 0 0 (by omega) (by omega), Option.some_bind,
    diskLerp_natCast _ 0 0 (by omega) (by omega), Option.some_bind]
  simp

/-- At or after the last breakpoint the last tabulated triple is held. -/
theorem GrowingDisk_parameters_last {R : Type} [LinearOrderedField R] (t : R)
    (h : (t_disk_table R).getD 13 0 ≤ t) :
    GrowingDisk_parameters t =
      some ((m_disk_table R).getD 13 0, (r_disk_table R).getD 13 0,
        (z_disk_table R).getD 13 0) := by
  have hm : (m_disk_table R).length = 14 := rfl
  have hr : (r_disk_table R).length = 14 := rfl
  have hz : (z_disk_table R).length = 14 := rfl
  have r0 : readTable (t_disk_table R) 0 = some ((t_disk_table R).getD 0 0) :=
    readTable_natCast (t_disk_table R) 0 0 (by rw [t_disk_table_length]; omega)
  have r13 : readTable (t_disk_table R) (n_table - 1) = some ((t_disk_table R).getD 13 0) :=
    readTable_natCast (t_disk_table R) 0 13 (by rw [t_disk_table_length]; omega)
  have h0 : (t_disk_table R).getD 0 0 < t :=
    lt_of_lt_of_le (lt_of_lt_of_le (t_disk_table_step 0 (by omega))
      (t_disk_table_mono 1 13 (by omega) (by omega))) h
  have hidx : diskIndices t = some (((13 : ℕ) : ℤ), ((13 : ℕ) : ℤ), 0) := by
    rw [diskIndices, r0, Option.some_bind, if_neg (not_le.mpr h0), r13, Option.some_bind,
      if_pos h]
    rfl
  rw [GrowingDisk_parameters, hidx, Option.some_bind]
  simp only []
  rw [diskLerp_natCast _ 13 13 (by omega) (by omega), Option.some_bind,
    diskLerp_natCast _ 13 13 (by omega) (by omega), Option.some_bind,
    diskLerp_natCast _ 13 13 (by omega) (by omega), Option.some_bind]
  simp

theorem t_disk_table_bracket {R : Type} [LinearOrderedField R] (t : R) (n : Nat)
    (hn : n ≤ 13) (h0 : (t_disk_table R).getD 0 0 ≤ t) (h1 : t < (t_disk_table R).getD n 0) :
    ∃ k, k < n ∧ (t_disk_table R).getD k 0 ≤ t ∧ t < (t_disk_table R).getD (k + 1) 0 := by
  induction n with
  | zero => exact absurd h1 (not_lt.mpr h0)
  | succ n ih =>
    by_cases h : t < (t_disk_table R).getD n 0
    · obtain ⟨k, hk, h2, h3⟩ := ih (by omega) h
      exact ⟨k, by omega, h2, h3⟩
    · exact ⟨n, by omega, not_lt.mp h, h1⟩

theorem midpoint_weight {R : Type} [LinearOrderedField R] (a b : R) (h : a < b) :
    ((a + b) / 2 - a) / (b - a) = 1 / 2 := by
  have hne : b - a ≠ 0 := ne_of_gt (sub_pos.mpr h)
  field_simp
  ring

/-- C8: over exact arithmetic, querying the interpolation of `GravAccel_GrowingDiskPotential`
at the `k`-th breakpoint `t_disk_table[k]` yields exactly the `k`-th tabulated
`(m_disk, r_disk, z_disk)`, for each of the 14 indices; querying at the midpoint of two
adjacent breakpoints yields exactly the average of the two adjacent tabulated values, for
each parameter. -/
theorem GrowingDisk_parameters_breakpoints {R : Type} [LinearOrderedField R] :
    (∀ k : Fin 14,
      GrowingDisk_parameters ((t_disk_table R).getD k.val 0) =
        some ((m_disk_table R).getD k.val 0, (r_disk_table R).getD k.val 0,
          (z_disk_table R).getD k.val 0)) ∧
    (∀ k : Fin 13,
      GrowingDisk_parameters
          (((t_disk_table R).getD k.val 0 + (t_disk_table R).getD (k.val + 1) 0) / 2) =
        some (((m_disk_table R).getD k.val 0 + (m_disk_table R).getD (k.val + 1) 0) / 2,
          ((r_disk_table R).getD k.val 0 + (r_disk_table R).getD (k.val + 1) 0) / 2,
          ((z_disk_table R).getD k.val 0 + (z_disk_table R).getD (k.val + 1) 0) / 2)) := by
  constructor
  · rintro ⟨k, hk⟩
    show GrowingDisk_parameters ((t_disk_table R).getD k 0) = _
    by_cases h0 : k = 0
    · subst h0
      exact GrowingDisk_parameters_first _ (le_refl _)
    · by_cases h13 : k = 13
      · subst h13
        exact GrowingDisk_parameters_last _ (le_refl _)
      · have hpos : (t_disk_table R).getD 0 0 < (t_disk_table R).getD k 0 :=
          lt_of_lt_of_le (t_disk_table_step 0 (by omega))
            (t_disk_table_mono 1 k (by omega) (by omega))
        rw [GrowingDisk_parameters_interior _ k (by omega) hpos (le_refl _)
          (t_disk_table_step k (by omega))]
        simp only [sub_self, zero_div, zero_mul, add_zero]
  · rintro ⟨k, hk⟩
    show GrowingDisk_parameters
      (((t_disk_table R).getD k 0 + (t_disk_table R).getD (k + 1) 0) / 2) = _
    have hstep := t_disk_table_step (R := R) k hk
    have hbase := t_disk_table_mono (R := R) 0 k (by omega) (by omega)
    have hdt := midpoint_weight _ _ hstep
    rw [GrowingDisk_parameters_interior _ k hk (by linarith) (by linarith) (by linarith), hdt]
    congr 2
    · ring
    · congr 1
      · ring
      · ring

/-- Flat extrapolation of the disk parameters in exact arithmetic (`t` an element of an
ordered field, hence a number).  For every `t ≤ 0.2` the interpolated triple is the first
tabulated one `(0.0, 1.0, 1.0)`, for every `t ≥ 1.0` it is the last one
`(6.001, 1.150, 0.404)`, and for every `t` all table reads are within the index range
`0..13`: the computation never answers `none`, and the two selected indices lie in `0..13`. -/
theorem GrowingDisk_parameters_flat {R : Type} [LinearOrderedField R] :
    (∀ t : R, t ≤ 0.2 → GrowingDisk_parameters t = some (0.0, 1.0, 1.0)) ∧
    (∀ t : R, t ≥ 1.0 → GrowingDisk_parameters t = some (6.001, 1.150, 0.404)) ∧
    (∀ t : R, (GrowingDisk_parameters t).isSome = true ∧
      ∃ i0 i1 dt, diskIndices t = some (i0, i1, dt) ∧ 0 ≤ i0 ∧ i0 ≤ 13 ∧ 0 ≤ i1 ∧ i1 ≤ 13) := by
  refine ⟨?_, ?_, ?_⟩
  · intro t ht
    exact GrowingDisk_parameters_first t ht
  · intro t ht
    have h13 : (t_disk_table R).getD 13 0 = 1.0 := by
      rw [t_disk_table_getD]
      norm_num
    exact GrowingDisk_parameters_last t (by rw [h13]; exact ht)
  · intro t
    by_cases h0 : t ≤ (t_disk_table R).getD 0 0
    · refine ⟨by rw [GrowingDisk_parameters_first t h0]; rfl, 0, 0, 0, ?_, by norm_num⟩
      have r0 : readTable (t_disk_table R) 0 = some ((t_disk_table R).getD 0 0) :=
        readTable_natCast (t_disk_table R) 0 0 (by rw [t_disk_table_length]; omega)
      rw [diskIndices, r0, Option.some_bind, if_pos h0]
    · by_cases h13 : (t_disk_table R).getD 13 0 ≤ t
      · refine ⟨by rw [GrowingDisk_parameters_last t h13]; rfl, 13, 13, 0, ?_, by norm_num⟩
        have r0 : readTable (t_disk_table R) 0 = some ((t_disk_table R).getD 0 0) :=
          readTable_natCast (t_disk_table R) 0 0 (by rw [t_disk_table_length]; omega)
        have r13 : readTable (t_disk_table R) (n_table - 1)
            = some ((t_disk_table R).getD 13 0) :=
          readTable_natCast (t_disk_table R) 0 13 (by rw [t_disk_table_length]; omega)
        rw [diskIndices, r0, Option.some_bind, if_neg h0, r13, Option.some_bind, if_pos h13]
        rfl
      · obtain ⟨k, hk, hlo, hhi⟩ :=
          t_disk_table_bracket t 13 (le_refl _) (le_of_lt (not_le.mp h0)) (not_le.mp h13)
        refine ⟨by rw [GrowingDisk_parameters_interior t k hk (not_le.mp h0) hlo hhi]; rfl,
          _, _, _, diskIndices_interior t k hk (not_le.mp h0) hlo hhi, ?_⟩
        push_cast
        omega

/-- The exact-arithmetic flat extrapolation at the times 0 (before the table) and 2 (after
it). -/
theorem GrowingDisk_parameters_flat_witness :
    GrowingDisk_parameters (0 : ℚ) = some (0.0, 1.0, 1.0) ∧
    GrowingDisk_parameters (2 : ℚ) = some (6.001, 1.150, 0.404) :=
  ⟨GrowingDisk_parameters_flat.1 0 (by norm_num), GrowingDisk_parameters_flat.2.1 2 (by norm_num)⟩

/-! ## GravAccel_KeplerianOrbit -/

theorem sumsq_nonneg {R : Type} [LinearOrderedField R] (v : Fin 3 → R) :
    0 ≤ v 0 * v 0 + v 1 * v 1 + v 2 * v 2 := by
  have h0 := mul_self_nonneg (v 0)
  have h1 := mul_self_nonneg (v 1)
  have h2 := mul_self_nonneg (v 2)
  linarith

theorem norm3_pos_iff (v : Fin 3 → ℝ) :
    0 < norm3 Real.sqrt v ↔ v 0 * v 0 + v 1 * v 1 + v 2 * v 2 ≠ 0 := by
  rw [norm3, Real.sqrt_pos]
  constructor
  · intro h
    exact ne_of_gt h
  · intro h
    exact lt_of_le_of_ne (sumsq_nonneg v) (Ne.symm h)

theorem norm3_mul_self (v : Fin 3 → ℝ) :
    norm3 Real.sqrt v * norm3 Real.sqrt v = v 0 * v 0 + v 1 * v 1 + v 2 * v 2 :=
  Real.mul_self_sqrt (sumsq_nonneg v)

theorem kepler_sumsq (a b c r : ℝ) (hr : r ≠ 0) (h : r * r = a * a + b * b + c * c) :
    (-a / r ^ 3) * (-a / r ^ 3) + (-b / r ^ 3) * (-b / r ^ 3) + (-c / r ^ 3) * (-c / r ^ 3)
      = (1 / r ^ 2) ^ 2 := by
  have e1 : ∀ x : ℝ, (-x / r ^ 3) * (-x / r ^ 3) = x * x / (r ^ 3 * r ^ 3) := by
    intro x
    rw [neg_div, neg_mul_neg, div_mul_div_comm]
  rw [e1, e1, e1, ← add_div, ← add_div, ← h]
  field_simp
  ring

/-- The length of `-p / |p|^3` is `1 / |p|^2`. -/
theorem norm3_kepler (p : Fin 3 → ℝ) (h : 0 < norm3 Real.sqrt p) :
    norm3 Real.sqrt (fun k => -p k / norm3 Real.sqrt p ^ 3) = 1 / norm3 Real.sqrt p ^ 2 := by
  have hsq := kepler_sumsq (p 0) (p 1) (p 2) (norm3 Real.sqrt p) (ne_of_gt h) (norm3_mul_self p)
  show Real.sqrt _ = _
  rw [hsq]
  exact Real.sqrt_sq (by positivity)

/-- C10: `GravAccel_KeplerianOrbit` without `GRAVITY_ANALYTIC_ANCHOR_TO_PARTICLE` and without
`BOX_PERIODIC`, over the reals.  On an active chain that ends the routine returns; an active
gas particle at `p` with `r = |p| > 0` ends with acceleration exactly `-p / r^3` (along `-p`,
of length `1 / r^2`) and its other fields unchanged; an active gas particle at `p = 0` is
left as it was; every non-gas particle and every inactive particle is left as it was. -/
theorem GravAccel_KeplerianOrbit_spec (cfg : Config)
    (hA : cfg.GRAVITY_ANALYTIC_ANCHOR_TO_PARTICLE = false) (hP : cfg.BOX_PERIODIC = false)
    (boxHalf : Fin 3 → ℝ) (next : Nat → Int) (fuel : Nat) (first : Int) (l : List Nat)
    (hl : activeChain next fuel first = some l) (P : Nat → Particle ℝ) :
    ∃ P', GravAccel_KeplerianOrbit Real.sqrt cfg boxHalf next fuel first P = some P' ∧
      (∀ i, i ∈ l → (P i).PType = 0 → 0 < norm3 Real.sqrt (P i).Pos →
        P' i = { P i with GravAccel := fun k => -(P i).Pos k / norm3 Real.sqrt (P i).Pos ^ 3 } ∧
        norm3 Real.sqrt (P' i).GravAccel = 1 / norm3 Real.sqrt (P i).Pos ^ 2) ∧
      (∀ i, i ∈ l → (P i).PType = 0 → (P i).Pos = 0 →
        keplerianBody Real.sqrt cfg boxHalf (P i) = P i ∧ P' i = P i) ∧
      (∀ i, (P i).PType ≠ 0 → P' i = P i) ∧
      (∀ i, i ∉ l → P' i = P i) := by
  have hbody : ∀ p : Particle ℝ, keplerianBody Real.sqrt cfg boxHalf p =
      if p.PType = 0 ∧ 0 < norm3 Real.sqrt p.Pos then
        { p with GravAccel := fun k => -p.Pos k / norm3 Real.sqrt p.Pos ^ 3 }
      else p := by
    intro p
    unfold keplerianBody
    simp only [hA, hP, Bool.false_eq_true, if_false]
    have hiff := norm3_pos_iff p.Pos
    have hr := norm3_mul_self p.Pos
    by_cases h1 : p.PType = 0 ∧ 0 < norm3 Real.sqrt p.Pos
    · rw [if_pos ⟨h1.1, hiff.mp h1.2⟩, if_pos h1]
      congr 1
      funext k
      congr 1
      rw [pow_succ, pow_two, hr]
      rfl
    · rw [if_neg (fun h => h1 ⟨h.1, hiff.mpr h.2⟩), if_neg h1]
  refine ⟨fun j => if j ∈ l then keplerianBody Real.sqrt cfg boxHalf (P j) else P j,
    forActive_pointwise next (fun _ p => keplerianBody Real.sqrt cfg boxHalf p) fuel first l
      hl P, ?_, ?_, ?_, ?_⟩
  · intro i hi ht hr
    simp only [hi, if_true]
    rw [hbody, if_pos ⟨ht, hr⟩]
    exact ⟨rfl, norm3_kepler (P i).Pos hr⟩
  · intro i hi ht h0
    have hn : ¬ 0 < norm3 Real.sqrt (P i).Pos := by
      rw [norm3_pos_iff, h0]
      simp
    have hb : keplerianBody Real.sqrt cfg boxHalf (P i) = P i := by
      rw [hbody, if_neg (fun h => hn h.2)]
    refine ⟨hb, ?_⟩
    simp only [hi, if_true, hb]
  · intro i ht
    by_cases hi : i ∈ l
    · simp only [hi, if_true]
      rw [hbody, if_neg (fun h => ht h.1)]
    · simp only [hi, if_false]
  · intro i hi
    simp only [hi, if_false]

/-- C10 at a concrete state: one active gas particle at (3,4,0) with prior acceleration
(1,1,1). -/
theorem GravAccel_KeplerianOrbit_spec_witness :
    ∃ P', GravAccel_KeplerianOrbit Real.sqrt cfgBinary 0 singleActive 1 0
        (constParticles (mkParticle 0 ![3, 4, 0] ![1, 1, 1])) = some P' ∧
      (P' 0).GravAccel = fun k => -(![3, 4, 0] : Fin 3 → ℝ) k / 5 ^ 3 := by
  have h5 : norm3 Real.sqrt (![3, 4, 0] : Fin 3 → ℝ) = 5 := by
    have e : (![3, 4, 0] : Fin 3 → ℝ) 0 * (![3, 4, 0] : Fin 3 → ℝ) 0
        + (![3, 4, 0] : Fin 3 → ℝ) 1 * (![3, 4, 0] : Fin 3 → ℝ) 1
        + (![3, 4, 0] : Fin 3 → ℝ) 2 * (![3, 4, 0] : Fin 3 → ℝ) 2 = 5 ^ 2 := by
      simp
      norm_num
    rw [norm3, e]
    exact Real.sqrt_sq (by norm_num)
  obtain ⟨P', hP', hgas, _⟩ :=
    GravAccel_KeplerianOrbit_spec cfgBinary rfl rfl 0 singleActive 1 0 [0]
      activeChain_singleActive (constParticles (mkParticle 0 ![3, 4, 0] ![1, 1, 1]))
  refine ⟨P', hP', ?_⟩
  have h := (hgas 0 (by simp) rfl (by
    show 0 < norm3 Real.sqrt (![3, 4, 0] : Fin 3 → ℝ)
    rw [h5]
    norm_num)).1
  rw [h]
  show (fun k => -(![3, 4, 0] : Fin 3 → ℝ) k / norm3 Real.sqrt (![3, 4, 0] : Fin 3 → ℝ) ^ 3) = _
  rw [h5]

/-! ## GravAccel_set_zeros_if_needed : frame -/

/-- C15: `GravAccel_set_zeros_if_needed`.  When neither `SELFGRAVITY_OFF` nor
`RT_SELFGRAVITY_OFF` is defined the routine is the identity on the whole particle state
(for any chain and fuel).  When one of them is defined, on an active chain that ends it
returns, sets `GravAccel` (and, under `COMPUTE_TIDAL_TENSOR_IN_GRAVTREE`, all nine
`tidal_tensorps` entries) to 0 for exactly the particles of the chain, and changes no
other field and no inactive particle. -/
theorem GravAccel_set_zeros_if_needed_frame {R : Type} [LinearOrderedField R] (cfg : Config)
    (next : Nat → Int) (fuel : Nat) (first : Int) (P : Nat → Particle R) :
    (cfg.SELFGRAVITY_OFF = false ∧ cfg.RT_SELFGRAVITY_OFF = false →
      GravAccel_set_zeros_if_needed cfg next fuel first P = some P) ∧
    (cfg.SELFGRAVITY_OFF = true ∨ cfg.RT_SELFGRAVITY_OFF = true →
      ∀ l, activeChain next fuel first = some l →
        ∃ P', GravAccel_set_zeros_if_needed cfg next fuel first P = some P' ∧
          (∀ i, i ∈ l → P' i =
            { P i with
              GravAccel := fun _ => 0,
              tidal_tensorps :=
                if cfg.COMPUTE_TIDAL_TENSOR_IN_GRAVTREE then fun _ _ => 0
                else (P i).tidal_tensorps }) ∧
          (∀ i, i ∉ l → P' i = P i)) := by
  constructor
  · rintro ⟨h1, h2⟩
    simp [GravAccel_set_zeros_if_needed, h1, h2]
  · intro h l hl
    have hS : (cfg.SELFGRAVITY_OFF || cfg.RT_SELFGRAVITY_OFF) = true := by
      rcases h with h | h <;> simp [h]
    refine ⟨_, GravAccel_set_zeros_if_needed_eq cfg hS next fuel first l hl P, ?_, ?_⟩
    · intro i hi
      simp only [hi, if_true, zeroedParticle]
      split_ifs <;> rfl
    · intro i hi
      simp only [hi, if_false]

/-- C15 at a concrete state: `SELFGRAVITY_OFF`, one active particle (index 0) with prior
acceleration (1,1,1); index 1 is inactive. -/
theorem GravAccel_set_zeros_if_needed_frame_witness :
    ∃ P', GravAccel_set_zeros_if_needed cfgBinaryNoSelfGravity singleActive 1 0
        (constParticles (mkParticle 0 ![3, 4, 0] ![(1 : ℚ), 1, 1])) = some P' ∧
      (∀ i, i ∈ [0] → P' i =
        { constParticles (mkParticle 0 ![3, 4, 0] ![(1 : ℚ), 1, 1]) i with
          GravAccel := fun _ => 0,
          tidal_tensorps :=
            if cfgBinaryNoSelfGravity.COMPUTE_TIDAL_TENSOR_IN_GRAVTREE then fun _ _ => 0
            else (constParticles (mkParticle 0 ![3, 4, 0] ![(1 : ℚ), 1, 1]) i).tidal_tensorps }) ∧
      (∀ i, i ∉ [0] → P' i = constParticles (mkParticle 0 ![3, 4, 0] ![(1 : ℚ), 1, 1]) i) :=
  (GravAccel_set_zeros_if_needed_frame cfgBinaryNoSelfGravity singleActive 1 0
    (constParticles (mkParticle 0 ![3, 4, 0] ![(1 : ℚ), 1, 1]))).2 (Or.inl rfl) [0]
    activeChain_singleActive

/-! ## GravAccel_findBH : the anchor locator -/

theorem findBH_scan_none {R : Type} (P : Nat → Particle R) (n s : Nat) (B : Fin 3 → R)
    (h : ∀ j, s ≤ j → j < s + n → (P j).PType ≠ 5) : findBH_scan P n s B = B := by
  induction n generalizing s with
  | zero => rfl
  | succ n ih =>
    rw [findBH_scan, if_neg (h s (le_refl s) (by omega))]
    exact ih (s + 1) (fun j h1 h2 => h j (by omega) (by omega))

theorem findBH_scan_first {R : Type} (P : Nat → Particle R) (n s i : Nat) (B : Fin 3 → R)
    (hs : s ≤ i) (hi : i < s + n) (h5 : (P i).PType = 5)
    (h : ∀ j, s ≤ j → j < i → (P j).PType ≠ 5) : findBH_scan P n s B = (P i).Pos := by
  induction n generalizing s with
  | zero => omega
  | succ n ih =>
    rw [findBH_scan]
    by_cases hsi : s = i
    · subst hsi
      rw [if_pos h5]
    · rw [if_neg (h s (le_refl s) (by omega))]
      exact ih (s + 1) (by omega) (by omega) (fun j h1 h2 => h j (by omega) h2)

/-- C16: the local candidate `BHpos` that `GravAccel_findBH` passes to the reduction is the
position of the lowest-index particle with `Type == 5` among the `NumPart` local particles
when there is one, and the zero vector when the local array holds no Type-5 particle. -/
theorem findBH_BHpos_lowest_anchor {R : Type} [LinearOrderedField R] (r : Rank R) :
    (∀ i, i < r.NumPart → (r.P i).PType = 5 → (∀ j, j < i → (r.P j).PType ≠ 5) →
      findBH_BHpos r = (r.P i).Pos) ∧
    ((∀ i, i < r.NumPart → (r.P i).PType ≠ 5) → findBH_BHpos r = 0) := by
  constructor
  · intro i hi h5 hlow
    exact findBH_scan_first r.P r.NumPart 0 i _ (Nat.zero_le i) (by omega) h5
      (fun j _ hj => hlow j hj)
  · intro h
    rw [findBH_BHpos, findBH_scan_none r.P r.NumPart 0 _ (fun j _ hj => h j (by omega))]
    rfl

/-- C16 at a concrete rank: gas at indices 0 and 1, anchors at indices 2 and 3; the candidate
is the position of index 2. -/
theorem findBH_BHpos_lowest_anchor_witness :
    findBH_BHpos rankAnchorThird = (rankAnchorThird.P 2).Pos :=
  (findBH_BHpos_lowest_anchor rankAnchorThird).1 2 (by decide) (by decide) (by decide)

/-! ## apply_excision -/

theorem excisionBody_idem {R : Type} [LinearOrderedField R] (sqrt : R → R) (cfg : Config)
    (radius : R) (p : Particle R) :
    excisionBody sqrt cfg radius (excisionBody sqrt cfg radius p) =
      excisionBody sqrt cfg radius p := by
  unfold excisionBody
  by_cases ht : p.PType = 0
  · simp only [ht, if_true]
    split_ifs with h <;> simp [ht, h]
  · simp [ht]

theorem excisionBody_of_mass_zero {R : Type} [LinearOrderedField R] (sqrt : R → R)
    (cfg : Config) (radius : R) (p : Particle R) (h0 : p.Mass = 0) :
    excisionBody sqrt cfg radius p = p := by
  simp only [excisionBody]
  have e : { p with Mass := 0 } = p := by
    cases p
    simp only [Particle.mk.injEq, true_and, and_true] at h0 ⊢
    simp_all
  split_ifs <;> first | rfl | exact e

theorem apply_excision_eq {R : Type} [LinearOrderedField R] (sqrt : R → R) (pow : R → R → R)
    (cfg : Config) (G Time : R) (next : Nat → Int) (fuel : Nat) (first : Int) (l : List Nat)
    (hl : activeChain next fuel first = some l) (P : Nat → Particle R) :
    apply_excision sqrt pow cfg G Time next fuel first P =
      some (fun j => if j ∈ l then
        excisionBody sqrt cfg (excision_radius sqrt pow G Time) (P j) else P j) :=
  forActive_pointwise next
    (fun _ p => excisionBody sqrt cfg (excision_radius sqrt pow G Time) p) fuel first l hl P

/-- C13: `apply_excision` is idempotent.  For every particle state, every `All.Time` and
`All.G`, on an active chain that ends, the routine returns a state on which a second
application returns the same state again (masses, positions, types and all other fields);
in particular a gas particle whose mass is already 0 keeps mass 0 with nothing else
changed. -/
theorem apply_excision_idempotent {R : Type} [LinearOrderedField R] (sqrt : R → R)
    (pow : R → R → R) (cfg : Config) (G Time : R) (next : Nat → Int) (fuel : Nat)
    (first : Int) (l : List Nat) (hl : activeChain next fuel first = some l)
    (P : Nat → Particle R) :
    ∃ P1, apply_excision sqrt pow cfg G Time next fuel first P = some P1 ∧
      apply_excision sqrt pow cfg G Time next fuel first P1 = some P1 ∧
      ∀ i, (P i).PType = 0 → (P i).Mass = 0 → P1 i = P i := by
  refine ⟨_, apply_excision_eq sqrt pow cfg G Time next fuel first l hl P, ?_, ?_⟩
  · rw [apply_excision_eq sqrt pow cfg G Time next fuel first l hl]
    congr 1
    funext j
    by_cases hj : j ∈ l
    · simp only [hj, if_true, excisionBody_idem]
    · simp only [hj, if_false]
  · intro i _ hm
    by_cases hi : i ∈ l
    · simp only [hi, if_true]
      exact excisionBody_of_mass_zero sqrt cfg _ (P i) hm
    · simp only [hi, if_false]

/-- C13 at a concrete state over the reals: one active gas particle at (3,4,0). -/
theorem apply_excision_idempotent_witness :
    ∃ P1, apply_excision Real.sqrt (fun x y => x ^ y) cfgNone 1 2 singleActive 1 0
        (constParticles (mkParticle 0 ![3, 4, 0] ![1, 1, 1])) = some P1 ∧
      apply_excision Real.sqrt (fun x y => x ^ y) cfgNone 1 2 singleActive 1 0 P1 = some P1 ∧
      ∀ i, (constParticles (mkParticle 0 ![3, 4, 0] ![(1 : ℝ), 1, 1]) i).PType = 0 →
        (constParticles (mkParticle 0 ![3, 4, 0] ![(1 : ℝ), 1, 1]) i).Mass = 0 →
        P1 i = constParticles (mkParticle 0 ![3, 4, 0] ![1, 1, 1]) i :=
  apply_excision_idempotent Real.sqrt (fun x y => x ^ y) cfgNone 1 2 singleActive 1 0 [0]
    activeChain_singleActive (constParticles (mkParticle 0 ![3, 4, 0] ![1, 1, 1]))

/-! ## GravAccel_StaticPlummerSphere -/

theorem norm3_smul (c : ℝ) (v : Fin 3 → ℝ) :
    norm3 Real.sqrt (fun k => c * v k) = |c| * norm3 Real.sqrt v := by
  have e : (c * v 0) * (c * v 0) + (c * v 1) * (c * v 1) + (c * v 2) * (c * v 2)
      = (c * c) * (v 0 * v 0 + v 1 * v 1 + v 2 * v 2) := by ring
  show Real.sqrt _ = |c| * Real.sqrt _
  rw [e, Real.sqrt_mul (mul_self_nonneg c), Real.sqrt_mul_self_eq_abs]

theorem norm3_sq (v : Fin 3 → ℝ) :
    norm3 Real.sqrt v ^ 2 = v 0 * v 0 + v 1 * v 1 + v 2 * v 2 := by
  rw [pow_two]
  exact norm3_mul_self v

theorem norm3_nonneg (v : Fin 3 → ℝ) : 0 ≤ norm3 Real.sqrt v :=
  Real.sqrt_nonneg _

/-- The length of the Plummer acceleration is `r / (r^2 + 1)^1.5`. -/
theorem norm3_plummerAccel (p : Fin 3 → ℝ) :
    norm3 Real.sqrt (plummerAccel Real.sqrt (fun x y => x ^ y) p) =
      norm3 Real.sqrt p / (norm3 Real.sqrt p ^ 2 + 1) ^ (1.5 : ℝ) := by
  have hD : 0 < (norm3 Real.sqrt p ^ 2 + 1) ^ (1.5 : ℝ) :=
    Real.rpow_pos_of_pos (by positivity) _
  have e : plummerAccel Real.sqrt (fun x y => x ^ y) p =
      fun k => (-1 / (norm3 Real.sqrt p ^ 2 + 1) ^ (1.5 : ℝ)) * p k := by
    funext k
    simp only [plummerAccel]
    ring
  rw [e, norm3_smul, abs_div, abs_neg, abs_one, abs_of_pos hD]
  ring

theorem GravAccel_StaticPlummerSphere_eq {R : Type} [LinearOrderedField R] (sqrt : R → R)
    (pow : R → R → R) (cfg : Config) (next : Nat → Int) (fuel : Nat) (first : Int)
    (l : List Nat) (hl : activeChain next fuel first = some l) (P : Nat → Particle R) :
    GravAccel_StaticPlummerSphere sqrt pow cfg next fuel first P =
      some (fun j => if j ∈ l then plummerBody sqrt pow cfg (P j) else P j) :=
  forActive_pointwise next (fun _ p => plummerBody sqrt pow cfg p) fuel first l hl P

theorem plummerIncrement_eq_plummerAccel (cfg : Config)
    (hA : cfg.GRAVITY_ANALYTIC_ANCHOR_TO_PARTICLE = false) (p m : Fin 3 → ℝ) :
    plummerIncrement (fun x y => x ^ y) cfg p m = plummerAccel Real.sqrt (fun x y => x ^ y) p := by
  funext k
  simp only [plummerIncrement, plummerAccel, hA, Bool.false_eq_true, if_false, norm3_sq]

/-- C11: `GravAccel_StaticPlummerSphere` without the anchor option, over the reals with
`pow` the real power.  On an active chain that ends the routine returns and adds to every
active particle at `p` the acceleration `-p / (r^2+1)^1.5`, `r = |p|`, whose length is
`r / (r^2+1)^1.5`; with zero prior acceleration the acceleration afterwards is exactly this
vector, and two active particles at equal radius receive increments of equal length. -/
theorem GravAccel_StaticPlummerSphere_spec (cfg : Config)
    (hA : cfg.GRAVITY_ANALYTIC_ANCHOR_TO_PARTICLE = false) (next : Nat → Int) (fuel : Nat)
    (first : Int) (l : List Nat) (hl : activeChain next fuel first = some l)
    (P : Nat → Particle ℝ) :
    ∃ P', GravAccel_StaticPlummerSphere Real.sqrt (fun x y => x ^ y) cfg next fuel first P
        = some P' ∧
      (∀ i, i ∈ l →
        (P' i).GravAccel =
          (P i).GravAccel + plummerAccel Real.sqrt (fun x y => x ^ y) (P i).Pos ∧
        ((P i).GravAccel = 0 →
          (P' i).GravAccel =
            fun k => -(P i).Pos k / (norm3 Real.sqrt (P i).Pos ^ 2 + 1) ^ (1.5 : ℝ)) ∧
        norm3 Real.sqrt (plummerAccel Real.sqrt (fun x y => x ^ y) (P i).Pos) =
          norm3 Real.sqrt (P i).Pos / (norm3 Real.sqrt (P i).Pos ^ 2 + 1) ^ (1.5 : ℝ)) ∧
      (∀ i j, i ∈ l → j ∈ l → (P i).GravAccel = 0 → (P j).GravAccel = 0 →
        norm3 Real.sqrt (P i).Pos = norm3 Real.sqrt (P j).Pos →
        norm3 Real.sqrt (P' i).GravAccel = norm3 Real.sqrt (P' j).GravAccel) := by
  have hacc : ∀ i, i ∈ l →
      ((fun j => if j ∈ l then plummerBody Real.sqrt (fun x y => x ^ y) cfg (P j) else P j)
        i).GravAccel =
        (P i).GravAccel + plummerAccel Real.sqrt (fun x y => x ^ y) (P i).Pos := by
    intro i hi
    simp only [hi, if_true]
    rw [plummerBody_GravAccel, plummerIncrement_eq_plummerAccel cfg hA]
  refine ⟨_, GravAccel_StaticPlummerSphere_eq Real.sqrt _ cfg next fuel first l hl P, ?_, ?_⟩
  · intro i hi
    refine ⟨hacc i hi, ?_, norm3_plummerAccel _⟩
    intro h0
    rw [hacc i hi, h0, zero_add]
    rfl
  · intro i j hi hj h0i h0j hr
    rw [hacc i hi, hacc j hj, h0i, h0j, zero_add, zero_add, norm3_plummerAccel,
      norm3_plummerAccel, hr]

/-- C11 at a concrete state: one active particle at (3,4,0) with zero prior acceleration. -/
theorem GravAccel_StaticPlummerSphere_spec_witness :
    ∃ P', GravAccel_StaticPlummerSphere Real.sqrt (fun x y => x ^ y) cfgNone singleActive 1 0
        (constParticles (mkParticle 0 ![3, 4, 0] 0)) = some P' ∧
      (P' 0).GravAccel =
        fun k => -(![3, 4, 0] : Fin 3 → ℝ) k
          / (norm3 Real.sqrt (![3, 4, 0] : Fin 3 → ℝ) ^ 2 + 1) ^ (1.5 : ℝ) := by
  obtain ⟨P', hP', h, _⟩ :=
    GravAccel_StaticPlummerSphere_spec cfgNone rfl singleActive 1 0 [0]
      activeChain_singleActive (constParticles (mkParticle 0 ![3, 4, 0] 0))
  exact ⟨P', hP', (h 0 (by simp)).2.1 rfl⟩

/-! ## GravAccel_StaticHernquist and GravAccel_StaticIsothermalSphere -/

theorem hernquistBody_GravAccel (cfg : Config)
    (hA : cfg.GRAVITY_ANALYTIC_ANCHOR_TO_PARTICLE = false) (G : ℝ) (p : Particle ℝ) :
    (hernquistBody Real.sqrt cfg G p).GravAccel =
      p.GravAccel + enclosedMassAccel Real.sqrt G hernquistMass p.Pos := by
  have hr := norm3_mul_self p.Pos
  have key : (fun k => p.GravAccel k + -G * (100 * (norm3 Real.sqrt p.Pos /
        (norm3 Real.sqrt p.Pos + 20)) * (norm3 Real.sqrt p.Pos / (norm3 Real.sqrt p.Pos + 20)))
        * p.Pos k / ((p.Pos 0 * p.Pos 0 + p.Pos 1 * p.Pos 1 + p.Pos 2 * p.Pos 2)
          * norm3 Real.sqrt p.Pos)) =
      p.GravAccel + enclosedMassAccel Real.sqrt G hernquistMass p.Pos := by
    funext k
    simp only [Pi.add_apply, enclosedMassAccel, hernquistMass]
    rw [← hr]
    congr 1
    ring
  unfold hernquistBody
  simp only [hA, Bool.false_eq_true, if_false]
  split_ifs <;> exact key

theorem isothermalBody_GravAccel (cfg : Config)
    (hA : cfg.GRAVITY_ANALYTIC_ANCHOR_TO_PARTICLE = false) (G : ℝ) (p : Particle ℝ) :
    (isothermalBody Real.sqrt cfg G p).GravAccel =
      p.GravAccel + enclosedMassAccel Real.sqrt G isothermalMass p.Pos := by
  have hr := norm3_mul_self p.Pos
  have hm : (if norm3 Real.sqrt p.Pos < 200 then (100 : ℝ) * (norm3 Real.sqrt p.Pos / 200)
      else 100) = isothermalMass (norm3 Real.sqrt p.Pos) := by
    unfold isothermalMass
    split_ifs with h
    · rw [min_eq_left (by linarith)]
    · rw [min_eq_right (by linarith)]
      ring
  have key : (fun k => p.GravAccel k + -G * (if norm3 Real.sqrt p.Pos < 200 then
        (100 : ℝ) * (norm3 Real.sqrt p.Pos / 200) else 100)
        * p.Pos k / ((p.Pos 0 * p.Pos 0 + p.Pos 1 * p.Pos 1 + p.Pos 2 * p.Pos 2)
          * norm3 Real.sqrt p.Pos)) =
      p.GravAccel + enclosedMassAccel Real.sqrt G isothermalMass p.Pos := by
    funext k
    simp only [Pi.add_apply, enclosedMassAccel]
    rw [hm, ← hr]
    congr 1
    ring
  unfold isothermalBody
  simp only [hA, Bool.false_eq_true, if_false]
  exact key

/-- C18: enclosed-mass law of the Hernquist and singular-isothermal models without the
anchor option, over the reals.  On an active chain that ends both routines return, and for
every active particle at `p` with `r = |p| > 0` the acceleration increment is
`-G M(r) p / r^3`, with `M(r) = 100 (r/(r+20))^2` for `GravAccel_StaticHernquist` and
`M(r) = 100 min(r/200, 1)` for `GravAccel_StaticIsothermalSphere`; the latter mass is 100 at
`r = 200` and for every larger `r`. -/
theorem enclosed_mass_law (cfg : Config)
    (hA : cfg.GRAVITY_ANALYTIC_ANCHOR_TO_PARTICLE = false) (G : ℝ) (next : Nat → Int)
    (fuel : Nat) (first : Int) (l : List Nat) (hl : activeChain next fuel first = some l)
    (P : Nat → Particle ℝ) :
    (∃ PH, GravAccel_StaticHernquist Real.sqrt cfg G next fuel first P = some PH ∧
      ∀ i, i ∈ l → 0 < norm3 Real.sqrt (P i).Pos →
        (PH i).GravAccel = (P i).GravAccel + fun k =>
          -G * (100 * (norm3 Real.sqrt (P i).Pos / (norm3 Real.sqrt (P i).Pos + 20)) ^ 2)
            * (P i).Pos k / norm3 Real.sqrt (P i).Pos ^ 3) ∧
    (∃ PI, GravAccel_StaticIsothermalSphere Real.sqrt cfg G next fuel first P = some PI ∧
      ∀ i, i ∈ l → 0 < norm3 Real.sqrt (P i).Pos →
        (PI i).GravAccel = (P i).GravAccel + fun k =>
          -G * (100 * min (norm3 Real.sqrt (P i).Pos / 200) 1)
            * (P i).Pos k / norm3 Real.sqrt (P i).Pos ^ 3) ∧
    (∀ r : ℝ, 200 ≤ r → isothermalMass r = 100) := by
  refine ⟨⟨_, forActive_pointwise next (fun _ p => hernquistBody Real.sqrt cfg G p) fuel first
      l hl P, ?_⟩,
    ⟨_, forActive_pointwise next (fun _ p => isothermalBody Real.sqrt cfg G p) fuel first
      l hl P, ?_⟩, ?_⟩
  · intro i hi _
    simp only [hi, if_true]
    rw [hernquistBody_GravAccel cfg hA]
    rfl
  · intro i hi _
    simp only [hi, if_true]
    rw [isothermalBody_GravAccel cfg hA]
    rfl
  · intro r hr
    unfold isothermalMass
    rw [min_eq_right (by linarith)]
    ring

/-- C18 at a concrete state: one active particle at (3,4,0), `G = 1`. -/
theorem enclosed_mass_law_witness :
    ∃ PH, GravAccel_StaticHernquist Real.sqrt cfgNone 1 singleActive 1 0
        (constParticles (mkParticle 0 ![3, 4, 0] ![1, 1, 1])) = some PH ∧
      ∀ i, i ∈ [0] →
        0 < norm3 Real.sqrt (constParticles (mkParticle 0 ![3, 4, 0] ![(1 : ℝ), 1, 1]) i).Pos →
        (PH i).GravAccel =
          (constParticles (mkParticle 0 ![3, 4, 0] ![(1 : ℝ), 1, 1]) i).GravAccel + fun k =>
            -1 * (100 *
                (norm3 Real.sqrt (constParticles (mkParticle 0 ![3, 4, 0] ![(1 : ℝ), 1, 1]) i).Pos
                  / (norm3 Real.sqrt
                      (constParticles (mkParticle 0 ![3, 4, 0] ![(1 : ℝ), 1, 1]) i).Pos + 20))
                  ^ 2)
              * (constParticles (mkParticle 0 ![3, 4, 0] ![(1 : ℝ), 1, 1]) i).Pos k
              / norm3 Real.sqrt
                  (constParticles (mkParticle 0 ![3, 4, 0] ![(1 : ℝ), 1, 1]) i).Pos ^ 3 :=
  (enclosed_mass_law cfgNone rfl 1 singleActive 1 0 [0] activeChain_singleActive
    (constParticles (mkParticle 0 ![3, 4, 0] ![1, 1, 1]))).1

/-! ## GravAccel_StaticNFW -/

theorem log_eleven_gt_one : 1 < Real.log 11 := by
  rw [Real.lt_log_iff_exp_lt (by norm_num)]
  have h := Real.exp_one_lt_d9
  linarith

theorem nfw_R200_pos (G H0 : ℝ) (hG : 0 < G) (hH : 0 < H0) :
    0 < nfw_R200 (fun x y => x ^ y) G H0 := by
  simp only [nfw_R200]
  exact Real.rpow_pos_of_pos (by positivity) _

theorem nfw_algebra (G c R pk : ℝ) (hc : c ≠ 0) (hR : R ≠ 0) :
    -G * (c / (10 * 10)) * 100 / (c * (R / 10) * (R / 10)) * (pk / R)
      = -(G * 100 / R ^ 2) * (pk / R) := by
  field_simp
  ring

/-- At `r = R200` the NFW body adds `-(G 100 / R200^2) p / R200`. -/
theorem nfwBody_at_R200 (cfg : Config) (hA : cfg.GRAVITY_ANALYTIC_ANCHOR_TO_PARTICLE = false)
    (hP : cfg.BOX_PERIODIC = false) (boxHalf : Fin 3 → ℝ) (G H0 : ℝ) (hG : 0 < G)
    (hH : 0 < H0) (p : Particle ℝ)
    (hr : norm3 Real.sqrt p.Pos = nfw_R200 (fun x y => x ^ y) G H0) :
    nfwBody Real.sqrt (fun x y => x ^ y) Real.log cfg boxHalf G H0 p =
      { p with GravAccel := p.GravAccel + fun k =>
          -(G * 100 / nfw_R200 (fun x y => x ^ y) G H0 ^ 2)
            * (p.Pos k / nfw_R200 (fun x y => x ^ y) G H0) } := by
  have hR := nfw_R200_pos G H0 hG hH
  have hRne : nfw_R200 (fun x y => x ^ y) G H0 ≠ 0 := ne_of_gt hR
  have hx : nfw_R200 (fun x y => x ^ y) G H0 / (nfw_R200 (fun x y => x ^ y) G H0 / 10) = 10 := by
    field_simp
  have hc : Real.log 11 - 10 / 11 ≠ 0 := by
    have := log_eleven_gt_one
    intro h
    linarith
  have h11 : (1 : ℝ) + 10 = 11 := by norm_num
  unfold nfwBody
  simp only [hA, hP, Bool.false_eq_true, if_false]
  have hr' : Real.sqrt (p.Pos 0 * p.Pos 0 + p.Pos 1 * p.Pos 1 + p.Pos 2 * p.Pos 2)
      = nfw_R200 (fun x y => x ^ y) G H0 := hr
  rw [hr', if_pos hR, hx, if_neg (by norm_num)]
  congr 1
  funext k
  simp only [Pi.add_apply, nfw_closed, h11]
  congr 1
  exact nfw_algebra G (Real.log 11 - 10 / 11) _ _ hc hRne

/-- C19: normalisation of `GravAccel_StaticNFW` (no anchor option, no periodic shift), over
the reals with the real logarithm and power.  For every `G > 0` and `H0 > 0`, on an active
chain that ends the routine returns, and an active particle at radius
`r = R200 = (M200 G / (100 H0^2))^(1/3)` receives the increment `-(G M200 / R200^2) p / r`
with `M200 = 100`: it points towards the centre and its length is exactly
`G NFW_M200 / R200^2`. -/
theorem GravAccel_StaticNFW_at_R200 (cfg : Config)
    (hA : cfg.GRAVITY_ANALYTIC_ANCHOR_TO_PARTICLE = false) (hP : cfg.BOX_PERIODIC = false)
    (boxHalf : Fin 3 → ℝ) (G H0 : ℝ) (hG : 0 < G) (hH : 0 < H0) (next : Nat → Int)
    (fuel : Nat) (first : Int) (l : List Nat) (hl : activeChain next fuel first = some l)
    (P : Nat → Particle ℝ) :
    0 < nfw_R200 (fun x y => x ^ y) G H0 ∧
    nfw_R200 (fun x y => x ^ y) G H0 = (100 * G / (100 * H0 * H0)) ^ ((1 : ℝ) / 3) ∧
    ∃ P', GravAccel_StaticNFW Real.sqrt (fun x y => x ^ y) Real.log cfg boxHalf G H0 next fuel
        first P = some P' ∧
      ∀ i, i ∈ l → norm3 Real.sqrt (P i).Pos = nfw_R200 (fun x y => x ^ y) G H0 →
        (P' i).GravAccel = (P i).GravAccel + (fun k =>
          -(G * 100 / nfw_R200 (fun x y => x ^ y) G H0 ^ 2)
            * ((P i).Pos k / norm3 Real.sqrt (P i).Pos)) ∧
        norm3 Real.sqrt (fun k =>
          -(G * 100 / nfw_R200 (fun x y => x ^ y) G H0 ^ 2)
            * ((P i).Pos k / norm3 Real.sqrt (P i).Pos))
          = G * 100 / nfw_R200 (fun x y => x ^ y) G H0 ^ 2 := by
  have hR := nfw_R200_pos G H0 hG hH
  refine ⟨hR, rfl, _, forActive_pointwise next
    (fun _ p => nfwBody Real.sqrt (fun x y => x ^ y) Real.log cfg boxHalf G H0 p) fuel first
    l hl P, ?_⟩
  intro i hi hr
  constructor
  · simp only [hi, if_true]
    rw [nfwBody_at_R200 cfg hA hP boxHalf G H0 hG hH (P i) hr, hr]
  · have hc : 0 < G * 100 / nfw_R200 (fun x y => x ^ y) G H0 ^ 2 := by positivity
    have e : (fun k => -(G * 100 / nfw_R200 (fun x y => x ^ y) G H0 ^ 2)
        * ((P i).Pos k / norm3 Real.sqrt (P i).Pos)) =
        fun k => (-(G * 100 / nfw_R200 (fun x y => x ^ y) G H0 ^ 2)
          / norm3 Real.sqrt (P i).Pos) * (P i).Pos k := by
      funext k
      ring
    rw [e, norm3_smul, abs_div, abs_neg, abs_of_pos hc, hr, abs_of_pos hR]
    field_simp
    ring

/-- C19 at a concrete state: `G = H0 = 1`, so `R200 = 1`, one active particle at (1,0,0). -/
theorem GravAccel_StaticNFW_at_R200_witness :
    ∃ P', GravAccel_StaticNFW Real.sqrt (fun x y => x ^ y) Real.log cfgNone 0 1 1 singleActive
        1 0 (constParticles (mkParticle 0 ![1, 0, 0] ![1, 1, 1])) = some P' ∧
      (P' 0).GravAccel = (![1, 1, 1] : Fin 3 → ℝ) + (fun k =>
        -(1 * 100 / nfw_R200 (fun x y => x ^ y) (1 : ℝ) 1 ^ 2)
          * ((![1, 0, 0] : Fin 3 → ℝ) k / norm3 Real.sqrt (![1, 0, 0] : Fin 3 → ℝ))) := by
  have hn : norm3 Real.sqrt (![1, 0, 0] : Fin 3 → ℝ) = 1 := by
    simp [norm3]
  have hR : nfw_R200 (fun x y => x ^ y) (1 : ℝ) 1 = 1 := by
    simp [nfw_R200]
  obtain ⟨_, _, P', hP', h⟩ :=
    GravAccel_StaticNFW_at_R200 cfgNone rfl rfl 0 1 1 one_pos one_pos singleActive 1 0 [0]
      activeChain_singleActive (constParticles (mkParticle 0 ![1, 0, 0] ![1, 1, 1]))
  exact ⟨P', hP', (h 0 (by simp) (by
    show norm3 Real.sqrt (![1, 0, 0] : Fin 3 → ℝ) = _
    rw [hn, hR])).1⟩

/-! ## GravAccel_BinaryOrbit : anchor feedback -/

theorem binaryDiagBody_P {R : Type} [LinearOrderedField R] (sqrt : R → R) (pow : R → R → R)
    (cos sin : R → R) (atan2 : R → R → R) (drift_particle : Particle R → Int → Particle R)
    (cfg : Config) (boxHalf : Fin 3 → R) (BHdata : Nat → R) (Ti_Current : Int) (i : Nat)
    (s : BinaryDiag R) :
    (binaryDiagBody sqrt pow cos sin atan2 drift_particle cfg boxHalf BHdata Ti_Current i s).P
      = if (s.P i).PType = 5 then s.P
        else Function.update s.P i (driftIfNeeded drift_particle Ti_Current (s.P i)) := by
  unfold binaryDiagBody
  split_ifs <;> rfl

theorem binaryDiagBody_acc_sink {R : Type} [LinearOrderedField R] (sqrt : R → R)
    (pow : R → R → R) (cos sin : R → R) (atan2 : R → R → R)
    (drift_particle : Particle R → Int → Particle R)
    (cfg : Config) (boxHalf : Fin 3 → R) (BHdata : Nat → R) (Ti_Current : Int) (i : Nat)
    (s : BinaryDiag R) (a : Fin 2) (k : Fin 3) :
    (binaryDiagBody sqrt pow cos sin atan2 drift_particle cfg boxHalf BHdata Ti_Current i
        s).acc_sink a k
      = if (s.P i).PType = 5 then s.acc_sink a k
        else s.acc_sink a k + accSinkTerm sqrt cfg boxHalf BHdata
          (driftIfNeeded drift_particle Ti_Current (s.P i)) a k := by
  have key : ∀ (acc : Fin 2 → Fin 3 → R) (M : R) (dp : Fin 2 → Fin 3 → R) (r : Fin 2 → R),
      diag_acc_sink acc M dp r a k = acc a k + diag_acc_sink (fun _ _ => 0) M dp r a k := by
    intro acc M dp r
    unfold diag_acc_sink
    split_ifs <;> simp
  unfold binaryDiagBody accSinkTerm
  by_cases h5 : (s.P i).PType = 5
  · simp only [h5, if_true]
  · simp only [h5, if_false]
    split_ifs <;> exact key _ _ _ _

theorem binaryDiag_foldl {R : Type} [LinearOrderedField R] (sqrt : R → R)
    (pow : R → R → R) (cos sin : R → R) (atan2 : R → R → R)
    (drift_particle : Particle R → Int → Particle R)
    (cfg : Config) (boxHalf : Fin 3 → R) (BHdata : Nat → R) (Ti_Current : Int)
    (l : List Nat) (hl : l.Nodup) (s : BinaryDiag R) :
    (∀ j, (l.foldl (fun s i => binaryDiagBody sqrt pow cos sin atan2 drift_particle cfg
          boxHalf BHdata Ti_Current i s) s).P j =
        if j ∈ l ∧ (s.P j).PType ≠ 5 then driftIfNeeded drift_particle Ti_Current (s.P j)
        else s.P j) ∧
    (∀ a k, (l.foldl (fun s i => binaryDiagBody sqrt pow cos sin atan2 drift_particle cfg
          boxHalf BHdata Ti_Current i s) s).acc_sink a k =
        s.acc_sink a k +
          ((l.filter (fun i => decide ((s.P i).PType ≠ 5))).map (fun i =>
            accSinkTerm sqrt cfg boxHalf BHdata
              (driftIfNeeded drift_particle Ti_Current (s.P i)) a k)).sum) := by
  induction l generalizing s with
  | nil => simp
  | cons i t ih =>
    obtain ⟨hit, ht⟩ := List.nodup_cons.mp hl
    have hP := binaryDiagBody_P sqrt pow cos sin atan2 drift_particle cfg boxHalf BHdata
      Ti_Current i s
    have hother : ∀ m, m ≠ i →
        (binaryDiagBody sqrt pow cos sin atan2 drift_particle cfg boxHalf BHdata Ti_Current i
          s).P m = s.P m := by
      intro m hm
      rw [hP]
      split_ifs
      · rfl
      · exact Function.update_noteq hm _ _
    have hmem : ∀ m, m ∈ t →
        (binaryDiagBody sqrt pow cos sin atan2 drift_particle cfg boxHalf BHdata Ti_Current i
          s).P m = s.P m :=
      fun m hm => hother m (fun e => hit (e ▸ hm))
    obtain ⟨ih1, ih2⟩ := ih ht
      (binaryDiagBody sqrt pow cos sin atan2 drift_particle cfg boxHalf BHdata Ti_Current i s)
    rw [List.foldl_cons]
    constructor
    · intro j
      rw [ih1 j]
      by_cases hj : j ∈ t
      · have hji : j ≠ i := fun e => hit (e ▸ hj)
        rw [hmem j hj]
        simp [hj]
      · by_cases hji : j = i
        · subst hji
          rw [hP]
          by_cases h5 : (s.P j).PType = 5
          · simp [hj, h5]
          · simp [hj, h5]
        · rw [hother j hji]
          simp [hj, hji]
    · intro a k
      rw [ih2 a k, binaryDiagBody_acc_sink]
      have hfilter : t.filter (fun m => decide
          (((binaryDiagBody sqrt pow cos sin atan2 drift_particle cfg boxHalf BHdata
            Ti_Current i s).P m).PType ≠ 5)) =
          t.filter (fun m => decide ((s.P m).PType ≠ 5)) := by
        apply List.filter_congr
        intro m hm
        rw [hmem m hm]
      have hmap : ∀ l' : List Nat, (∀ m ∈ l', m ∈ t) →
          l'.map (fun m => accSinkTerm sqrt cfg boxHalf BHdata
            (driftIfNeeded drift_particle Ti_Current
              ((binaryDiagBody sqrt pow cos sin atan2 drift_particle cfg boxHalf BHdata
                Ti_Current i s).P m)) a k) =
          l'.map (fun m => accSinkTerm sqrt cfg boxHalf BHdata
            (driftIfNeeded drift_particle Ti_Current (s.P m)) a k) := by
        intro l' hl'
        apply List.map_congr_left
        intro m hm
        rw [hmem m (hl' m hm)]
      rw [hfilter, hmap _ (fun m hm => (List.mem_filter.mp hm).1)]
      by_cases h5 : (s.P i).PType = 5
      · simp [h5]
      · simp [h5, add_assoc]

theorem binaryDiag_P {R : Type} [LinearOrderedField R] (sqrt : R → R)
    (pow : R → R → R) (cos sin : R → R) (atan2 : R → R → R)
    (drift_particle : Particle R → Int → Particle R)
    (cfg : Config) (boxHalf : Fin 3 → R) (BHdata : Nat → R) (Ti_Current : Int)
    (NumPart : Nat) (P : Nat → Particle R) (j : Nat) :
    (binaryDiag sqrt pow cos sin atan2 drift_particle cfg boxHalf BHdata Ti_Current NumPart
        P).P j =
      if j < NumPart ∧ (P j).PType ≠ 5 then driftIfNeeded drift_particle Ti_Current (P j)
      else P j := by
  unfold binaryDiag
  rw [(binaryDiag_foldl sqrt pow cos sin atan2 drift_particle cfg boxHalf BHdata Ti_Current
    (List.range NumPart) (List.nodup_range NumPart) _).1 j]
  simp only [List.mem_range]

theorem binaryDiag_acc_sink {R : Type} [LinearOrderedField R] (sqrt : R → R)
    (pow : R → R → R) (cos sin : R → R) (atan2 : R → R → R)
    (drift_particle : Particle R → Int → Particle R)
    (cfg : Config) (boxHalf : Fin 3 → R) (BHdata : Nat → R) (Ti_Current : Int)
    (r : Rank R) (a : Fin 2) (k : Fin 3) :
    (binaryDiag sqrt pow cos sin atan2 drift_particle cfg boxHalf BHdata Ti_Current r.NumPart
        r.P).acc_sink a k =
      ((nonAnchors r).map (fun i => accSinkTerm sqrt cfg boxHalf BHdata
        (driftIfNeeded drift_particle Ti_Current (r.P i)) a k)).sum := by
  unfold binaryDiag
  rw [(binaryDiag_foldl sqrt pow cos sin atan2 drift_particle cfg boxHalf BHdata Ti_Current
    (List.range r.NumPart) (List.nodup_range r.NumPart) _).2 a k]
  simp only [zero_add, nonAnchors]

/-- Over the reals and without the periodic shift, the accumulated term is the pull of the
particle on the anchor. -/
theorem accSinkTerm_eq_diskPull (cfg : Config) (hP : cfg.BOX_PERIODIC = false)
    (boxHalf : Fin 3 → ℝ) (BHdata : Nat → ℝ) (p : Particle ℝ) (a : Fin 2) (k : Fin 3) :
    accSinkTerm Real.sqrt cfg boxHalf BHdata p a k = diskPull Real.sqrt BHdata p a k := by
  have hdp : diag_dp cfg boxHalf BHdata p = fun a k => p.Pos k - anchorPos BHdata a.val k := by
    simp only [diag_dp, hP, Bool.false_eq_true, if_false, anchorPos]
  have hr : diag_r Real.sqrt (fun a k => p.Pos k - anchorPos BHdata a.val k) a =
      norm3 Real.sqrt (fun k => p.Pos k - anchorPos BHdata a.val k) := rfl
  have hzero : norm3 Real.sqrt (fun k => p.Pos k - anchorPos BHdata a.val k) ≠ 0 ↔
      anchorPos BHdata a.val ≠ p.Pos := by
    have h1 := norm3_pos_iff (fun k => p.Pos k - anchorPos BHdata a.val k)
    have h2 := sumsq_eq_zero_iff (fun k => p.Pos k - anchorPos BHdata a.val k)
    have h3 : (fun k => p.Pos k - anchorPos BHdata a.val k) = 0 ↔
        anchorPos BHdata a.val = p.Pos := by
      constructor
      · intro h0
        funext k
        have := congrFun h0 k
        simp only [Pi.zero_apply] at this
        linarith
      · intro hX
        funext k
        simp [hX]
    constructor
    · intro hne hX
      have hpos : 0 < norm3 Real.sqrt (fun k => p.Pos k - anchorPos BHdata a.val k) :=
        lt_of_le_of_ne (norm3_nonneg _) (Ne.symm hne)
      exact (h1.mp hpos) (h2.mpr (h3.mpr hX))
    · intro hX
      have : 0 < norm3 Real.sqrt (fun k => p.Pos k - anchorPos BHdata a.val k) :=
        h1.mpr (fun h => hX (h3.mp (h2.mp h)))
      exact ne_of_gt this
  unfold accSinkTerm diskPull diag_acc_sink
  rw [hdp, hr]
  by_cases hX : anchorPos BHdata a.val ≠ p.Pos
  · rw [if_pos (hzero.mpr hX), if_pos hX, zero_add]
    congr 1
    ring
  · rw [if_neg (fun h => hX (hzero.mp h)), if_neg hX]

theorem binary_acc_sink_tot_eq (pow : ℝ → ℝ → ℝ) (cos sin : ℝ → ℝ) (atan2 : ℝ → ℝ → ℝ)
    (drift_particle : Particle ℝ → Int → Particle ℝ) (cfg : Config)
    (hP : cfg.BOX_PERIODIC = false) (boxHalf : Fin 3 → ℝ) (BHdata : Nat → ℝ) (Ti_Current : Int)
    (ranks : List (Rank ℝ)) (a : Fin 2) (k : Fin 3) :
    binary_acc_sink_tot Real.sqrt pow cos sin atan2 drift_particle cfg boxHalf BHdata
        Ti_Current ranks a k =
      diskPullSum Real.sqrt drift_particle BHdata Ti_Current ranks a k := by
  simp only [binary_acc_sink_tot, MPI_Allreduce_SUM, diskPullSum, List.map_map]
  congr 1
  apply List.map_congr_left
  intro r _
  simp only [Function.comp, binaryDiag_acc_sink, accSinkTerm_eq_diskPull cfg hP]

theorem binaryFeedback_eq {R : Type} [LinearOrderedField R] (BHdata : Nat → R)
    (tot : Fin 2 → Fin 3 → R) (next : Nat → Int) (fuel : Nat) (first : Int) (l : List Nat)
    (hl : activeChain next fuel first = some l) (P : Nat → Particle R) :
    binaryFeedback BHdata tot next fuel first P =
      some (fun j => if j ∈ l ∧ (P j).PType = 5 then
          { P j with GravAccel := (P j).GravAccel +
              (if ((P j).ID : R) = BHdata 4 then tot 0 else tot 1) }
        else P j) := by
  have hbody : (fun i (P : Nat → Particle R) =>
      if (P i).PType ≠ 5 then P
      else if ((P i).ID : R) = BHdata 4 then
        Function.update P i
          { P i with GravAccel := fun k => (P i).GravAccel k + tot 0 k }
      else
        Function.update P i
          { P i with GravAccel := fun k => (P i).GravAccel k + tot 1 k }) =
      (fun i (P : Nat → Particle R) => Function.update P i
        ((fun _ (p : Particle R) => if p.PType = 5 then
            { p with GravAccel := p.GravAccel +
                (if (p.ID : R) = BHdata 4 then tot 0 else tot 1) }
          else p) i (P i))) := by
    funext i P
    by_cases h5 : (P i).PType = 5
    · by_cases hid : ((P i).ID : R) = BHdata 4
      · simp only [h5, hid, ne_eq, not_true_eq_false, if_false, if_true]
        rfl
      · simp only [h5, hid, ne_eq, not_true_eq_false, if_false, if_true]
        rfl
    · simp [h5]
  rw [binaryFeedback, hbody]
  refine (forActive_pointwise next (fun _ (p : Particle R) => if p.PType = 5 then
      { p with GravAccel := p.GravAccel +
          (if (p.ID : R) = BHdata 4 then tot 0 else tot 1) }
    else p) fuel first l hl P).trans ?_
  congr 1
  funext j
  by_cases hj : j ∈ l <;> by_cases h5 : (P j).PType = 5 <;> simp [hj, h5]

/-- C14: disk-on-anchor feedback of `GravAccel_BinaryOrbit` (`BINARY` and `BINARY_SINK_GAS`
defined, no `BOX_PERIODIC`), over the reals, the all-reduce being the sum over the ranks
`before ++ self :: after`, entered with the particle arrays left by the force loop.  On an
active chain that ends the block returns; every active Type-5 particle whose ID equals the
ID stored in slot 0 (`All.BHdata[4]`) has its acceleration increased by the sum over all
non-anchor particles of all ranks of `m (x - X_0)/|x - X_0|^3` (zero-distance terms
omitted), every other active Type-5 particle by the same sum about `X_1`, and no particle
that is not of Type 5 and no inactive particle is changed by the feedback loop.  Masses and
positions are those the loop reads, that is after `drift_particle` where it is called. -/
theorem GravAccel_BinaryOrbit_feedback_spec (pow : ℝ → ℝ → ℝ) (cos sin : ℝ → ℝ)
    (atan2 : ℝ → ℝ → ℝ) (drift_particle : Particle ℝ → Int → Particle ℝ) (cfg : Config)
    (hB : cfg.BINARY = true) (hS : cfg.BINARY_SINK_GAS = true)
    (hP : cfg.BOX_PERIODIC = false) (boxHalf : Fin 3 → ℝ) (BHdata : Nat → ℝ)
    (Ti_Current : Int) (before after : List (Rank ℝ)) (self : Rank ℝ) (next : Nat → Int)
    (fuel : Nat) (first : Int) (l : List Nat) (hl : activeChain next fuel first = some l) :
    ∃ P', GravAccel_BinaryOrbit_tail Real.sqrt pow cos sin atan2 drift_particle cfg boxHalf
        BHdata Ti_Current before after self next fuel first = some P' ∧
      (∀ i, i ∈ l → (driftedParticles drift_particle Ti_Current self i).PType = 5 →
        ((driftedParticles drift_particle Ti_Current self i).ID : ℝ) = BHdata 4 →
        P' i = { driftedParticles drift_particle Ti_Current self i with
          GravAccel := (driftedParticles drift_particle Ti_Current self i).GravAccel +
            diskPullSum Real.sqrt drift_particle BHdata Ti_Current
              (before ++ self :: after) 0 }) ∧
      (∀ i, i ∈ l → (driftedParticles drift_particle Ti_Current self i).PType = 5 →
        ((driftedParticles drift_particle Ti_Current self i).ID : ℝ) ≠ BHdata 4 →
        P' i = { driftedParticles drift_particle Ti_Current self i with
          GravAccel := (driftedParticles drift_particle Ti_Current self i).GravAccel +
            diskPullSum Real.sqrt drift_particle BHdata Ti_Current
              (before ++ self :: after) 1 }) ∧
      (∀ i, (driftedParticles drift_particle Ti_Current self i).PType ≠ 5 →
        P' i = driftedParticles drift_particle Ti_Current self i) ∧
      (∀ i, i ∉ l → P' i = driftedParticles drift_particle Ti_Current self i) := by
  have hPd : (binaryDiag Real.sqrt pow cos sin atan2 drift_particle cfg boxHalf BHdata
      Ti_Current self.NumPart self.P).P = driftedParticles drift_particle Ti_Current self := by
    funext j
    rw [binaryDiag_P]
    rfl
  have htot : binary_acc_sink_tot Real.sqrt pow cos sin atan2 drift_particle cfg boxHalf BHdata
      Ti_Current (before ++ self :: after) =
      diskPullSum Real.sqrt drift_particle BHdata Ti_Current (before ++ self :: after) := by
    funext a k
    exact binary_acc_sink_tot_eq pow cos sin atan2 drift_particle cfg hP boxHalf BHdata
      Ti_Current _ a k
  have hrun : GravAccel_BinaryOrbit_tail Real.sqrt pow cos sin atan2 drift_particle cfg boxHalf
      BHdata Ti_Current before after self next fuel first =
      some (fun j => if j ∈ l ∧ (driftedParticles drift_particle Ti_Current self j).PType = 5
        then
          { driftedParticles drift_particle Ti_Current self j with
            GravAccel := (driftedParticles drift_particle Ti_Current self j).GravAccel +
              (if ((driftedParticles drift_particle Ti_Current self j).ID : ℝ) = BHdata 4
                then diskPullSum Real.sqrt drift_particle BHdata Ti_Current
                  (before ++ self :: after) 0
                else diskPullSum Real.sqrt drift_particle BHdata Ti_Current
                  (before ++ self :: after) 1) }
        else driftedParticles drift_particle Ti_Current self j) := by
    unfold GravAccel_BinaryOrbit_tail
    simp only [hB, hS, Bool.true_or, Bool.and_self, if_true]
    rw [hPd, htot]
    exact binaryFeedback_eq BHdata _ next fuel first l hl _
  refine ⟨_, hrun, ?_, ?_, ?_, ?_⟩
  · intro i hi h5 hid
    simp only [hi, h5, hid, and_self, if_true]
  · intro i hi h5 hid
    simp only [hi, h5, hid, and_self, if_true, if_false]
  · intro i h5
    simp only [h5, and_false, if_false]
  · intro i hi
    simp only [hi, false_and, if_false]

/-- C14 at a concrete communicator of two ranks: the anchor of slot 0 is active on the first
rank, gas particles sit on both ranks. -/
theorem GravAccel_BinaryOrbit_feedback_spec_witness :
    ∃ P', GravAccel_BinaryOrbit_tail Real.sqrt (fun x y => x ^ y) Real.cos Real.sin
        (fun _ _ => 0) (fun p _ => p) cfgSinkGas 0 (tableOneAnchor ℝ) 0 [] [rankTwoGas ℝ]
        (rankAnchorAndGas ℝ) singleActive 1 0 = some P' ∧
      P' 0 = { driftedParticles (fun p _ => p) 0 (rankAnchorAndGas ℝ) 0 with
        GravAccel := (driftedParticles (fun p _ => p) 0 (rankAnchorAndGas ℝ) 0).GravAccel +
          diskPullSum Real.sqrt (fun p _ => p) (tableOneAnchor ℝ) 0
            ([] ++ rankAnchorAndGas ℝ :: [rankTwoGas ℝ]) 0 } := by
  obtain ⟨P', hP', h0, _⟩ :=
    GravAccel_BinaryOrbit_feedback_spec (fun x y => x ^ y) Real.cos Real.sin (fun _ _ => 0)
      (fun p _ => p) cfgSinkGas rfl rfl rfl 0 (tableOneAnchor ℝ) 0 [] [rankTwoGas ℝ]
      (rankAnchorAndGas ℝ) singleActive 1 0 [0] activeChain_singleActive
  refine ⟨P', hP', h0 0 (by simp) ?_ ?_⟩
  · simp [driftedParticles, rankAnchorAndGas, mkParticle]
  · simp [driftedParticles, rankAnchorAndGas, mkParticle, tableOneAnchor]

/-! ## GravAccel_BinaryOrbit : torque diagnostics -/

theorem diag_torque_zero {R : Type} [LinearOrderedField R] (BHdata : Nat → R)
    (separation rpcom : R) (torque : Fin 4 → R) (acc_sink : Fin 2 → Fin 3 → R) :
    diag_torque BHdata separation rpcom torque acc_sink 0 =
      if rpcom > separation then
        BHdata 3 * ((BHdata 0 - binaryCom BHdata 0) * acc_sink 0 1
          - (BHdata 1 - binaryCom BHdata 1) * acc_sink 0 0)
      else torque 0 := by
  unfold diag_torque
  have h1 : (0 : Fin 4) ≠ 1 := by decide
  have h2 : (0 : Fin 4) ≠ 2 := by decide
  have h3 : (0 : Fin 4) ≠ 3 := by decide
  simp only [Function.update_noteq h3, Function.update_noteq h1]
  split_ifs
  · rw [Function.update_noteq h2, Function.update_same]
  · rfl

theorem binaryDiag_two_torque_zero {R : Type} [LinearOrderedField R] (sqrt : R → R)
    (pow : R → R → R) (cos sin : R → R) (atan2 : R → R → R)
    (drift_particle : Particle R → Int → Particle R) (cfg : Config)
    (hT : cfg.BH_GET_TORQUES = true) (boxHalf : Fin 3 → R) (BHdata : Nat → R)
    (P : Nat → Particle R) (h0 : (P 0).PType ≠ 5) (h1 : (P 1).PType ≠ 5)
    (hd0 : (P 0).Ti_current = 0) (hd1 : (P 1).Ti_current = 0) :
    (binaryDiag sqrt pow cos sin atan2 drift_particle cfg boxHalf BHdata 0 2 P).torque 0 =
      if diag_rpcom sqrt BHdata (P 1) > binarySeparation sqrt pow BHdata then
        BHdata 3 * ((BHdata 0 - binaryCom BHdata 0) *
            (accSinkTerm sqrt cfg boxHalf BHdata (P 0) 0 1
              + accSinkTerm sqrt cfg boxHalf BHdata (P 1) 0 1)
          - (BHdata 1 - binaryCom BHdata 1) *
            (accSinkTerm sqrt cfg boxHalf BHdata (P 0) 0 0
              + accSinkTerm sqrt cfg boxHalf BHdata (P 1) 0 0))
      else if diag_rpcom sqrt BHdata (P 0) > binarySeparation sqrt pow BHdata then
        BHdata 3 * ((BHdata 0 - binaryCom BHdata 0) * accSinkTerm sqrt cfg boxHalf BHdata (P 0) 0 1
          - (BHdata 1 - binaryCom BHdata 1) * accSinkTerm sqrt cfg boxHalf BHdata (P 0) 0 0)
      else 0 := by
  have hr : List.range 2 = [0, 1] := by decide
  have e0 : driftIfNeeded drift_particle 0 (P 0) = P 0 := by simp [driftIfNeeded, hd0]
  have e1 : driftIfNeeded drift_particle 0 (P 1) = P 1 := by simp [driftIfNeeded, hd1]
  have key : ∀ (acc : Fin 2 → Fin 3 → R) (M : R) (dp : Fin 2 → Fin 3 → R) (r : Fin 2 → R) a k,
      diag_acc_sink acc M dp r a k = acc a k + diag_acc_sink (fun _ _ => 0) M dp r a k := by
    intro acc M dp r a k
    unfold diag_acc_sink
    split_ifs <;> simp
  have hne : (1 : Nat) ≠ 0 := by decide
  unfold binaryDiag
  rw [hr]
  simp only [List.foldl_cons, List.foldl_nil]
  simp only [binaryDiagBody, h0, if_false, hT, if_true, e0, Function.update_noteq hne, h1, e1,
    diag_torque_zero]
  rw [key (diag_acc_sink (fun _ _ => 0) (P 0).Mass _ _) (P 1).Mass _ _ 0 1,
    key (diag_acc_sink (fun _ _ => 0) (P 0).Mass _ _) (P 1).Mass _ _ 0 0]
  rfl

theorem sqrt_of_mul_self (x y : ℝ) (hy : 0 ≤ y) (h : x = y * y) : Real.sqrt x = y := by
  rw [h, Real.sqrt_mul_self hy]

theorem tableBinary_values :
    tableBinary ℝ 0 = 3 ∧ tableBinary ℝ 1 = 0 ∧ tableBinary ℝ 2 = 0 ∧ tableBinary ℝ 3 = 1 ∧
    tableBinary ℝ 5 = -3 ∧ tableBinary ℝ 6 = 0 ∧ tableBinary ℝ 7 = 0 ∧ tableBinary ℝ 8 = 1 := by
  simp [tableBinary]

theorem tableBinary_com (k : Fin 3) : binaryCom (tableBinary ℝ) k = 0 := by
  obtain ⟨h0, h1, h2, h3, h5, h6, h7, h8⟩ := tableBinary_values
  fin_cases k <;> simp [binaryCom, h0, h1, h2, h3, h5, h6, h7, h8]

theorem tableBinary_separation :
    binarySeparation Real.sqrt (fun x y => x ^ y) (tableBinary ℝ) = 6 := by
  obtain ⟨h0, h1, h2, h3, h5, h6, h7, h8⟩ := tableBinary_values
  simp only [binarySeparation, h0, h1, h2, h5, h6, h7]
  apply sqrt_of_mul_self _ _ (by norm_num)
  norm_num

theorem rpcom_outer :
    diag_rpcom Real.sqrt (tableBinary ℝ) (mkParticle 0 ![0, 10, 0] 0) = 10 := by
  simp only [diag_rpcom, tableBinary_com, mkParticle]
  apply sqrt_of_mul_self _ _ (by norm_num)
  simp

theorem rpcom_inner :
    diag_rpcom Real.sqrt (tableBinary ℝ) (mkParticle 0 ![3, 4, 0] 0) = 5 := by
  simp only [diag_rpcom, tableBinary_com, mkParticle]
  apply sqrt_of_mul_self _ _ (by norm_num)
  simp
  norm_num

theorem accSinkTerm_inner (boxHalf : Fin 3 → ℝ) :
    accSinkTerm Real.sqrt cfgTorques boxHalf (tableBinary ℝ) (mkParticle 0 ![3, 4, 0] 0) 0 1
      = 1 / 16 := by
  obtain ⟨h0, h1, h2, h3, h5, h6, h7, h8⟩ := tableBinary_values
  have hr : diag_r Real.sqrt (diag_dp cfgTorques boxHalf (tableBinary ℝ)
      (mkParticle 0 ![3, 4, 0] 0)) 0 = 4 := by
    simp only [diag_r, diag_dp, cfgTorques, cfgNone, mkParticle]
    apply sqrt_of_mul_self _ _ (by norm_num)
    simp [h0, h1, h2]
  have hdp : diag_dp cfgTorques boxHalf (tableBinary ℝ) (mkParticle 0 ![3, 4, 0] 0) 0 1 = 4 := by
    simp [diag_dp, cfgTorques, cfgNone, mkParticle, h1]
  simp only [accSinkTerm, diag_acc_sink, hr, hdp]
  norm_num [mkParticle]

/-- C17 fails on the code for `All.torque[0]` (and likewise `All.torque[2]`): lines 339-340
assign the torque of the running sum `acc_sink` each time a particle lies outside the binary
separation, so the value left after the loop depends on where the last such particle is
stored.  With anchors at (±3,0,0) and two gas particles at (0,10,0) (outside) and (3,4,0)
(inside), storing the inner particle first leaves a `torque[0]` larger by 3/16 than storing
it last. -/
theorem torque_depends_on_storage_order (cos sin : ℝ → ℝ) (atan2 : ℝ → ℝ → ℝ)
    (drift_particle : Particle ℝ → Int → Particle ℝ) (boxHalf : Fin 3 → ℝ) :
    (binaryDiag Real.sqrt (fun x y => x ^ y) cos sin atan2 drift_particle cfgTorques boxHalf
        (tableBinary ℝ) 0 2 (innerThenOuter ℝ)).torque 0 =
      (binaryDiag Real.sqrt (fun x y => x ^ y) cos sin atan2 drift_particle cfgTorques boxHalf
        (tableBinary ℝ) 0 2 (outerThenInner ℝ)).torque 0 + 3 / 16 := by
  obtain ⟨h0, h1, h2, h3, h5, h6, h7, h8⟩ := tableBinary_values
  have i0 : innerThenOuter ℝ 0 = mkParticle 0 ![3, 4, 0] 0 := rfl
  have i1 : innerThenOuter ℝ 1 = mkParticle 0 ![0, 10, 0] 0 := rfl
  have o0 : outerThenInner ℝ 0 = mkParticle 0 ![0, 10, 0] 0 := rfl
  have o1 : outerThenInner ℝ 1 = mkParticle 0 ![3, 4, 0] 0 := rfl
  rw [binaryDiag_two_torque_zero _ _ _ _ _ _ cfgTorques rfl boxHalf _ (innerThenOuter ℝ)
      (by rw [i0]; decide) (by rw [i1]; decide) rfl rfl,
    binaryDiag_two_torque_zero _ _ _ _ _ _ cfgTorques rfl boxHalf _ (outerThenInner ℝ)
      (by rw [o0]; decide) (by rw [o1]; decide) rfl rfl]
  rw [i0, i1, o0, o1, tableBinary_separation, rpcom_outer, rpcom_inner, tableBinary_com,
    tableBinary_com, accSinkTerm_inner, h0, h1, h3]
  rw [if_pos (by norm_num), if_neg (by norm_num), if_pos (by norm_num)]
  ring

/-! ## GravAccel_KeplerianTestProblem -/

theorem rpow_sq_half (e : ℝ) (he : 0 < e) : (e ^ (2 : ℝ)) ^ (0.5 : ℝ) = e := by
  rw [← Real.rpow_mul (le_of_lt he)]
  norm_num

theorem rpow_sq_three_halves (e : ℝ) (he : 0 < e) : (e ^ (2 : ℝ)) ^ (1.5 : ℝ) = e ^ 3 := by
  rw [← Real.rpow_mul (le_of_lt he)]
  have h : (2 : ℝ) * 1.5 = (3 : ℕ) := by norm_num
  rw [h, Real.rpow_natCast]

/-- Near the centre (4,4) the x-acceleration set by the routine is
`(1 - e/0.35 - (e/0.35)^2) / e^2` at distance `e` along the x axis. -/
theorem keplerianTestBody_near_centre (e : ℝ) (he : 0 < e) (hle : e ≤ 0.1) :
    (keplerianTestBody (fun x y => x ^ y) (mkParticle 0 ![4 + e, 4, 0] 0)).GravAccel 0 =
      (1 - e / 0.35 - (e / 0.35) ^ 2) / e ^ 2 := by
  have hx : (4 + e - 4.0 : ℝ) = e := by norm_num
  have hy : (4 - 4.0 : ℝ) = 0 := by norm_num
  have h0 : ((0 : ℝ) ^ (2 : ℝ)) = 0 := Real.zero_rpow (by norm_num)
  have hr : ((0 : ℝ) + e ^ (2 : ℝ)) ^ (0.5 : ℝ) = e := by
    rw [zero_add, rpow_sq_half e he]
  have hd : ((0 : ℝ) + e ^ (2 : ℝ)) ^ (1.5 : ℝ) = e ^ 3 := by
    rw [zero_add, rpow_sq_three_halves e he]
  have hne : e ≠ 0 := ne_of_gt he
  simp only [keplerianTestBody, mkParticle, Matrix.cons_val_zero, Matrix.cons_val_one,
    Matrix.head_cons, hx, hy, h0, hr, hd]
  rw [if_neg (by intro h; linarith), if_pos (by linarith)]
  simp only [Matrix.cons_val_zero, Real.rpow_two]
  field_simp
  ring

theorem le_norm3_zero (v : Fin 3 → ℝ) : v 0 ≤ norm3 Real.sqrt v := by
  have h : v 0 ^ 2 ≤ v 0 * v 0 + v 1 * v 1 + v 2 * v 2 := by
    have h1 := mul_self_nonneg (v 1)
    have h2 := mul_self_nonneg (v 2)
    nlinarith
  exact le_trans (le_abs_self _) (Real.abs_le_sqrt h)

theorem GravAccel_KeplerianTestProblem_single (p : Particle ℝ) :
    GravAccel_KeplerianTestProblem (fun x y => x ^ y) singleActive 1 0 (constParticles p) =
      some (Function.update (constParticles p) 0 (keplerianTestBody (fun x y => x ^ y) p)) := by
  simp [GravAccel_KeplerianTestProblem, forActive, singleActive, constParticles]

/-- C20 fails on the code: the acceleration set by `GravAccel_KeplerianTestProblem` is not
bounded.  In the inner region (`r ≤ 0.35`) lines 425-428 give, at distance `e` from the
centre (4,4) along the x axis, the x-acceleration `(1 - e/0.35 - (e/0.35)^2) / e^2`, which
exceeds every bound `B` as `e` tends to 0: for every `B` there is a particle position for
which the routine leaves an acceleration of magnitude greater than `B`. -/
theorem GravAccel_KeplerianTestProblem_unbounded :
    (∀ B : ℝ, ∃ pos : Fin 3 → ℝ, ∃ P',
      GravAccel_KeplerianTestProblem (fun x y => x ^ y) singleActive 1 0
        (constParticles (mkParticle 0 pos 0)) = some P' ∧
      B < norm3 Real.sqrt (P' 0).GravAccel) ∧
    ¬ ∃ B : ℝ, ∀ p : Particle ℝ,
      norm3 Real.sqrt (keplerianTestBody (fun x y => x ^ y) p).GravAccel ≤ B := by
  have key : ∀ B : ℝ, ∃ pos : Fin 3 → ℝ,
      B < norm3 Real.sqrt
        (keplerianTestBody (fun x y => x ^ y) (mkParticle 0 pos 0)).GravAccel := by
    intro B
    have hpos : 0 < |B| + 10 := by positivity
    have he : 0 < 1 / (|B| + 10) := by positivity
    have hle : 1 / (|B| + 10) ≤ 0.1 := by
      rw [div_le_iff₀ hpos]
      have := abs_nonneg B
      linarith
    refine ⟨![4 + 1 / (|B| + 10), 4, 0], ?_⟩
    refine lt_of_lt_of_le ?_ (le_norm3_zero _)
    rw [keplerianTestBody_near_centre _ he hle]
    have hfac : (0.6 : ℝ) ≤ 1 - 1 / (|B| + 10) / 0.35 - (1 / (|B| + 10) / 0.35) ^ 2 := by
      have h1 : 1 / (|B| + 10) / 0.35 ≤ 0.1 / 0.35 := by
        apply div_le_div_of_nonneg_right hle (by norm_num)
      have h2 : 0 ≤ 1 / (|B| + 10) / 0.35 := by positivity
      have h3 : (1 / (|B| + 10) / 0.35) ^ 2 ≤ (0.1 / 0.35) ^ 2 :=
        pow_le_pow_left₀ h2 h1 2
      norm_num at h1 h3 ⊢
      linarith
    have hsq : (1 / (|B| + 10)) ^ 2 = 1 / (|B| + 10) ^ 2 := by
      rw [one_div, one_div, inv_pow]
    rw [hsq, div_div_eq_mul_div, div_one]
    have hB : B ≤ |B| := le_abs_self B
    have hsqpos : 0 ≤ (|B| + 10) ^ 2 := by positivity
    have hbig : 10 * (|B| + 10) ≤ (|B| + 10) ^ 2 := by
      have := abs_nonneg B
      nlinarith
    have hmul : 0.6 * (|B| + 10) ^ 2 ≤
        (1 - 1 / (|B| + 10) / 0.35 - (1 / (|B| + 10) / 0.35) ^ 2) * (|B| + 10) ^ 2 :=
      mul_le_mul_of_nonneg_right hfac hsqpos
    have := abs_nonneg B
    linarith
  constructor
  · intro B
    obtain ⟨pos, h⟩ := key B
    refine ⟨pos, _, GravAccel_KeplerianTestProblem_single _, ?_⟩
    simpa using h
  · rintro ⟨B, hB⟩
    obtain ⟨pos, h⟩ := key B
    exact absurd (hB _) (not_le.mpr h)

/-! ## apply_excision : the hard-coded constants -/

theorem excision_radius_real (G Time : ℝ) :
    excision_radius Real.sqrt (fun x y => x ^ y) G Time = 0 := by
  have h32 : ((0 : ℝ) ^ ((3 : ℝ) / 2)) = 0 := Real.zero_rpow (by norm_num)
  have h13 : ((0 : ℝ) ^ ((1 : ℝ) / 3)) = 0 := Real.zero_rpow (by norm_num)
  simp only [excision_radius, mul_zero, zero_mul, Real.sqrt_zero, h32, add_zero, h13]

theorem excisionBody_radius_zero (cfg : Config) (p : Particle ℝ) :
    excisionBody Real.sqrt cfg 0 p = p := by
  simp only [excisionBody]
  split_ifs with h1 h2 h3 h4
  · exact absurd h3 (not_lt.mpr (Real.sqrt_nonneg _))
  · rfl
  · exact absurd h4 (not_lt.mpr (Real.sqrt_nonneg _))
  · rfl
  · rfl

/-- C22: with the constants hard-coded in `apply_excision` (`EXCISION_MASS = 0`,
`EXCISION_INIT_RADIUS = 0`, `EXCISION_ETA = 1`) the computed `excision_radius` is 0 for every
`All.G` and `All.Time`, and on every active chain that ends the routine returns the particle
state it was given: no particle's mass (nor any other field) is changed, so no particle is
ever excised. -/
theorem apply_excision_never_excises (cfg : Config) (G Time : ℝ) (next : Nat → Int)
    (fuel : Nat) (first : Int) (l : List Nat) (hl : activeChain next fuel first = some l)
    (P : Nat → Particle ℝ) :
    excision_radius Real.sqrt (fun x y => x ^ y) G Time = 0 ∧
    ∃ P', apply_excision Real.sqrt (fun x y => x ^ y) cfg G Time next fuel first P = some P' ∧
      (∀ i, (P' i).Mass = (P i).Mass) ∧ P' = P := by
  have key : (fun j => if j ∈ l then
      excisionBody Real.sqrt cfg (excision_radius Real.sqrt (fun x y => x ^ y) G Time) (P j)
      else P j) = P := by
    funext j
    rw [excision_radius_real, excisionBody_radius_zero, ite_self]
  refine ⟨excision_radius_real G Time, P, ?_, fun _ => rfl, rfl⟩
  rw [apply_excision_eq Real.sqrt _ cfg G Time next fuel first l hl, key]

/-- C22 at a concrete state: one active gas particle of mass 1 sitting at the origin
(distance 0 from the centre), at `All.G = 1` and `All.Time = 2`, keeps its mass. -/
theorem apply_excision_never_excises_witness :
    excision_radius Real.sqrt (fun x y => x ^ y) (1 : ℝ) 2 = 0 ∧
    ∃ P', apply_excision Real.sqrt (fun x y => x ^ y) cfgNone 1 2 singleActive 1 0
        (constParticles (mkParticle 0 0 0)) = some P' ∧
      (∀ i, (P' i).Mass = (constParticles (mkParticle (0 : ℤ) (0 : Fin 3 → ℝ) 0) i).Mass) ∧
      P' = constParticles (mkParticle 0 0 0) :=
  apply_excision_never_excises cfgNone 1 2 singleActive 1 0 [0] activeChain_singleActive
    (constParticles (mkParticle 0 0 0))

/-! ## GravAccel_KeplerianTestProblem : the region boundaries -/

/-- The pass for a slot reads only the five cells of that slot. -/
theorem binarySlotIncrement_congr {R : Type} [LinearOrderedField R] (sqrt : R → R)
    (cfg : Config) (boxHalf : Fin 3 → R) (B B' : Nat → R) (j j' : Nat)
    (h : ∀ n, n < 5 → B (n + j * 5) = B' (n + j' * 5)) (pos : Fin 3 → R) :
    binarySlotIncrement sqrt cfg boxHalf B j pos =
      binarySlotIncrement sqrt cfg boxHalf B' j' pos := by
  have h3 : B (3 + j * 5) = B' (3 + j' * 5) := h 3 (by norm_num)
  have hk : ∀ k : Fin 3, B (k.val + j * 5) = B' (k.val + j' * 5) :=
    fun k => h k.val (by omega)
  simp only [binarySlotIncrement, h3, hk]

/-- Two tables holding the same two records in opposite slots add the same acceleration. -/
theorem binaryIncrement_of_exchanged {R : Type} [LinearOrderedField R] (sqrt : R → R)
    (cfg : Config) (boxHalf : Fin 3 → R) (T T' : Nat → R)
    (h0 : ∀ n, n < 5 → T' (n + 0 * 5) = T (n + 1 * 5))
    (h1 : ∀ n, n < 5 → T' (n + 1 * 5) = T (n + 0 * 5)) (pos : Fin 3 → R) :
    binaryIncrement sqrt cfg boxHalf T' pos = binaryIncrement sqrt cfg boxHalf T pos := by
  simp only [binaryIncrement]
  rw [binarySlotIncrement_congr sqrt cfg boxHalf T' T 0 1 h0,
    binarySlotIncrement_congr sqrt cfg boxHalf T' T 1 0 h1, add_comm]

theorem swapSlots_slot0 {R : Type} (B : Nat → R) (n : Nat) (hn : n < 5) :
    swapSlots B (n + 0 * 5) = B (n + 1 * 5) := by
  simp [swapSlots, hn]

theorem swapSlots_slot1 {R : Type} (B : Nat → R) (n : Nat) (hn : n < 5) :
    swapSlots B (n + 1 * 5) = B (n + 0 * 5) := by
  have h1 : ¬ n + 5 < 5 := by omega
  have h2 : n + 5 < 10 := by omega
  simp [swapSlots, h1, h2]

theorem GravAccel_BinaryOrbit_force_of_exchanged {R : Type} [LinearOrderedField R]
    (sqrt : R → R) (cfg : Config) (boxHalf : Fin 3 → R) (T T' : Nat → R)
    (h0 : ∀ n, n < 5 → T' (n + 0 * 5) = T (n + 1 * 5))
    (h1 : ∀ n, n < 5 → T' (n + 1 * 5) = T (n + 0 * 5))
    (next : Nat → Int) (fuel : Nat) (first : Int) (l : List Nat)
    (hl : activeChain next fuel first = some l) (P : Nat → Particle R) :
    GravAccel_BinaryOrbit_force sqrt cfg boxHalf T' next fuel first P =
      GravAccel_BinaryOrbit_force sqrt cfg boxHalf T next fuel first P := by
  rw [GravAccel_BinaryOrbit_force_eq sqrt cfg boxHalf T' next fuel first l hl,
    GravAccel_BinaryOrbit_force_eq sqrt cfg boxHalf T next fuel first l hl]
  congr 1
  funext j
  rw [binaryIncrement_of_exchanged sqrt cfg boxHalf T T' h0 h1]

theorem positiveRecords_gatherPair {R : Type} [LinearOrderedField R] :
    positiveRecords 1 (gatherPair R) = [0, 1] := by
  simp [positiveRecords, gatherPair, List.range_succ, List.filter]

theorem positiveRecords_gatherPairSwapped {R : Type} [LinearOrderedField R] :
    positiveRecords 1 (gatherPairSwapped R) = [0, 1] := by
  simp [positiveRecords, gatherPairSwapped, List.range_succ, List.filter]

theorem gatherPairSwapped_records {R : Type} [LinearOrderedField R] :
    (∀ k, k < 5 → gatherPairSwapped R (k + 0 * 5) = gatherPair R (k + 1 * 5)) ∧
    (∀ k, k < 5 → gatherPairSwapped R (k + 1 * 5) = gatherPair R (k + 0 * 5)) := by
  constructor <;> intro k hk <;> interval_cases k <;> simp [gatherPair, gatherPairSwapped]

/-- When exactly two gathered records have positive mass, the filter of `FindBinary` leaves
the first in slot 0 and the second in slot 1. -/
theorem FindBinary_filter_two_records {R : Type} [LinearOrderedField R] (NTask : Nat)
    (BHdataall BHdata : Nat → R) (j0 j1 : Nat)
    (h : positiveRecords NTask BHdataall = [j0, j1]) (k : Nat) (hk : k < 5) :
    FindBinary_filter NTask BHdataall BHdata (k + 0 * 5) = BHdataall (k + j0 * 5) ∧
    FindBinary_filter NTask BHdataall BHdata (k + 1 * 5) = BHdataall (k + j1 * 5) := by
  rw [FindBinary_filter_eq, h]
  show copyRecord BHdataall j1 1 (copyRecord BHdataall j0 0 BHdata) (k + 0 * 5) =
      BHdataall (k + j0 * 5) ∧
    copyRecord BHdataall j1 1 (copyRecord BHdataall j0 0 BHdata) (k + 1 * 5) =
      BHdataall (k + j1 * 5)
  constructor
  · rw [copyRecord_apply, if_neg (by omega), copyRecord_apply, if_pos (by omega)]
    congr 1
  · rw [copyRecord_apply, if_pos (by omega)]
    congr 1

/-- C23: the force loop of `GravAccel_BinaryOrbit` (lines 290-304) does not depend on which
anchor occupies which slot.  For every configuration, anchor table and particle state, on an
active chain that ends, the loop returns the same particle state for the table and for the
table with its two five-field slots exchanged.  Consequently, when two gathered buffers hold
the same two positive-mass records in opposite gather order, the tables `FindBinary` builds
from them (lines 270-278) give the same particle state as well. -/
theorem GravAccel_BinaryOrbit_force_slot_order {R : Type} [LinearOrderedField R]
    (sqrt : R → R) (cfg : Config) (boxHalf : Fin 3 → R) (BHdata : Nat → R)
    (next : Nat → Int) (fuel : Nat) (first : Int) (l : List Nat)
    (hl : activeChain next fuel first = some l) (P : Nat → Particle R) :
    (∃ P', GravAccel_BinaryOrbit_force sqrt cfg boxHalf BHdata next fuel first P = some P' ∧
      GravAccel_BinaryOrbit_force sqrt cfg boxHalf (swapSlots BHdata) next fuel first P
        = some P') ∧
    (∀ (NTask : Nat) (A A' T0 T0' : Nat → R) (a b a' b' : Nat),
      positiveRecords NTask A = [a, b] → positiveRecords NTask A' = [a', b'] →
      (∀ k, k < 5 → A' (k + a' * 5) = A (k + b * 5)) →
      (∀ k, k < 5 → A' (k + b' * 5) = A (k + a * 5)) →
      ∃ P', GravAccel_BinaryOrbit_force sqrt cfg boxHalf (FindBinary_filter NTask A T0)
          next fuel first P = some P' ∧
        GravAccel_BinaryOrbit_force sqrt cfg boxHalf (FindBinary_filter NTask A' T0')
          next fuel first P = some P') := by
  constructor
  · refine ⟨_, GravAccel_BinaryOrbit_force_eq sqrt cfg boxHalf BHdata next fuel first l hl P, ?_⟩
    rw [GravAccel_BinaryOrbit_force_of_exchanged sqrt cfg boxHalf BHdata (swapSlots BHdata)
      (swapSlots_slot0 BHdata) (swapSlots_slot1 BHdata) next fuel first l hl P]
    exact GravAccel_BinaryOrbit_force_eq sqrt cfg boxHalf BHdata next fuel first l hl P
  · intro NTask A A' T0 T0' a b a' b' hA hA' hab hba
    have hT := FindBinary_filter_two_records NTask A T0 a b hA
    have hT' := FindBinary_filter_two_records NTask A' T0' a' b' hA'
    refine ⟨_, GravAccel_BinaryOrbit_force_eq sqrt cfg boxHalf _ next fuel first l hl P, ?_⟩
    rw [GravAccel_BinaryOrbit_force_of_exchanged sqrt cfg boxHalf (FindBinary_filter NTask A T0)
      (FindBinary_filter NTask A' T0') ?_ ?_ next fuel first l hl P]
    · exact GravAccel_BinaryOrbit_force_eq sqrt cfg boxHalf _ next fuel first l hl P
    · intro n hn
      rw [(hT' n hn).1, (hT n hn).2, hab n hn]
    · intro n hn
      rw [(hT' n hn).2, (hT n hn).1, hba n hn]

/-- C23 at a concrete state over the reals: one active particle at (3,4,0), anchors of mass 1
at (1,0,0) and of mass 2 at (-1,0,0), stored or gathered in either order. -/
theorem GravAccel_BinaryOrbit_force_slot_order_witness :
    (∃ P', GravAccel_BinaryOrbit_force Real.sqrt cfgBinary 0 (gatherPair ℝ) singleActive 1 0
        (constParticles (mkParticle 0 ![3, 4, 0] ![1, 1, 1])) = some P' ∧
      GravAccel_BinaryOrbit_force Real.sqrt cfgBinary 0 (swapSlots (gatherPair ℝ))
        singleActive 1 0 (constParticles (mkParticle 0 ![3, 4, 0] ![1, 1, 1])) = some P') ∧
    (∃ P', GravAccel_BinaryOrbit_force Real.sqrt cfgBinary 0
        (FindBinary_filter 1 (gatherPair ℝ) (fun _ => 0)) singleActive 1 0
        (constParticles (mkParticle 0 ![3, 4, 0] ![1, 1, 1])) = some P' ∧
      GravAccel_BinaryOrbit_force Real.sqrt cfgBinary 0
        (FindBinary_filter 1 (gatherPairSwapped ℝ) (fun _ => 7)) singleActive 1 0
        (constParticles (mkParticle 0 ![3, 4, 0] ![1, 1, 1])) = some P') :=
  have h := GravAccel_BinaryOrbit_force_slot_order Real.sqrt cfgBinary 0 (gatherPair ℝ)
    singleActive 1 0 [0] activeChain_singleActive
    (constParticles (mkParticle 0 ![3, 4, 0] ![1, 1, 1]))
  ⟨h.1, h.2 1 (gatherPair ℝ) (gatherPairSwapped ℝ) (fun _ => 0) (fun _ => 7) 0 1 0 1
    positiveRecords_gatherPair positiveRecords_gatherPairSwapped
    gatherPairSwapped_records.1 gatherPairSwapped_records.2⟩

/-! ## GravAccel_GrowingDiskPotential : numbers and NaN -/

theorem readTableAt_of_some {R : Type} (table : List R) (i : Int) (x : R)
    (h : readTable table i = some x) : readTableAt table i = Except.ok x := by
  simp only [readTableAt, h]

theorem diskSearch_anyTime_number {R : Type} [LinearOrderedField R] (t : R) (n : Nat) :
    ∀ (k i1 i : Int), diskSearch t n k i1 = some i →
      diskSearch_anyTime (TimeValue.number t) n k i1 = Except.ok i := by
  induction n with
  | zero =>
    intro k i1 i h
    simp only [diskSearch, Option.some.injEq] at h
    simp only [diskSearch_anyTime, h]
  | succ n ih =>
    intro k i1 i h
    simp only [diskSearch] at h
    cases hr : readTable (t_disk_table R) k with
    | none => simp [hr] at h
    | some tk =>
      rw [hr, Option.some_bind] at h
      simp only [diskSearch_anyTime, readTableAt_of_some _ _ _ hr, Except.bind,
        TimeValue.below]
      by_cases hgt : tk > t
      · rw [if_pos hgt] at h
        simp only [Option.some.injEq] at h
        simp [hgt, h]
      · rw [if_neg hgt] at h
        simp only [hgt, decide_False, Bool.false_eq_true, if_false]
        exact ih _ _ _ h

theorem diskIndices_anyTime_number {R : Type} [LinearOrderedField R] (t : R)
    (i0 i1 : Int) (dt : R) (h : diskIndices t = some (i0, i1, dt)) :
    diskIndices_anyTime (TimeValue.number t) = Except.ok (i0, i1, TimeValue.number dt) := by
  simp only [diskIndices] at h
  simp only [diskIndices_anyTime]
  cases h0 : readTable (t_disk_table R) 0 with
  | none => simp [h0] at h
  | some t0 =>
    rw [h0, Option.some_bind] at h
    simp only [readTableAt_of_some _ _ _ h0, Except.bind, TimeValue.le]
    by_cases hle : t ≤ t0
    · rw [if_pos hle] at h
      simp only [Option.some.injEq, Prod.mk.injEq] at h
      simp [hle, ← h.1, ← h.2.1, ← h.2.2]
    · rw [if_neg hle] at h
      simp only [hle, decide_False, Bool.false_eq_true, if_false]
      cases h13 : readTable (t_disk_table R) (n_table - 1) with
      | none => simp [h13] at h
      | some tlast =>
        rw [h13, Option.some_bind] at h
        simp only [readTableAt_of_some _ _ _ h13, TimeValue.ge]
        by_cases hge : t ≥ tlast
        · rw [if_pos hge] at h
          simp only [Option.some.injEq, Prod.mk.injEq] at h
          simp [hge, ← h.1, ← h.2.1, ← h.2.2]
        · rw [if_neg hge] at h
          simp only [hge, decide_False, Bool.false_eq_true, if_false]
          have hn : (n_table - 1).toNat = 13 := rfl
          rw [hn]
          rw [hn] at h
          cases hs : diskSearch t 13 1 0 with
          | none => simp [hs] at h
          | some j1 =>
            rw [hs, Option.some_bind] at h
            rw [diskSearch_anyTime_number t _ _ _ _ hs]
            cases ha : readTable (t_disk_table R) (j1 - 1) with
            | none => simp [ha] at h
            | some ti0 =>
              cases hb : readTable (t_disk_table R) j1 with
              | none => simp [ha, hb] at h
              | some ti1 =>
                simp only [ha, hb, Option.some_bind, Option.some.injEq, Prod.mk.injEq] at h
                simp only [readTableAt_of_some _ _ _ ha, readTableAt_of_some _ _ _ hb,
                  TimeValue.map, ← h.1, ← h.2.1, ← h.2.2]

theorem diskLerp_anyTime_number {R : Type} [LinearOrderedField R] (table : List R)
    (i0 i1 : Int) (dt x : R) (h : diskLerp table i0 i1 dt = some x) :
    diskLerp_anyTime table i0 i1 (TimeValue.number dt) = Except.ok (TimeValue.number x) := by
  simp only [diskLerp] at h
  cases ha : readTable table i0 with
  | none => simp [ha] at h
  | some a =>
    cases hb : readTable table i1 with
    | none => simp [ha, hb] at h
    | some b =>
      simp only [ha, hb, Option.some_bind, Option.some.injEq] at h
      simp only [diskLerp_anyTime, readTableAt_of_some _ _ _ ha, readTableAt_of_some _ _ _ hb,
        Except.bind, TimeValue.map, h]

/-- On a time that is a number the NaN-aware interpolation agrees with
`GrowingDisk_parameters`. -/
theorem GrowingDisk_parameters_anyTime_number {R : Type} [LinearOrderedField R] (t : R)
    (m r z : R) (h : GrowingDisk_parameters t = some (m, r, z)) :
    GrowingDisk_parameters_anyTime (TimeValue.number t) =
      Except.ok (TimeValue.number m, TimeValue.number r, TimeValue.number z) := by
  simp only [GrowingDisk_parameters] at h
  cases hi : diskIndices t with
  | none => simp [hi] at h
  | some idx =>
    obtain ⟨i0, i1, dt⟩ := idx
    rw [hi, Option.some_bind] at h
    cases hm : diskLerp (m_disk_table R) i0 i1 dt with
    | none => simp [hm] at h
    | some m1 =>
      cases hr : diskLerp (r_disk_table R) i0 i1 dt with
      | none => simp [hm, hr] at h
      | some r1 =>
        cases hz : diskLerp (z_disk_table R) i0 i1 dt with
        | none => simp [hm, hr, hz] at h
        | some z1 =>
          simp only [hm, hr, hz, Option.some_bind, Option.some.injEq, Prod.mk.injEq] at h
          simp only [GrowingDisk_parameters_anyTime, diskIndices_anyTime_number t i0 i1 dt hi,
            Except.bind, diskLerp_anyTime_number _ _ _ _ _ hm,
            diskLerp_anyTime_number _ _ _ _ _ hr, diskLerp_anyTime_number _ _ _ _ _ hz,
            h.1, h.2.1, h.2.2]

/-- With `t` NaN every test of the search loop fails and `i1` keeps its initial value. -/
theorem diskSearch_anyTime_NaN {R : Type} [LinearOrderedField R] (n : Nat) :
    ∀ (k : Nat) (i1 : Int), k + n ≤ 14 →
      diskSearch_anyTime (TimeValue.NaN : TimeValue R) n (k : Int) i1 = Except.ok i1 := by
  induction n with
  | zero =>
    intro k i1 _
    rfl
  | succ n ih =>
    intro k i1 hk
    have hr : readTable (t_disk_table R) (k : Int) = some ((t_disk_table R).getD k 0) :=
      readTable_natCast (t_disk_table R) 0 k (by rw [t_disk_table_length]; omega)
    simp only [diskSearch_anyTime, readTableAt_of_some _ _ _ hr, Except.bind,
      TimeValue.below, Bool.false_eq_true, if_false]
    have := ih (k + 1) i1 (by omega)
    push_cast at this
    exact this

theorem diskIndices_anyTime_NaN {R : Type} [LinearOrderedField R] :
    diskIndices_anyTime (TimeValue.NaN : TimeValue R) = Except.error (-1) := by
  have r0 : readTable (t_disk_table R) 0 = some ((t_disk_table R).getD 0 0) :=
    readTable_natCast (t_disk_table R) 0 0 (by rw [t_disk_table_length]; omega)
  have r13 : readTable (t_disk_table R) (n_table - 1) = some ((t_disk_table R).getD 13 0) :=
    readTable_natCast (t_disk_table R) 0 13 (by rw [t_disk_table_length]; omega)
  have hn : (n_table - 1).toNat = 13 := rfl
  have hs := diskSearch_anyTime_NaN (R := R) 13 1 0 (by omega)
  have hm : readTable (t_disk_table R) (0 - 1) = none := rfl
  simp only [diskIndices_anyTime, readTableAt_of_some _ _ _ r0, readTableAt_of_some _ _ _ r13,
    Except.bind, TimeValue.le, TimeValue.ge, Bool.false_eq_true, if_false, hn]
  rw [show ((1 : Nat) : Int) = 1 from rfl] at hs
  rw [hs]
  simp only [readTableAt, hm]
  rfl

/-- C9 fails on the code for `t = NaN`: the tests `t <= t_disk_table[0]` (line 227) and
`t >= t_disk_table[13]` (line 230) are false, in the search loop of line 233 no test
`t_disk_table[k] > t` succeeds, so `i1` keeps its initial value 0 and `i0 = i1 - 1 = -1`;
line 234 then reads `t_disk_table[-1]`, an index outside `0..13`. -/
theorem GrowingDisk_parameters_NaN_reads_outside :
    diskSearch_anyTime (TimeValue.NaN : TimeValue ℚ) 13 1 0 = Except.ok 0 ∧
    diskIndices_anyTime (TimeValue.NaN : TimeValue ℚ) = Except.error (-1) ∧
    GrowingDisk_parameters_anyTime (TimeValue.NaN : TimeValue ℚ) = Except.error (-1) := by
  refine ⟨diskSearch_anyTime_NaN 13 1 0 (by omega), diskIndices_anyTime_NaN, ?_⟩
  simp only [GrowingDisk_parameters_anyTime, diskIndices_anyTime_NaN]
  rfl

/-- C9, amended: flat extrapolation of the disk parameters for every time that is a number.
For every number `t ≤ 0.2` the triple computed by lines 226-238 is the first tabulated one
`(0.0, 1.0, 1.0)`, for every number `t ≥ 1.0` it is the last one `(6.001, 1.150, 0.404)`, and
for every number `t` no table is read outside the index range `0..13`: the computation
answers a triple of numbers, and the two selected indices lie in `0..13`. -/
theorem GrowingDisk_parameters_flat_numbers {R : Type} [LinearOrderedField R] :
    (∀ t : R, t ≤ 0.2 → GrowingDisk_parameters_anyTime (TimeValue.number t) =
      Except.ok (TimeValue.number 0.0, TimeValue.number 1.0, TimeValue.number 1.0)) ∧
    (∀ t : R, t ≥ 1.0 → GrowingDisk_parameters_anyTime (TimeValue.number t) =
      Except.ok (TimeValue.number 6.001, TimeValue.number 1.150, TimeValue.number 0.404)) ∧
    (∀ t : R, ∃ m r z i0 i1 dt,
      GrowingDisk_parameters_anyTime (TimeValue.number t) =
        Except.ok (TimeValue.number m, TimeValue.number r, TimeValue.number z) ∧
      diskIndices_anyTime (TimeValue.number t) = Except.ok (i0, i1, TimeValue.number dt) ∧
      0 ≤ i0 ∧ i0 ≤ 13 ∧ 0 ≤ i1 ∧ i1 ≤ 13) := by
  obtain ⟨h1, h2, h3⟩ := GrowingDisk_parameters_flat (R := R)
  refine ⟨fun t ht => GrowingDisk_parameters_anyTime_number t _ _ _ (h1 t ht),
    fun t ht => GrowingDisk_parameters_anyTime_number t _ _ _ (h2 t ht), fun t => ?_⟩
  obtain ⟨hsome, i0, i1, dt, hidx, hb⟩ := h3 t
  obtain ⟨⟨m, r, z⟩, hv⟩ := Option.isSome_iff_exists.mp hsome
  exact ⟨m, r, z, i0, i1, dt, GrowingDisk_parameters_anyTime_number t m r z hv,
    diskIndices_anyTime_number t i0 i1 dt hidx, hb⟩

/-- C9, amended, at the times 0 (before the table) and 2 (after it). -/
theorem GrowingDisk_parameters_flat_numbers_witness :
    (0 : ℚ) ≤ 0.2 ∧ (2 : ℚ) ≥ 1.0 ∧
    GrowingDisk_parameters_anyTime (TimeValue.number (0 : ℚ)) =
      Except.ok (TimeValue.number 0.0, TimeValue.number 1.0, TimeValue.number 1.0) ∧
    GrowingDisk_parameters_anyTime (TimeValue.number (2 : ℚ)) =
      Except.ok (TimeValue.number 6.001, TimeValue.number 1.150, TimeValue.number 0.404) :=
  ⟨by norm_num, by norm_num, GrowingDisk_parameters_flat_numbers.1 0 (by norm_num),
    GrowingDisk_parameters_flat_numbers.2.1 2 (by norm_num)⟩

/-! ## GravAccel_BinaryOrbit : the force loop and the divisions it evaluates -/

/-- A slot with mass 0 or at zero separation: the pass leaves the particle as it is and
evaluates no division. -/
theorem binarySlotForce_traced_skip {R : Type} [LinearOrderedField R] (sqrt : R → R)
    (cfg : Config) (hP : cfg.BOX_PERIODIC = false) (boxHalf : Fin 3 → R) (BHdata : Nat → R)
    (j : Nat) (p : Particle R)
    (h : BHdata (3 + j * 5) = 0 ∨ anchorPos BHdata j = p.Pos) :
    binarySlotForce_traced sqrt cfg boxHalf BHdata j p = (p, []) := by
  unfold binarySlotForce_traced
  by_cases hm : BHdata (3 + j * 5) = 0
  · simp only [hm, if_true]
  · have hX : anchorPos BHdata j = p.Pos := h.resolve_left hm
    have hdp : ∀ k : Fin 3, p.Pos k - BHdata (k.val + j * 5) = 0 := by
      intro k
      have := congrFun hX k
      simp only [anchorPos] at this
      rw [← this, sub_self]
    simp only [hm, if_false, hP, Bool.false_eq_true, hdp, mul_zero, add_zero, ne_eq,
      not_true_eq_false]

/-- A slot with non-zero mass at non-zero separation: the pass evaluates three divisions, each
by the cube of the separation, which is not zero. -/
theorem binarySlotForce_traced_divisors (cfg : Config) (hP : cfg.BOX_PERIODIC = false)
    (boxHalf : Fin 3 → ℝ) (BHdata : Nat → ℝ) (j : Nat) (p : Particle ℝ)
    (hm : BHdata (3 + j * 5) ≠ 0) (hX : anchorPos BHdata j ≠ p.Pos) :
    (binarySlotForce_traced Real.sqrt cfg boxHalf BHdata j p).2 =
        List.replicate 3 (norm3 Real.sqrt (fun k => p.Pos k - anchorPos BHdata j k) ^ 3) ∧
      norm3 Real.sqrt (fun k => p.Pos k - anchorPos BHdata j k) ^ 3 ≠ 0 := by
  have hv : (fun k : Fin 3 => p.Pos k - anchorPos BHdata j k) ≠ 0 := by
    intro h0
    apply hX
    funext k
    have := congrFun h0 k
    simp only [Pi.zero_apply] at this
    linarith
  have hr2 : (p.Pos 0 - anchorPos BHdata j 0) * (p.Pos 0 - anchorPos BHdata j 0)
      + (p.Pos 1 - anchorPos BHdata j 1) * (p.Pos 1 - anchorPos BHdata j 1)
      + (p.Pos 2 - anchorPos BHdata j 2) * (p.Pos 2 - anchorPos BHdata j 2) ≠ 0 :=
    fun h0 => hv ((sumsq_eq_zero_iff (fun k : Fin 3 => p.Pos k - anchorPos BHdata j k)).mp h0)
  have hnn : 0 ≤ (p.Pos 0 - anchorPos BHdata j 0) * (p.Pos 0 - anchorPos BHdata j 0)
      + (p.Pos 1 - anchorPos BHdata j 1) * (p.Pos 1 - anchorPos BHdata j 1)
      + (p.Pos 2 - anchorPos BHdata j 2) * (p.Pos 2 - anchorPos BHdata j 2) := by
    have h0 := mul_self_nonneg (p.Pos 0 - anchorPos BHdata j 0)
    have h1 := mul_self_nonneg (p.Pos 1 - anchorPos BHdata j 1)
    have h2 := mul_self_nonneg (p.Pos 2 - anchorPos BHdata j 2)
    linarith
  have hs := Real.mul_self_sqrt hnn
  have hpos : Real.sqrt ((p.Pos 0 - anchorPos BHdata j 0) * (p.Pos 0 - anchorPos BHdata j 0)
      + (p.Pos 1 - anchorPos BHdata j 1) * (p.Pos 1 - anchorPos BHdata j 1)
      + (p.Pos 2 - anchorPos BHdata j 2) * (p.Pos 2 - anchorPos BHdata j 2)) ≠ 0 := by
    intro h0
    rw [h0, mul_zero] at hs
    exact hr2 hs.symm
  constructor
  · unfold binarySlotForce_traced
    simp only [anchorPos] at hr2 hs
    simp only [hm, if_false, hP, Bool.false_eq_true, ne_eq, hr2, not_false_eq_true, if_true,
      norm3, anchorPos, List.replicate]
    have e : ∀ r2 : ℝ, Real.sqrt r2 * Real.sqrt r2 = r2 →
        r2 * Real.sqrt r2 = Real.sqrt r2 ^ 3 := by
      intro r2 h
      nth_rewrite 1 [← h]
      ring
    rw [e _ hs]
  · exact pow_ne_zero 3 hpos

/-- C3: force loop of `GravAccel_BinaryOrbit` (`BINARY` defined, `BOX_PERIODIC` not), over
the reals.  On an active chain that ends, the loop returns; every active particle at position
`p` with prior acceleration `a` ends with `a` plus the pulls `-m_j (p - X_j)/|p - X_j|^3` of
the slots `j ∈ {0,1}` with `m_j ≠ 0` and `X_j ≠ p`, all its other fields unchanged; particles
that are not active are unchanged.  A slot with mass 0 or at zero separation contributes
nothing: its pass is the identity and evaluates no division (the list of divisors of the
pass is empty).  A slot with `m_j ≠ 0` and `X_j ≠ p` evaluates exactly three divisions, each
by `|p - X_j|^3 ≠ 0`; so no pass ever divides by zero. -/
theorem GravAccel_BinaryOrbit_force_spec (cfg : Config) (hB : cfg.BINARY = true)
    (hP : cfg.BOX_PERIODIC = false) (boxHalf : Fin 3 → ℝ) (BHdata : Nat → ℝ)
    (next : Nat → Int) (fuel : Nat) (first : Int) (l : List Nat)
    (hl : activeChain next fuel first = some l) (P : Nat → Particle ℝ) :
    ∃ P', GravAccel_BinaryOrbit_force Real.sqrt cfg boxHalf BHdata next fuel first P = some P' ∧
      (∀ i, i ∈ l → P' i = { P i with GravAccel := (P i).GravAccel +
          (anchorPull Real.sqrt BHdata 0 (P i).Pos + anchorPull Real.sqrt BHdata 1 (P i).Pos) }) ∧
      (∀ i, i ∉ l → P' i = P i) ∧
      (∀ j p, BHdata (3 + j * 5) = 0 ∨ anchorPos BHdata j = p.Pos →
        anchorPull Real.sqrt BHdata j p.Pos = 0 ∧
        binarySlotForce Real.sqrt cfg boxHalf BHdata j p = p ∧
        binarySlotForce_traced Real.sqrt cfg boxHalf BHdata j p = (p, [])) ∧
      (∀ j p, BHdata (3 + j * 5) ≠ 0 → anchorPos BHdata j ≠ p.Pos →
        (binarySlotForce_traced Real.sqrt cfg boxHalf BHdata j p).2 =
          List.replicate 3 (norm3 Real.sqrt (fun k => p.Pos k - anchorPos BHdata j k) ^ 3) ∧
        norm3 Real.sqrt (fun k => p.Pos k - anchorPos BHdata j k) ^ 3 ≠ 0) ∧
      (∀ j p d, d ∈ (binarySlotForce_traced Real.sqrt cfg boxHalf BHdata j p).2 → d ≠ 0) := by
  refine ⟨fun j => if j ∈ l then binarySlotForce Real.sqrt cfg boxHalf BHdata 1
      (binarySlotForce Real.sqrt cfg boxHalf BHdata 0 (P j)) else P j, ?_, ?_, ?_, ?_, ?_, ?_⟩
  · rw [GravAccel_BinaryOrbit_force, if_pos hB]
    exact forActive_pointwise next (fun _ p => binarySlotForce Real.sqrt cfg boxHalf BHdata 1
      (binarySlotForce Real.sqrt cfg boxHalf BHdata 0 p)) fuel first l hl P
  · intro i hi
    simp only [hi, if_true]
    rw [binarySlotForce_eq cfg hP, binarySlotForce_eq cfg hP]
    simp only [add_assoc]
  · intro i hi
    simp only [hi, if_false]
  · intro j p h
    have h0 : anchorPull Real.sqrt BHdata j p.Pos = 0 := by
      unfold anchorPull
      rw [if_neg]
      rintro ⟨h1, h2⟩
      rcases h with h | h
      · exact h1 h
      · exact h2 h
    have ht := binarySlotForce_traced_skip Real.sqrt cfg hP boxHalf BHdata j p h
    refine ⟨h0, ?_, ht⟩
    rw [binarySlotForce, ht]
  · intro j p hm hX
    exact binarySlotForce_traced_divisors cfg hP boxHalf BHdata j p hm hX
  · intro j p d hd
    by_cases h : BHdata (3 + j * 5) = 0 ∨ anchorPos BHdata j = p.Pos
    · rw [binarySlotForce_traced_skip Real.sqrt cfg hP boxHalf BHdata j p h] at hd
      simp at hd
    · push_neg at h
      obtain ⟨h1, h2⟩ := binarySlotForce_traced_divisors cfg hP boxHalf BHdata j p h.1 h.2
      rw [h1] at hd
      rw [List.eq_of_mem_replicate hd]
      exact h2

/-- C3 at a concrete state: one active particle at (3,4,0), a mass-2 anchor at the origin in
slot 0 and an empty slot 1. -/
theorem GravAccel_BinaryOrbit_force_spec_witness :
    ∃ P', GravAccel_BinaryOrbit_force Real.sqrt cfgBinary 0 (tableOneAnchor ℝ) singleActive 1 0
        (constParticles (mkParticle 0 ![3, 4, 0] ![1, 1, 1])) = some P' ∧
      (∀ i, i ∈ [0] → P' i = { constParticles (mkParticle 0 ![3, 4, 0] ![1, 1, 1]) i with
        GravAccel := (constParticles (mkParticle 0 ![3, 4, 0] ![1, 1, 1]) i).GravAccel +
          (anchorPull Real.sqrt (tableOneAnchor ℝ) 0
              (constParticles (mkParticle 0 ![3, 4, 0] ![1, 1, 1]) i).Pos +
            anchorPull Real.sqrt (tableOneAnchor ℝ) 1
              (constParticles (mkParticle 0 ![3, 4, 0] ![1, 1, 1]) i).Pos) }) ∧
      (∀ i, i ∉ [0] → P' i = constParticles (mkParticle 0 ![3, 4, 0] ![1, 1, 1]) i) ∧
      (∀ j p, tableOneAnchor ℝ (3 + j * 5) = 0 ∨ anchorPos (tableOneAnchor ℝ) j = p.Pos →
        anchorPull Real.sqrt (tableOneAnchor ℝ) j p.Pos = 0 ∧
        binarySlotForce Real.sqrt cfgBinary 0 (tableOneAnchor ℝ) j p = p ∧
        binarySlotForce_traced Real.sqrt cfgBinary 0 (tableOneAnchor ℝ) j p = (p, [])) ∧
      (∀ j p, tableOneAnchor ℝ (3 + j * 5) ≠ 0 → anchorPos (tableOneAnchor ℝ) j ≠ p.Pos →
        (binarySlotForce_traced Real.sqrt cfgBinary 0 (tableOneAnchor ℝ) j p).2 =
          List.replicate 3
            (norm3 Real.sqrt (fun k => p.Pos k - anchorPos (tableOneAnchor ℝ) j k) ^ 3) ∧
        norm3 Real.sqrt (fun k => p.Pos k - anchorPos (tableOneAnchor ℝ) j k) ^ 3 ≠ 0) ∧
      (∀ j p d, d ∈ (binarySlotForce_traced Real.sqrt cfgBinary 0 (tableOneAnchor ℝ) j p).2 →
        d ≠ 0) :=
  GravAccel_BinaryOrbit_force_spec cfgBinary rfl rfl 0 (tableOneAnchor ℝ) singleActive 1 0 [0]
    activeChain_singleActive (constParticles (mkParticle 0 ![3, 4, 0] ![1, 1, 1]))

/-! ## Zeroing pre-pass followed by the whole routine GravAccel_BinaryOrbit -/

end AnalyticGravity
